import Mathlib

/-!
# csv_handler: the upload decoder, the publish loop, the consumer and the read handler

A shallow embedding of `api.HandleFileUpload`, `api.HandleGetData`,
`rabbitmq.RabbitMQ.Publish` with its liveness check, `consumer.StartWorker`,
`consumer.processMessage`, `postgres.Client.InsertCsvData` and
`postgres.convertFloatTimestamp`, together with the parts of the Go standard library they
call (`strings`, `strconv`, `time`, `encoding/json`, `encoding/base64`, `unicode/utf8`).

Go strings are byte sequences; a byte is a natural number (a real byte is below 256).
-/

namespace CsvHandler

/-! ## Strings -/

/-- A Go `string`: a sequence of bytes. -/
abbrev GoString := List Nat

/-- The bytes of a 7-bit text literal. -/
def ascii (s : String) : GoString := s.toList.map Char.toNat

/-- Go `strings.Split(s, sep)` for a one-byte separator: the pieces between the separators;
`n` separators give `n + 1` pieces, so the empty string gives one empty piece. -/
def Split : GoString → Nat → List GoString
  | [], _ => [[]]
  | c :: cs, sep =>
    if c = sep then [] :: Split cs sep
    else match Split cs sep with
      | [] => [[c]]
      | piece :: pieces => (c :: piece) :: pieces

/-- Go `strings.HasSuffix(s, suffix)` for a one-byte suffix. -/
def HasSuffix (s : GoString) (b : Nat) : Bool := s.getLast? == some b

/-- Go `strings.ReplaceAll(s, old, "")` for a one-byte `old`: every such byte is removed. -/
def RemoveAll (s : GoString) (old : Nat) : GoString := s.filter (fun c => c != old)

/-- Go `strings.ReplaceAll(s, "\\\"", "\"")`: every non-overlapping backslash-quote pair,
found left to right, becomes a quote. -/
def ReplaceEscapedQuotes : GoString → GoString
  | [] => []
  | [c] => [c]
  | c :: d :: rest =>
    if c = 92 ∧ d = 34 then 34 :: ReplaceEscapedQuotes rest
    else c :: ReplaceEscapedQuotes (d :: rest)

/-- Go `strings.TrimLeft(s, cutset)` for a one-byte cutset. -/
def trimLeftByte : GoString → Nat → GoString
  | [], _ => []
  | c :: cs, b => if c = b then trimLeftByte cs b else c :: cs

/-- Go `strings.Trim(s, cutset)` for a one-byte cutset. -/
def TrimByte (s : GoString) (b : Nat) : GoString :=
  (trimLeftByte (trimLeftByte s b).reverse b).reverse

/-- The line feed byte. -/
def NL : Nat := 10
/-- The carriage return byte. -/
def CR : Nat := 13
/-- The comma byte. -/
def COMMA : Nat := 44

/-! ## UTF-8 (`unicode/utf8`) -/

/-- A continuation byte, `0x80 ..= 0xBF`. -/
def isCont (b : Nat) : Bool := decide (0x80 ≤ b) && decide (b ≤ 0xBF)

/-- Go `utf8.DecodeRuneInString` at a byte at or above 0x80: the width of the well-formed
encoding that starts the string, or `none` where Go reports `RuneError` with width 1. -/
def runeWidth : GoString → Option Nat
  | b0 :: b1 :: rest =>
    if 0xC2 ≤ b0 ∧ b0 ≤ 0xDF then
      if isCont b1 then some 2 else none
    else if 0xE0 ≤ b0 ∧ b0 ≤ 0xEF then
      let lo := if b0 = 0xE0 then 0xA0 else 0x80
      let hi := if b0 = 0xED then 0x9F else 0xBF
      if lo ≤ b1 ∧ b1 ≤ hi then
        match rest with
        | b2 :: _ => if isCont b2 then some 3 else none
        | [] => none
      else none
    else if 0xF0 ≤ b0 ∧ b0 ≤ 0xF4 then
      let lo := if b0 = 0xF0 then 0x90 else 0x80
      let hi := if b0 = 0xF4 then 0x8F else 0xBF
      if lo ≤ b1 ∧ b1 ≤ hi then
        match rest with
        | b2 :: b3 :: _ => if isCont b2 && isCont b3 then some 4 else none
        | _ => none
      else none
    else none
  | _ => none

/-- Go `utf8.EncodeRune`: the UTF-8 bytes of a code point; a surrogate or a value above
0x10FFFF is written as U+FFFD. -/
def encodeRune (r : Nat) : GoString :=
  if r < 0x80 then [r]
  else if r < 0x800 then [0xC0 + r / 64, 0x80 + r % 64]
  else if (0xD800 ≤ r ∧ r ≤ 0xDFFF) ∨ 0x10FFFF < r then [0xEF, 0xBF, 0xBD]
  else if r < 0x10000 then [0xE0 + r / 4096, 0x80 + r / 64 % 64, 0x80 + r % 64]
  else [0xF0 + r / 262144, 0x80 + r / 4096 % 64, 0x80 + r / 64 % 64, 0x80 + r % 64]

/-! ## Records -/

/-- A Go `map[string]string` under construction: the keys in the order they were first
assigned, each with its current value. -/
abbrev Record := List (GoString × GoString)

/-- Go `obj[key] = val`: an existing key gets the new value, a new key is added. -/
def Record.set : Record → GoString → GoString → Record
  | [], key, val => [(key, val)]
  | (k, v) :: rest, key, val =>
    if k = key then (k, val) :: rest else (k, v) :: Record.set rest key val

/-- Go `obj[key]` with the comma-ok form: the value of a key that is present. -/
def Record.get : Record → GoString → Option GoString
  | [], _ => none
  | (k, v) :: rest, key => if k = key then some v else Record.get rest key

/-- The keys of the map. -/
def Record.keys (obj : Record) : List GoString := obj.map Prod.fst

/-- The loop `for i, key := range headers { obj[key] = values[i] }` of `HandleFileUpload`;
`none` is the run-time panic of `values[i]` with `i` out of range. -/
def assignValues : List GoString → List GoString → Record → Option Record
  | [], _, obj => some obj
  | _ :: _, [], _ => none
  | key :: headers, v :: values, obj => assignValues headers values (obj.set key v)

/-! ## JSON encoding (`encoding/json`, `Marshal`) -/

/-- The digit of `"0123456789abcdef"` at index `n`. -/
def hexDigit (n : Nat) : Nat := if n < 10 then 48 + n else 87 + n

/-- The body of Go `appendString(dst, src, escapeHTML = true)` of `encoding/json`, the loop
over the bytes of `src`: quote and backslash get a backslash, line feed, carriage return
and tab their letter, the other bytes below 0x20 and `<`, `>`, `&` the form `\u00XX`,
U+2028 and U+2029 the form `\u202X`, a byte that starts no well-formed UTF-8 encoding
the six bytes `\ufffd`; everything else is copied. (Toolchains from Go 1.22 on write `\b` and `\f` for
the bytes 8 and 12; the decoder reads both forms alike.) The fuel bounds the number of
steps, each of which consumes at least one byte. -/
def appendStringAux : Nat → GoString → GoString
  | 0, _ => []
  | _ + 1, [] => []
  | fuel + 1, b :: rest =>
    if b < 0x80 then
      if b = 92 ∨ b = 34 then 92 :: b :: appendStringAux fuel rest
      else if b = 10 then 92 :: 110 :: appendStringAux fuel rest
      else if b = 13 then 92 :: 114 :: appendStringAux fuel rest
      else if b = 9 then 92 :: 116 :: appendStringAux fuel rest
      else if b < 0x20 ∨ b = 60 ∨ b = 62 ∨ b = 38 then
        92 :: 117 :: 48 :: 48 :: hexDigit (b / 16) :: hexDigit (b % 16) :: appendStringAux fuel rest
      else b :: appendStringAux fuel rest
    else
      match runeWidth (b :: rest) with
      | none => ascii "\\ufffd" ++ appendStringAux fuel rest
      | some n =>
        let enc := (b :: rest).take n
        if enc = [0xE2, 0x80, 0xA8] then ascii "\\u2028" ++ appendStringAux fuel (rest.drop (n - 1))
        else if enc = [0xE2, 0x80, 0xA9] then ascii "\\u2029" ++ appendStringAux fuel (rest.drop (n - 1))
        else enc ++ appendStringAux fuel (rest.drop (n - 1))

/-- Go `json.Marshal(s)` for a `string`: the escaped bytes between two quotes. It never
fails. -/
def MarshalString (s : GoString) : GoString :=
  34 :: appendStringAux s.length s ++ [34]

/-- Go `a <= b` on strings: byte-wise lexicographic order. -/
def strLe : GoString → GoString → Bool
  | [], _ => true
  | _ :: _, [] => false
  | a :: as, b :: bs => if a < b then true else if b < a then false else strLe as bs

/-- One step of sorting the map entries by key. -/
def insertByKey (kv : GoString × GoString) : Record → Record
  | [] => [kv]
  | e :: rest => if strLe kv.1 e.1 then kv :: e :: rest else e :: insertByKey kv rest

/-- The entries of a map in the order `encoding/json` writes them: sorted by key. -/
def sortByKey (obj : Record) : Record := obj.foldr insertByKey []

/-- The members of a JSON object, `"key":"value"` separated by commas. -/
def marshalMembers : Record → GoString
  | [] => []
  | [(k, v)] => MarshalString k ++ 58 :: MarshalString v
  | (k, v) :: rest => MarshalString k ++ 58 :: MarshalString v ++ 44 :: marshalMembers rest

/-- Go `json.Marshal(obj)` for a `map[string]string`: a JSON object with the keys sorted.
It never fails, so the handler's branch on its error is dead. -/
def MarshalMap (obj : Record) : GoString :=
  123 :: marshalMembers (sortByKey obj) ++ [125]

/-! ## The upload handler (`api.HandleFileUpload`) -/

/-- How a run of the handler ends before its last statement. -/
inductive Exit where
  /-- `rabbitMQ.Publish` returned an error: status 500, return. -/
  | publishFailed
  /-- `values[i]` with `i` out of range: a run-time panic. -/
  | indexOutOfRange
  deriving DecidableEq, Repr

/-- One call of `rabbitMQ.Publish(queue_name, string(jsonData))`. -/
structure PublishCall where
  /-- The map built from the line. -/
  obj : Record
  /-- The payload, `json.Marshal(obj)`. -/
  jsonData : GoString
  /-- Whether the call returned no error. -/
  ok : Bool
  deriving DecidableEq, Repr

/-- The state of one run of the handler: the publish calls made so far and, once the
handler has returned early or panicked, the reason. -/
structure Handler where
  /-- The calls of `rabbitMQ.Publish`, in order. -/
  calls : List PublishCall
  /-- Set when the run is over before the final `WriteHeader(200)`. -/
  exit : Option Exit
  deriving DecidableEq, Repr

/-- The statements both the loop body and the final flush run on a non-empty line: strip
the carriage returns, split on commas, assign the values to the header names by position,
marshal the map and publish it. `publishOk n` tells whether the call number `n` (from 0)
of `rabbitMQ.Publish` succeeds. -/
def publishLine (headers : List GoString) (publishOk : Nat → Bool) (h : Handler)
    (line : GoString) : Handler :=
  let line := RemoveAll line CR
  let values := Split line COMMA
  match assignValues headers values [] with
  | none => { h with exit := some Exit.indexOutOfRange }
  | some obj =>
    let jsonData := MarshalMap obj
    let ok := publishOk h.calls.length
    { calls := h.calls ++ [⟨obj, jsonData, ok⟩],
      exit := if ok then none else some Exit.publishFailed }

/-- One iteration of `for _, line := range lines`: nothing once the handler is over, an
empty line is skipped, any other line is published. -/
def lineStep (headers : List GoString) (publishOk : Nat → Bool) (h : Handler)
    (line : GoString) : Handler :=
  match h.exit with
  | some _ => h
  | none => if line = [] then h else publishLine headers publishOk h line

/-- The first half of the body of the read loop: the carry-over is put before the chunk,
the data is split on line feeds, and when the data does not end in a line feed the last
piece becomes the new carry-over and leaves the lines; otherwise the carry-over is
cleared. The result is the lines to process and the new carry-over. -/
def splitChunk (incompleteLine chunk : GoString) : List GoString × GoString :=
  let data := incompleteLine ++ chunk
  let lines := Split data NL
  let lastLine := lines.getLastD []
  if !HasSuffix data NL then (lines.dropLast, lastLine) else (lines, [])

/-- The read loop over the chunks the buffered reader returns, the last of them together
with `io.EOF`: each chunk is split and its lines are processed in order. The state is the
handler and the carry-over. -/
def readLoop (headers : List GoString) (publishOk : Nat → Bool) :
    List GoString → Handler × GoString → Handler × GoString
  | [], st => st
  | chunk :: chunks, (h, incompleteLine) =>
    match h.exit with
    | some _ => (h, incompleteLine)
    | none =>
      let (lines, incompleteLine) := splitChunk incompleteLine chunk
      readLoop headers publishOk chunks (lines.foldl (lineStep headers publishOk) h, incompleteLine)

/-- The body of `HandleFileUpload` after the header line: the read loop from an empty
carry-over, then the flush of a non-empty carry-over as one more line. -/
def uploadBody (headers : List GoString) (publishOk : Nat → Bool) (chunks : List GoString) :
    Handler :=
  let (h, incompleteLine) := readLoop headers publishOk chunks (⟨[], none⟩, [])
  match h.exit with
  | some _ => h
  | none => if incompleteLine ≠ [] then publishLine headers publishOk h incompleteLine else h

/-- The status code the client gets: 200 at the end of the handler, 500 after a failed
publish, none when the handler panicked. -/
def Handler.status (h : Handler) : Option Nat :=
  match h.exit with
  | none => some 200
  | some Exit.publishFailed => some 500
  | some Exit.indexOutOfRange => none

/-- The maps the decoder built, in order. -/
def Handler.records (h : Handler) : List Record := h.calls.map PublishCall.obj

/-- The payloads passed to `rabbitMQ.Publish`, in order. -/
def Handler.payloads (h : Handler) : List GoString := h.calls.map PublishCall.jsonData

/-- The payloads of the calls that succeeded: the messages that reached the queue. -/
def Handler.delivered (h : Handler) : List GoString :=
  (h.calls.filter PublishCall.ok).map PublishCall.jsonData

/-- A broker that accepts every publish. -/
def alwaysOk : Nat → Bool := fun _ => true

/-! ## The header line -/

/-- Go `bufio.Reader.ReadString(delim)` on the whole upload: the bytes up to and including
the first delimiter (everything when there is none, with `io.EOF`), and the bytes left
for the later reads. -/
def ReadString : GoString → Nat → GoString × GoString
  | [], _ => ([], [])
  | c :: cs, delim =>
    if c = delim then ([c], cs)
    else ((c :: (ReadString cs delim).1), (ReadString cs delim).2)

/-- Strips the three bytes `first second third` from the front as often as they stand
there. -/
def trimLeftTriple (first second third : Nat) : GoString → GoString
  | b0 :: b1 :: b2 :: rest =>
    if b0 = first ∧ b1 = second ∧ b2 = third then trimLeftTriple first second third rest
    else b0 :: b1 :: b2 :: rest
  | s => s

/-- Go `strings.Trim(s, "\ufeff")`: the byte order mark U+FEFF, in UTF-8 the bytes
EF BB BF, is stripped from the end and then from the front as often as it stands there. -/
def TrimBOM (s : GoString) : GoString :=
  trimLeftTriple 0xEF 0xBB 0xBF (trimLeftTriple 0xBF 0xBB 0xEF s.reverse).reverse

/-- The three-byte encodings of the white space `unicode.IsSpace` accepts above U+00FF:
U+1680, U+2000 to U+200A, U+2028, U+2029, U+202F, U+205F and U+3000. -/
def isSpace3 (b0 b1 b2 : Nat) : Bool :=
  (b0 == 0xE1 && b1 == 0x9A && b2 == 0x80) ||
  (b0 == 0xE2 && b1 == 0x80 &&
    ((decide (0x80 ≤ b2) && decide (b2 ≤ 0x8A)) || b2 == 0xA8 || b2 == 0xA9 || b2 == 0xAF)) ||
  (b0 == 0xE2 && b1 == 0x81 && b2 == 0x9F) ||
  (b0 == 0xE3 && b1 == 0x80 && b2 == 0x80)

/-- The ASCII white space: tab, line feed, vertical tab, form feed, carriage return and
space. -/
def isAsciiSpace (b : Nat) : Bool := (decide (9 ≤ b) && decide (b ≤ 13)) || b == 32

/-- The width of the white-space rune at the front of the string, 0 when there is none;
U+0085 and U+00A0 are the two-byte ones. -/
def spaceWidth : GoString → Nat
  | [] => 0
  | b0 :: rest =>
    if isAsciiSpace b0 then 1
    else match rest with
      | [] => 0
      | b1 :: rest2 =>
        if b0 = 0xC2 ∧ (b1 = 0x85 ∨ b1 = 0xA0) then 2
        else match rest2 with
          | [] => 0
          | b2 :: _ => if isSpace3 b0 b1 b2 then 3 else 0

/-- The width of the white-space rune at the end of the string, whose bytes are given last
byte first; 0 when there is none. -/
def spaceWidthLast : GoString → Nat
  | [] => 0
  | c0 :: rest =>
    if isAsciiSpace c0 then 1
    else match rest with
      | [] => 0
      | c1 :: rest2 =>
        if c1 = 0xC2 ∧ (c0 = 0x85 ∨ c0 = 0xA0) then 2
        else match rest2 with
          | [] => 0
          | c2 :: _ => if isSpace3 c2 c1 c0 then 3 else 0

/-- Drops white-space runes, as measured by `width`, from the front while there are any. -/
def trimWhile (width : GoString → Nat) : Nat → GoString → GoString
  | 0, s => s
  | fuel + 1, s =>
    match width s with
    | 0 => s
    | w + 1 => trimWhile width fuel (s.drop (w + 1))

/-- Go `strings.TrimSpace(s)`: leading and trailing white space removed. -/
def TrimSpace (s : GoString) : GoString :=
  let left := trimWhile spaceWidth s.length s
  (trimWhile spaceWidthLast left.length left.reverse).reverse

/-- The header names: the first line without byte order mark and surrounding white space,
split on commas. -/
def parseHeaders (firstLine : GoString) : List GoString :=
  Split (TrimSpace (TrimBOM firstLine)) COMMA

/-- The handler `api.HandleFileUpload` on the bytes of the uploaded file, once the form
file and the broker instance are there and with reads that return no error other than
`io.EOF`: the first line gives the header names, and `cut` is how the reads after it cut
the rest of the file into chunks. -/
def HandleFileUpload (publishOk : Nat → Bool) (file : GoString)
    (cut : GoString → List GoString) : Handler :=
  let firstLine := (ReadString file NL).1
  let headers := parseHeaders firstLine
  uploadBody headers publishOk (cut (ReadString file NL).2)

/-- The rest of the file read as one chunk. -/
def oneChunk (rest : GoString) : List GoString := [rest]

/-- The rest of the file read in chunks of at most `n + 1` bytes (the handler asks for 100
bytes a read). The fuel bounds the number of reads. -/
def chunksOfAux (n : Nat) : Nat → GoString → List GoString
  | 0, _ => []
  | _ + 1, [] => []
  | fuel + 1, b :: rest => (b :: rest).take (n + 1) :: chunksOfAux n fuel ((b :: rest).drop (n + 1))

/-- The rest of the file read in chunks of at most `n + 1` bytes. -/
def chunksOf (n : Nat) (rest : GoString) : List GoString := chunksOfAux n rest.length rest

/-! ## The decoder the handler refines -/

/-- The data lines of a body: its pieces between line feeds that are not empty. -/
def dataLines (body : GoString) : List GoString :=
  (Split body NL).filter (fun line => line ≠ [])

/-- The values of a line: the pieces between commas, once the carriage returns are gone. -/
def lineValues (line : GoString) : List GoString := Split (RemoveAll line CR) COMMA

/-- The positional zip as the specification words it: name `i` of the header maps to
value `i`, for the positions both have. -/
def zipRecord (headers values : List GoString) : Record :=
  (headers.zip values).foldl (fun obj kv => obj.set kv.1 kv.2) []

/-- The Record of a line under a header. -/
def lineRecord (headers : List GoString) (line : GoString) : Record :=
  zipRecord headers (lineValues line)

/-- A line with at least as many values as the header has names. -/
def enoughValues (headers : List GoString) (line : GoString) : Prop :=
  headers.length ≤ (lineValues line).length

instance (headers : List GoString) (line : GoString) : Decidable (enoughValues headers line) :=
  inferInstanceAs (Decidable (headers.length ≤ (lineValues line).length))

/-- The publish call of a line with enough values: its Record, the Record's encoding and
the broker's answer. -/
def lineCall (headers : List GoString) (ok : Bool) (line : GoString) : PublishCall :=
  ⟨lineRecord headers line, MarshalMap (lineRecord headers line), ok⟩

/-- The decoder as the specification words it: every non-empty line of the body, in
order, goes through the per-line statements, until the handler is over. -/
def decodeLines (headers : List GoString) (publishOk : Nat → Bool) (body : GoString) :
    Handler :=
  (dataLines body).foldl (lineStep headers publishOk) ⟨[], none⟩

/-! ## JSON decoding (`encoding/json`, `Unmarshal`) -/

/-- A value `json.Unmarshal` stores in an `interface{}`: `nil`, a `bool`, a `float64` (kept
as the text of its literal), a `string`, a `[]interface{}` or a `map[string]interface{}`
(the members in the order of the text; a later member of the same name wins). -/
inductive JVal where
  | null
  | bool (b : Bool)
  | number (literal : GoString)
  | str (s : GoString)
  | array (items : List JVal)
  | object (members : List (GoString × JVal))

/-- The white space of JSON: space, tab, line feed and carriage return. -/
def isJsonSpace (b : Nat) : Bool := b == 32 || b == 9 || b == 10 || b == 13

/-- Skips the white space before a token. -/
def skipSpace : GoString → GoString
  | [] => []
  | b :: rest => if isJsonSpace b then skipSpace rest else b :: rest

/-- The value of a hexadecimal digit. -/
def hexVal (b : Nat) : Option Nat :=
  if 48 ≤ b ∧ b ≤ 57 then some (b - 48)
  else if 97 ≤ b ∧ b ≤ 102 then some (b - 87)
  else if 65 ≤ b ∧ b ≤ 70 then some (b - 55)
  else none

/-- Go `getu4` of `encoding/json`: the code unit of a `\uXXXX` escape at the front of the
string, `none` where Go returns -1. -/
def getu4 : GoString → Option Nat
  | b0 :: b1 :: a :: b :: c :: d :: _ =>
    if b0 = 92 ∧ b1 = 117 then
      match hexVal a, hexVal b, hexVal c, hexVal d with
      | some w, some x, some y, some z => some (((w * 16 + x) * 16 + y) * 16 + z)
      | _, _, _, _ => none
    else none
  | _ => none

/-- The byte a one-letter escape stands for; the scanner accepts these eight letters. -/
def unescapeByte (e : Nat) : Option Nat :=
  if e = 34 ∨ e = 92 ∨ e = 47 then some e
  else if e = 98 then some 8
  else if e = 102 then some 12
  else if e = 110 then some 10
  else if e = 114 then some 13
  else if e = 116 then some 9
  else none

/-- Puts decoded bytes before the rest of a decoded string. -/
def prependBytes (bytes : GoString) : Option (GoString × GoString) → Option (GoString × GoString)
  | none => none
  | some (s, rest) => some (bytes ++ s, rest)

/-- A string literal after its opening quote, as the scanner accepts it and `unquote`
decodes it: the decoded bytes and the text after the closing quote. A byte below 0x20, an
unknown escape or a missing closing quote is an error; a `\u` escape is written in UTF-8, a
surrogate pair as one code point and a lone surrogate as U+FFFD; a byte that starts no
well-formed UTF-8 encoding becomes U+FFFD. -/
def scanString : Nat → GoString → Option (GoString × GoString)
  | 0, _ => none
  | _ + 1, [] => none
  | fuel + 1, c :: rest =>
    if c = 34 then some ([], rest)
    else if c = 92 then
      match rest with
      | [] => none
      | e :: rest2 =>
        if e = 117 then
          match getu4 (c :: rest) with
          | none => none
          | some rr =>
            let after := rest2.drop 4
            if 0xD800 ≤ rr ∧ rr < 0xE000 then
              match getu4 after with
              | some rr1 =>
                if rr < 0xDC00 ∧ 0xDC00 ≤ rr1 ∧ rr1 < 0xE000 then
                  prependBytes (encodeRune ((rr - 0xD800) * 1024 + (rr1 - 0xDC00) + 0x10000))
                    (scanString fuel (after.drop 6))
                else prependBytes [0xEF, 0xBF, 0xBD] (scanString fuel after)
              | none => prependBytes [0xEF, 0xBF, 0xBD] (scanString fuel after)
            else prependBytes (encodeRune rr) (scanString fuel after)
        else
          match unescapeByte e with
          | some b => prependBytes [b] (scanString fuel rest2)
          | none => none
    else if c < 0x20 then none
    else if c < 0x80 then prependBytes [c] (scanString fuel rest)
    else
      match runeWidth (c :: rest) with
      | none => prependBytes [0xEF, 0xBF, 0xBD] (scanString fuel rest)
      | some n => prependBytes ((c :: rest).take n) (scanString fuel (rest.drop (n - 1)))

/-- A decimal digit. -/
def isDigit (b : Nat) : Bool := decide (48 ≤ b) && decide (b ≤ 57)

/-- The number the digits write. -/
def natOfDigits (ds : GoString) : Nat := ds.foldl (fun n d => 10 * n + (d - 48)) 0

/-- Whether `strconv.ParseFloat` converts the literal without a range error: the value,
the digits read as a natural number times the power of ten, is below `2^1024 - 2^970`, the
least magnitude that rounds to infinity (written here as `(2^54 - 1) * 2^970`). -/
def numberInRange (digits : GoString) (fracLen : Nat) (expNeg : Bool) (expDigits : GoString) :
    Bool :=
  let d := natOfDigits digits
  let e := natOfDigits expDigits
  let bound := (2 ^ 54 - 1) * (2 ^ 194) ^ 5
  if expNeg then decide (d < bound * 10 ^ (e + fracLen))
  else if fracLen ≤ e then decide (d * 10 ^ (e - fracLen) < bound)
  else decide (d < bound * 10 ^ (fracLen - e))

/-- A number literal at the front of the text: an optional minus, `0` or a digit from 1 to
9 followed by digits, an optional fraction with at least one digit, an optional exponent
with at least one digit. The result is the literal and the text after it; `none` for a
malformed literal and for one `strconv.ParseFloat` rejects as out of range. -/
def scanNumber (s : GoString) : Option (GoString × GoString) :=
  let s1 := if s.head? == some 45 then s.drop 1 else s
  match s1 with
  | [] => none
  | d :: s2 =>
    if !isDigit d then none
    else
      let intDigits := if d = 48 then [d] else d :: s2.takeWhile isDigit
      let s3 := s1.drop intDigits.length
      let hasFrac := s3.head? == some 46
      let fracDigits := if hasFrac then (s3.drop 1).takeWhile isDigit else []
      if hasFrac && fracDigits.isEmpty then none
      else
        let s4 := if hasFrac then s3.drop (1 + fracDigits.length) else s3
        let hasExp := s4.head? == some 101 || s4.head? == some 69
        let s5 := s4.drop 1
        let expSign := if s5.head? == some 43 || s5.head? == some 45 then s5.take 1 else []
        let expDigits := (s5.drop expSign.length).takeWhile isDigit
        if hasExp && expDigits.isEmpty then none
        else
          let rest := if hasExp then s5.drop (expSign.length + expDigits.length) else s4
          let literal := s.take (s.length - rest.length)
          if numberInRange (intDigits ++ fracDigits) fracDigits.length
              (hasExp && expSign == [45]) (if hasExp then expDigits else [])
          then some (literal, rest) else none

/-- The deepest nesting of arrays and objects the scanner accepts. -/
def maxNestingDepth : Nat := 10000

mutual
/-- One JSON value at the front of the text (white space already skipped): the value and
the text after it. `depth` is the number of arrays and objects that are open. -/
def parseValue : Nat → Nat → GoString → Option (JVal × GoString)
  | 0, _, _ => none
  | _ + 1, _, [] => none
  | fuel + 1, depth, c :: rest =>
    if c = 123 then
      if depth < maxNestingDepth then
        match skipSpace rest with
        | [] => none
        | d :: rest2 =>
          if d = 125 then some (JVal.object [], rest2)
          else parseMembers fuel (depth + 1) (d :: rest2) []
      else none
    else if c = 91 then
      if depth < maxNestingDepth then
        match skipSpace rest with
        | [] => none
        | d :: rest2 =>
          if d = 93 then some (JVal.array [], rest2)
          else parseElements fuel (depth + 1) (d :: rest2) []
      else none
    else if c = 34 then
      match scanString (rest.length + 1) rest with
      | none => none
      | some (s, rest2) => some (JVal.str s, rest2)
    else if (c :: rest).take 4 = ascii "true" then some (JVal.bool true, rest.drop 3)
    else if (c :: rest).take 5 = ascii "false" then some (JVal.bool false, rest.drop 4)
    else if (c :: rest).take 4 = ascii "null" then some (JVal.null, rest.drop 3)
    else
      match scanNumber (c :: rest) with
      | none => none
      | some (literal, rest2) => some (JVal.number literal, rest2)
/-- The elements of an array from the front of one element on, up to the closing
bracket. -/
def parseElements : Nat → Nat → GoString → List JVal → Option (JVal × GoString)
  | 0, _, _, _ => none
  | fuel + 1, depth, s, acc =>
    match parseValue fuel depth s with
    | none => none
    | some (v, rest) =>
      match skipSpace rest with
      | [] => none
      | d :: rest2 =>
        if d = 44 then parseElements fuel depth (skipSpace rest2) (acc ++ [v])
        else if d = 93 then some (JVal.array (acc ++ [v]), rest2)
        else none
/-- The members of an object from the front of one member name on, up to the closing
brace. -/
def parseMembers : Nat → Nat → GoString → List (GoString × JVal) → Option (JVal × GoString)
  | 0, _, _, _ => none
  | _ + 1, _, [], _ => none
  | fuel + 1, depth, q :: s, acc =>
    if q = 34 then
      match scanString (s.length + 1) s with
      | none => none
      | some (key, rest) =>
        match skipSpace rest with
        | [] => none
        | colon :: rest2 =>
          if colon = 58 then
            match parseValue fuel depth (skipSpace rest2) with
            | none => none
            | some (v, rest3) =>
              match skipSpace rest3 with
              | [] => none
              | d :: rest4 =>
                if d = 44 then parseMembers fuel depth (skipSpace rest4) (acc ++ [(key, v)])
                else if d = 125 then some (JVal.object (acc ++ [(key, v)]), rest4)
                else none
          else none
    else none
end

/-- The Go value `map[string]interface{}` after `json.Unmarshal`. -/
abbrev Data := List (GoString × JVal)

/-- Go `data[key]`: the value of the last member of that name, `nil` when there is none. -/
def Data.get (data : Data) (key : GoString) : JVal :=
  match data.reverse.find? (fun kv => kv.1 == key) with
  | some kv => kv.2
  | none => JVal.null

/-- Go `json.Unmarshal(text, &data)` for `var data map[string]interface{}`: the text must be
one JSON value between optional white space; an object fills the map, `null` leaves it
`nil`, any other value is a type error. `none` is a returned error. -/
def Unmarshal (text : GoString) : Option Data :=
  match parseValue (text.length + 1) 0 (skipSpace text) with
  | none => none
  | some (v, rest) =>
    if skipSpace rest = [] then
      match v with
      | JVal.object members => some members
      | JVal.null => some []
      | _ => none
    else none

/-- The text of a JSON string value. -/
def JVal.asString : JVal → Option GoString
  | JVal.str s => some s
  | _ => none

/-! ## The broker, the store and the cache -/

/-- The body `RabbitMQ.Publish` sends for a payload: `json.Marshal(payload)`, where the
payload is the string the handler passed, so the body is a JSON string literal. -/
def publishBody (payload : GoString) : GoString := MarshalString payload

/-- The eight values `InsertCsvData` passes to `stmt.Exec`. -/
structure Row where
  id : JVal
  first_name : JVal
  last_name : JVal
  email_address : JVal
  created_at : Option GoString
  deleted_at : Option GoString
  merged_at : Option GoString
  parent_user_id : JVal

/-- A call the consumer makes to the store, the cache or the broker. -/
inductive Event where
  /-- `c.db.Prepare(query)` of `InsertCsvData`. -/
  | prepare
  /-- `stmt.Exec(value1, ..., value8)` of `InsertCsvData`. -/
  | exec (row : Row)
  /-- `myredis.Set(key, value, time.Hour)`. -/
  | cacheSet (key value : GoString)
  /-- `delivery.Ack(multiple)`. -/
  | ack (tag : Nat) (multiple : Bool)
  /-- `delivery.Nack(multiple, requeue)`. -/
  | nack (tag : Nat) (multiple requeue : Bool)

/-- The store, the cache and the broker as the consumer sees them: whether the call that
ends the given history of calls returns no error. -/
abbrev World := List Event → Bool

/-- A world in which every call succeeds. -/
def acceptAll : World := fun _ => true

/-- How a call of `InsertCsvData` or `processMessage` ends, with the history of calls at
that point: a `nil` error, an error, or a run-time panic. -/
inductive Result where
  | ok (trace : List Event)
  | error (trace : List Event)
  | panic (trace : List Event)

/-- The method `postgres.Client.InsertCsvData`: prepare the statement (an error returns),
read the four plain values, convert the three time stamps, whose type assertion
`.(string)` panics on a value that is absent or not a string, replace a `parent_user_id`
equal to the string `-1` by `nil`, and execute (an error returns). `convert` is
`convertFloatTimestamp`. -/
def InsertCsvData (world : World) (convert : GoString → Option GoString) (data : Data)
    (trace : List Event) : Result :=
  let trace1 := trace ++ [Event.prepare]
  if !world trace1 then Result.error trace1
  else
    let value1 := data.get (ascii "id")
    let value2 := data.get (ascii "first_name")
    let value3 := data.get (ascii "last_name")
    let value4 := data.get (ascii "email_address")
    match (data.get (ascii "created_at")).asString, (data.get (ascii "deleted_at")).asString,
        (data.get (ascii "merged_at")).asString with
    | some created, some deleted, some merged =>
      let value8 :=
        match data.get (ascii "parent_user_id") with
        | JVal.str s => if s = ascii "-1" then JVal.null else JVal.str s
        | v => v
      let trace2 := trace1 ++
        [Event.exec ⟨value1, value2, value3, value4, convert created, convert deleted,
          convert merged, value8⟩]
      if world trace2 then Result.ok trace2 else Result.error trace2
    | _, _, _ => Result.panic trace1

/-! ## The consumer (`consumer.processMessage`, `consumer.StartWorker`) -/

/-- The function `consumer.processMessage`: replace every backslash-quote by a quote, trim
the quotes at both ends, unmarshal (an error returns), insert into the store (an error
returns), then set the cache key `data["id"].(string)`, an assertion that panics when the
id is absent or not a string; an error of the cache is printed only. -/
def processMessage (world : World) (convert : GoString → Option GoString)
    (message : GoString) (trace : List Event) : Result :=
  let str := TrimByte (ReplaceEscapedQuotes message) 34
  match Unmarshal str with
  | none => Result.error trace
  | some data =>
    match InsertCsvData world convert data trace with
    | Result.error trace1 => Result.error trace1
    | Result.panic trace1 => Result.panic trace1
    | Result.ok trace1 =>
      match (data.get (ascii "id")).asString with
      | none => Result.panic trace1
      | some id => Result.ok (trace1 ++ [Event.cacheSet id str])

/-- A run of the worker: the calls it made and whether a panic ended it. -/
structure WorkerRun where
  trace : List Event
  crashed : Bool

/-- The function `consumer.StartWorker` once its clients, the queue and the delivery
channel are there: the loop `for delivery := range deliveryChan` over the bodies of the
deliveries the channel yields, in order; `tag` is the delivery tag of the first of them,
and the broker counts the tags up by one a delivery. An error of `processMessage`
is answered by `delivery.Nack(false, false)` and `continue`, no error by
`delivery.Ack(false)`; an error of either call is logged only. A panic of
`processMessage` is not recovered and ends the worker. -/
def StartWorker (world : World) (convert : GoString → Option GoString) :
    List GoString → Nat → List Event → WorkerRun
  | [], _, trace => ⟨trace, false⟩
  | body :: bodies, tag, trace =>
    match processMessage world convert body trace with
    | Result.error trace1 =>
      StartWorker world convert bodies (tag + 1) (trace1 ++ [Event.nack tag false false])
    | Result.ok trace1 =>
      StartWorker world convert bodies (tag + 1) (trace1 ++ [Event.ack tag false])
    | Result.panic trace1 => ⟨trace1, true⟩

/-- The tags of the deliveries the calls settle, in order, each with `true` for an `Ack` and
`false` for a `Nack`. -/
def settlements : List Event → List (Nat × Bool)
  | [] => []
  | Event.ack tag _ :: rest => (tag, true) :: settlements rest
  | Event.nack tag _ _ :: rest => (tag, false) :: settlements rest
  | _ :: rest => settlements rest

/-- The history of calls a result carries. -/
def Result.trace : Result → List Event
  | Result.ok trace => trace
  | Result.error trace => trace
  | Result.panic trace => trace

/-- The text `processMessage` hands to `json.Unmarshal`. -/
def unwrapBody (message : GoString) : GoString :=
  TrimByte (ReplaceEscapedQuotes message) 34

/-- The producer followed by the consumer's decoding: the Record is marshalled by the
handler, marshalled again by `RabbitMQ.Publish`, and the body is unwrapped and
unmarshalled by `processMessage`. -/
def roundTrip (obj : Record) : Option Data :=
  Unmarshal (unwrapBody (publishBody (MarshalMap obj)))

/-- The members of a decoded payload, each with its text when it is a string. -/
def stringFields (data : Data) : List (GoString × Option GoString) :=
  data.map (fun kv => (kv.1, kv.2.asString))

/-- Whether the call returned a `nil` error. -/
def Result.isOk : Result → Bool
  | Result.ok _ => true
  | _ => false

/-- Whether the call panicked. -/
def Result.isPanic : Result → Bool
  | Result.panic _ => true
  | _ => false

/-! ## Floating point (`strconv.ParseFloat`, conversion to `int64`) -/

/-- A Go `float64`: a finite value `(-1)^neg * mant * 2^exp` with `mant < 2^53`, an
infinity or a NaN. -/
inductive Float64 where
  | finite (neg : Bool) (mant : Nat) (exp : Int)
  | inf (neg : Bool)
  | nan

/-- The number of bits of `n` less one, `floor (log2 n)` for `n > 0`; the fuel bounds the
halvings. -/
def log2Aux : Nat → Nat → Nat
  | 0, _ => 0
  | fuel + 1, n => if n < 2 then 0 else log2Aux fuel (n / 2) + 1

/-- The exponent of the leading bit: `floor (log2 n)` for `n > 0`. -/
def floorLog2 (n : Nat) : Nat := log2Aux n n

/-- Whether `n / d` is at least `2^k`. -/
def geTwoPow (n d : Nat) (k : Int) : Bool :=
  if 0 ≤ k then decide (d * 2 ^ k.toNat ≤ n) else decide (d ≤ n * 2 ^ (-k).toNat)

/-- The float64 nearest to the positive rational `n / d`, ties to the even mantissa, with
gradual underflow; `none` when the result is an infinity, which `ParseFloat` reports as a
range error. -/
def roundToFloat64 (neg : Bool) (n d : Nat) : Option Float64 :=
  if n = 0 then some (Float64.finite neg 0 0)
  else
    let l0 : Int := (floorLog2 n : Int) - (floorLog2 d : Int)
    let l : Int := if geTwoPow n d l0 then l0 else l0 - 1
    let e : Int := max (l - 52) (-1074)
    let num : Nat := if 0 ≤ e then n else n * 2 ^ (-e).toNat
    let den : Nat := if 0 ≤ e then d * 2 ^ e.toNat else d
    let q := num / den
    let r := num % den
    let m := if den < 2 * r ∨ (2 * r = den ∧ q % 2 = 1) then q + 1 else q
    let m2 := if m = 2 ^ 53 then 2 ^ 52 else m
    let e2 : Int := if m = 2 ^ 53 then e + 1 else e
    if 971 < e2 then none else some (Float64.finite neg m2 e2)

/-- Go `lower(c)` where it is compared with a letter: an upper-case letter becomes lower
case. -/
def lower (c : Nat) : Nat := if 65 ≤ c ∧ c ≤ 90 then c + 32 else c

/-- Go `commonPrefixLenIgnoreCase(s, prefix)` for a lower-case prefix. -/
def commonPrefixLenIgnoreCase : GoString → GoString → Nat
  | c :: s, p :: forward => if lower c = p then commonPrefixLenIgnoreCase s forward + 1 else 0
  | _, _ => 0

/-- Go `special(s)` of `strconv`: an optionally signed `inf` or `infinity` and an unsigned
`nan`, in any case; the value and the number of bytes it takes. -/
def special (s : GoString) : Option (Float64 × Nat) :=
  match s with
  | [] => none
  | c :: rest =>
    if c = 43 ∨ c = 45 ∨ c = 105 ∨ c = 73 then
      let signed := decide (c = 43 ∨ c = 45)
      let body := if signed then rest else c :: rest
      let n := commonPrefixLenIgnoreCase body (ascii "infinity")
      let n := if 3 < n ∧ n < 8 then 3 else n
      if n = 3 ∨ n = 8 then some (Float64.inf (decide (c = 45)), (if signed then 1 else 0) + n)
      else none
    else if c = 110 ∨ c = 78 then
      if commonPrefixLenIgnoreCase (c :: rest) (ascii "nan") = 3 then some (Float64.nan, 3)
      else none
    else none

/-- The state of the digit loop of `readFloat`: the digits read, leading zeros dropped, as
one number; how many they are; the position of the point; and what has been seen. -/
structure Mantissa where
  value : Nat
  nd : Nat
  dp : Int
  sawdot : Bool
  sawdigits : Bool
  underscores : Bool

/-- The digit loop of `readFloat` in base 10 or, with `hex`, base 16: underscores are
skipped and noted, the first point is noted, a leading zero moves the point, any other
digit is appended; the loop stops at a second point or at any other byte. The result is
the state and the text left. -/
def readMantissa (hex : Bool) : GoString → Mantissa → Mantissa × GoString
  | [], st => (st, [])
  | c :: rest, st =>
    if c = 95 then readMantissa hex rest { st with underscores := true }
    else if c = 46 then
      if st.sawdot then (st, c :: rest)
      else readMantissa hex rest { st with sawdot := true, dp := st.nd }
    else if 48 ≤ c ∧ c ≤ 57 then
      if c = 48 ∧ st.nd = 0 then
        readMantissa hex rest { st with sawdigits := true, dp := st.dp - 1 }
      else
        readMantissa hex rest
          { st with sawdigits := true, nd := st.nd + 1, value := st.value * (if hex then 16 else 10) + (c - 48) }
    else if hex ∧ 97 ≤ lower c ∧ lower c ≤ 102 then
      readMantissa hex rest
        { st with sawdigits := true, nd := st.nd + 1, value := st.value * 16 + (lower c - 87) }
    else (st, c :: rest)

/-- The digits of the exponent of `readFloat`: underscores are skipped and noted, the
value stops growing once it has reached 10000. The result is the value, whether an
underscore was seen, and the text left. -/
def readExponent : GoString → Nat → Bool → Nat × Bool × GoString
  | [], e, u => (e, u, [])
  | c :: rest, e, u =>
    if c = 95 then readExponent rest e true
    else if 48 ≤ c ∧ c ≤ 57 then readExponent rest (if e < 10000 then e * 10 + (c - 48) else e) u
    else (e, u, c :: rest)

/-- The loop of Go `underscoreOK` after sign and base prefix; `saw` is 0 at the beginning
of the number, 1 after a digit or the base prefix, 2 after an underscore and 3 after
anything else. -/
def underscoreLoop (hex : Bool) : GoString → Nat → Bool
  | [], saw => saw != 2
  | c :: rest, saw =>
    if (48 ≤ c ∧ c ≤ 57) ∨ (hex ∧ 97 ≤ lower c ∧ lower c ≤ 102) then underscoreLoop hex rest 1
    else if c = 95 then (if saw != 1 then false else underscoreLoop hex rest 2)
    else if saw = 2 then false
    else underscoreLoop hex rest 3

/-- Go `underscoreOK(s)`: an underscore stands only between digits or between a base
prefix and a digit. -/
def underscoreOK (s : GoString) : Bool :=
  let s := if s.head? = some 45 ∨ s.head? = some 43 then s.drop 1 else s
  match s with
  | z :: b :: rest =>
    if z = 48 ∧ (lower b = 98 ∨ lower b = 111 ∨ lower b = 120) then
      underscoreLoop (lower b == 120) rest 1
    else underscoreLoop false (z :: b :: rest) 0
  | s => underscoreLoop false s 0

/-- Go `strconv.ParseFloat(s, 64)`: `none` is a returned error, for a syntax error and for
a value out of range. The text is `inf`, `infinity` or `nan` as `special` reads them, or
an optional sign, an optional `0x`, digits with at most one point and at least one digit,
and an exponent, optional in base 10 and required after `0x` (`e` or `p`, an optional
sign, at least one digit), with underscores only where `underscoreOK` allows them. The
value is the float64 nearest to the number written. -/
def ParseFloat (s : GoString) : Option Float64 :=
  match special s with
  | some (f, n) => if n = s.length then some f else none
  | none =>
    let neg := decide (s.head? = some 45)
    let s1 := if s.head? = some 43 ∨ s.head? = some 45 then s.drop 1 else s
    if s1 = [] then none
    else
      let hex := decide (2 < s1.length) && s1.head? == some 48 && ((s1.drop 1).head?.map lower) == some 120
      let s2 := if hex then s1.drop 2 else s1
      let (st, s3) := readMantissa hex s2 ⟨0, 0, 0, false, false, false⟩
      if !st.sawdigits then none
      else
        let dp : Int := if st.sawdot then st.dp else st.nd
        let dp : Int := if hex then dp * 4 else dp
        let nd : Int := if hex then (st.nd : Int) * 4 else st.nd
        let hasExp := (s3.head?.map lower) == some (if hex then 112 else 101)
        if !hasExp && hex then none
        else
          let s4 := s3.drop 1
          let esign : Int := if s4.head? = some 45 then -1 else 1
          let s5 := if s4.head? = some 43 ∨ s4.head? = some 45 then s4.drop 1 else s4
          if hasExp && !(s5.head?.any (fun c => decide (48 ≤ c ∧ c ≤ 57))) then none
          else
            let (e, eunder, s6) := if hasExp then readExponent s5 0 false else (0, false, s3)
            let x : Int := dp + (e : Int) * esign - nd
            if (st.underscores || eunder) && !underscoreOK s then none
            else if s6 ≠ [] then none
            else
              let base : Nat := if hex then 2 else 10
              if 0 ≤ x then roundToFloat64 neg (st.value * base ^ x.toNat) 1
              else roundToFloat64 neg st.value (base ^ (-x).toNat)

/-- The bytes a text that `strconv.ParseFloat` accepts is made of: digits, signs, the
point, the underscore and, in either case, the letters of the hexadecimal digits, of the
exponent and base marks `e`, `p`, `x` and of `infinity` and `nan`. -/
def floatByte (c : Nat) : Prop :=
  (48 ≤ c ∧ c ≤ 57) ∨ c = 43 ∨ c = 45 ∨ c = 46 ∨ c = 95 ∨ lower c ∈ ascii "abcdefinptxy"

instance (c : Nat) : Decidable (floatByte c) :=
  inferInstanceAs (Decidable ((48 ≤ c ∧ c ≤ 57) ∨ c = 43 ∨ c = 45 ∨ c = 46 ∨ c = 95
    ∨ lower c ∈ ascii "abcdefinptxy"))

/-! ### Numeric texts, the texts `convertFloatTimestamp` may convert -/

/-- The text without the sign at its front, when it has one. -/
def unsigned (s : GoString) : GoString :=
  if s.head? = some 43 ∨ s.head? = some 45 then s.drop 1 else s

/-- The names of the values that are not numbers: `nan`, and `inf` or `infinity` with an
optional sign, in any letter case. -/
def specialName (s : GoString) : Bool :=
  decide (s.map lower = ascii "nan") || decide ((unsigned s).map lower = ascii "inf")
    || decide ((unsigned s).map lower = ascii "infinity")

/-- A digit of a mantissa: a decimal digit, after `0x` also a letter from `a` to `f`. -/
def digitByte (hex : Bool) (c : Nat) : Bool :=
  isDigit c || (hex && decide (97 ≤ lower c ∧ lower c ≤ 102))

/-- A byte of a mantissa: a digit, an underscore or a point. -/
def mantissaByte (hex : Bool) (c : Nat) : Bool := digitByte hex c || c == 95 || c == 46

/-- An exponent: its mark in either case, an optional sign, a digit, and then digits and
underscores only. -/
def exponentText (mark : Nat) (s : GoString) : Bool :=
  match s with
  | [] => false
  | c :: rest =>
    lower c == mark && (unsigned rest).head?.any isDigit
      && (unsigned rest).all (fun c => isDigit c || c == 95)

/-- A number as a text: an optional sign, an optional `0x`, a mantissa, which is digits,
underscores and points with at least one digit and at most one point, and an exponent,
marked `e` and optional without `0x`, marked `p` and required after `0x`. -/
def numberText (s : GoString) : Bool :=
  let body := unsigned s
  let hex := decide (2 < body.length) && body.head? == some 48
    && (body.drop 1).head?.map lower == some 120
  let digits := if hex then body.drop 2 else body
  let mantissa := digits.takeWhile (mantissaByte hex)
  let rest := digits.dropWhile (mantissaByte hex)
  mantissa.any (digitByte hex) && decide (mantissa.count 46 ≤ 1)
    && (if rest.isEmpty then !hex else exponentText (if hex then 112 else 101) rest)

/-- A numeric text, as the texts `convertFloatTimestamp` may convert: a number or the name
of an infinity or of the value that is not a number. -/
def numericText (s : GoString) : Bool := specialName s || numberText s

/-- Go `f == -1` on a float64. -/
def Float64.isMinusOne : Float64 → Bool
  | Float64.finite neg mant exp => neg && mant == 2 ^ 52 && exp == -52
  | _ => false

/-- Go `int64(f)`: the value truncated toward zero. For a NaN, an infinity or a value
outside the range of `int64` the result depends on the implementation; it is
`outOfRange f`. -/
def Float64.toInt64 (outOfRange : Float64 → Int) : Float64 → Int
  | Float64.finite neg mant exp =>
    let magnitude : Nat := if 0 ≤ exp then mant * 2 ^ exp.toNat else mant / 2 ^ (-exp).toNat
    let v : Int := if neg then -(magnitude : Int) else magnitude
    if -(2 ^ 63 : Int) ≤ v ∧ v < 2 ^ 63 then v
    else outOfRange (Float64.finite neg mant exp)
  | f => outOfRange f

/-! ## Time (`time.Unix`, `Time.Format`) -/

/-- The year of its era, 0 to 399, of the day `doe` of the era, 0 to 146096. An era is 400
years that begin on a first of March. -/
def yearOfEra (doe : Nat) : Nat := (doe - doe / 1460 + doe / 36524 - doe / 146096) / 365

/-- The month and the day of the month of the day `doy`, 0 to 365, of a year that begins
on the first of March. -/
def monthDay (doy : Nat) : Nat × Nat :=
  let mp := (5 * doy + 2) / 153
  (if mp < 10 then mp + 3 else mp - 9, doy - (153 * mp + 2) / 5 + 1)

/-- The calendar date, in the proleptic Gregorian calendar the package `time` uses, of the
day that lies `days` days after 1970-01-01: year, month and day of the month. The days
are counted in eras of 400 years that begin on a first of March. -/
def civilFromDays (days : Int) : Int × Nat × Nat :=
  let z := days + 719468
  let era := z / 146097
  let doe := (z % 146097).toNat
  let yoe := yearOfEra doe
  let doy := doe - (365 * yoe + yoe / 4 - yoe / 100)
  let md := monthDay doy
  let y : Int := (yoe : Int) + era * 400
  (if md.1 ≤ 2 then y + 1 else y, md.1, md.2)

/-- The rule of the Gregorian calendar: a year is a leap year when it is a multiple of 4
and not of 100, or a multiple of 400. -/
def isLeapYear (y : Int) : Bool := y % 4 == 0 && (y % 100 != 0 || y % 400 == 0)

/-- The number of days of the month `m`, February having `feb` days. -/
def monthLength (feb : Nat) (m : Nat) : Nat :=
  if m = 2 then feb else if m = 4 ∨ m = 6 ∨ m = 9 ∨ m = 11 then 30 else 31

/-- The number of days of the month `m` of the year `y`. -/
def daysInMonth (y : Int) (m : Nat) : Nat := monthLength (if isLeapYear y then 29 else 28) m

/-- The date of the day after a date, by the rule of the calendar: the next day of the
month, the first of the next month, or the first of January of the next year. -/
def nextDay (date : Int × Nat × Nat) : Int × Nat × Nat :=
  if date.2.2 < daysInMonth date.1 date.2.1 then (date.1, date.2.1, date.2.2 + 1)
  else if date.2.1 < 12 then (date.1, date.2.1 + 1, 1)
  else (date.1 + 1, 1, 1)

/-- The first day of the year `y` of an era, counted from the first day of the era. -/
def yearStart (y : Nat) : Nat := 365 * y + y / 4 - y / 100 + y / 400

/-- The decimal digits of a number, at least one; the fuel bounds their number. -/
def decimalDigitsAux : Nat → Nat → GoString
  | 0, _ => []
  | fuel + 1, n => if n < 10 then [48 + n] else decimalDigitsAux fuel (n / 10) ++ [48 + n % 10]

/-- The decimal digits of a number, at least one. -/
def decimalDigits (n : Nat) : GoString := decimalDigitsAux (n + 1) n

/-- Go `appendInt(b, x, width)` of the package `time`: a minus sign for a negative number,
then the digits, padded with zeros on the left to the width. -/
def appendInt (x : Int) (width : Nat) : GoString :=
  (if x < 0 then [45] else [])
    ++ List.replicate (width - (decimalDigits x.natAbs).length) 48 ++ decimalDigits x.natAbs

/-- Go `time.Unix(sec, 0).Format("2006-01-02 15:04:05")`: the date and the time of day of
the instant `sec` seconds after the Unix epoch in the zone of the process, `time.Local`;
`zone sec` is the offset of that zone east of UTC, in seconds, at the instant. -/
def formatUnix (zone : Int → Int) (sec : Int) : GoString :=
  let localSec := sec + zone sec
  let date := civilFromDays (localSec / 86400)
  let rem := (localSec % 86400).toNat
  appendInt date.1 4 ++ [45] ++ appendInt date.2.1 2 ++ [45] ++ appendInt date.2.2 2 ++ [32]
    ++ appendInt (rem / 3600) 2 ++ [58] ++ appendInt (rem % 3600 / 60) 2 ++ [58]
    ++ appendInt (rem % 60) 2

/-- The zone UTC. -/
def utc : Int → Int := fun _ => 0

/-! ## The time stamp conversion (`postgres.convertFloatTimestamp`) -/

/-- The function `convertFloatTimestamp`: parse the text as a float64 (an error gives
`nil`), give `nil` for the value -1, otherwise convert to `int64`, divide by 1000 with
Go's integer division, which truncates toward zero, take the instant that many seconds
after the Unix epoch and format it as `2006-01-02 15:04:05` in the zone of the process.
`none` is the `nil` pointer. -/
def convertFloatTimestamp (zone : Int → Int) (outOfRange : Float64 → Int)
    (timestamp : GoString) : Option GoString :=
  match ParseFloat timestamp with
  | none => none
  | some f =>
    if f.isMinusOne then none
    else some (formatUnix zone (Int.tdiv (f.toInt64 outOfRange) 1000))

/-- A decimal integer as a text: an optional sign, `+` or `-`, and digits. -/
def decimalInteger (sign : GoString) (digits : GoString) : Prop :=
  (sign = [] ∨ sign = [43] ∨ sign = [45]) ∧ digits ≠ [] ∧ ∀ c ∈ digits, 48 ≤ c ∧ c ≤ 57

instance (sign digits : GoString) : Decidable (decimalInteger sign digits) :=
  inferInstanceAs (Decidable ((sign = [] ∨ sign = [43] ∨ sign = [45]) ∧ digits ≠ []
    ∧ ∀ c ∈ digits, 48 ≤ c ∧ c ≤ 57))

/-- The integer a signed digit string writes. -/
def integerValue (sign : GoString) (digits : GoString) : Int :=
  if sign = [45] then -(natOfDigits digits : Int) else natOfDigits digits

/-! ## The broker connection (`rabbitmq.RabbitMQ`) -/

/-- An `*amqp.Connection`, as far as the client looks at it: whether it is closed. -/
structure Connection where
  closed : Bool
  deriving DecidableEq, Repr

/-- An `*amqp.Channel`: whether it is closed. -/
structure Channel where
  closed : Bool
  deriving DecidableEq, Repr

/-- The struct `RabbitMQ`: the connection and the channel, each possibly `nil`. -/
structure RabbitMQ where
  connection : Option Connection
  channel : Option Channel
  deriving DecidableEq, Repr

/-- What the broker answers: whether `amqp.DialConfig` connects, whether `conn.Channel()`
opens a channel, and whether a publish on an open channel is accepted. The broker is
reachable when the first two hold. -/
structure Broker where
  dial : Bool
  openChannel : Bool
  accept : Bool
  deriving DecidableEq, Repr

/-- The errors the client returns. -/
inductive BrokerError where
  /-- `failed to connect to RabbitMQ`. -/
  | connectFailed
  /-- `failed to open RabbitMQ channel`. -/
  | channelFailed
  /-- `RabbitMQ already initialized`. -/
  | alreadyInitialized
  /-- `failed to reconnect to RabbitMQ: ` followed by the cause. -/
  | reconnectFailed (cause : BrokerError)
  /-- The error of `channel.Publish` itself. -/
  | channelError
  /-- `failed to publish message: ` followed by the cause. -/
  | publishFailed (cause : BrokerError)
  deriving DecidableEq, Repr

/-- The function `NewRabbitMQ`: dial, then open a channel. -/
def NewRabbitMQ (broker : Broker) : Except BrokerError RabbitMQ :=
  if !broker.dial then Except.error BrokerError.connectFailed
  else if !broker.openChannel then Except.error BrokerError.channelFailed
  else Except.ok ⟨some ⟨false⟩, some ⟨false⟩⟩

/-- The function `InitializeRabbitMQ` on the process-wide variable `rabbitMQInstance`: an
error when the variable is not `nil`, otherwise a new client is made and stored. The
result is the error, if any, and the variable afterwards. -/
def InitializeRabbitMQ (broker : Broker) (rabbitMQInstance : Option RabbitMQ) :
    Option BrokerError × Option RabbitMQ :=
  match rabbitMQInstance with
  | some current => (some BrokerError.alreadyInitialized, some current)
  | none =>
    match NewRabbitMQ broker with
    | Except.error err => (some err, none)
    | Except.ok rabbitMQ => (none, some rabbitMQ)

/-- The method `RabbitMQ.CheckConnection` on the receiver `r`: when its connection is `nil`
or closed, `InitializeRabbitMQ` is called and its error is wrapped. The receiver itself is
not assigned to. -/
def CheckConnection (broker : Broker) (r : RabbitMQ) (rabbitMQInstance : Option RabbitMQ) :
    Option BrokerError × Option RabbitMQ :=
  if r.connection = none ∨ r.connection = some ⟨true⟩ then
    match InitializeRabbitMQ broker rabbitMQInstance with
    | (some err, current) => (some (BrokerError.reconnectFailed err), current)
    | (none, current) => (none, current)
  else (none, rabbitMQInstance)

/-- How a call of `RabbitMQ.Publish` ends: the body was handed to the channel and
accepted, an error was returned, or the call panicked on a `nil` channel. -/
inductive PublishOutcome where
  | sent (body : GoString)
  | failed (err : BrokerError)
  | panic
  deriving DecidableEq, Repr

/-- The method `RabbitMQ.Publish` for a string payload: check the connection (an error
returns before anything is sent), marshal the payload, which cannot fail for a string, and
publish on the receiver's channel. -/
def Publish (broker : Broker) (r : RabbitMQ) (rabbitMQInstance : Option RabbitMQ)
    (payload : GoString) : PublishOutcome × Option RabbitMQ :=
  match CheckConnection broker r rabbitMQInstance with
  | (some err, current) => (PublishOutcome.failed (BrokerError.publishFailed err), current)
  | (none, current) =>
    let jsonPayload := publishBody payload
    match r.channel with
    | none => (PublishOutcome.panic, current)
    | some channel =>
      if channel.closed || !broker.accept then
        (PublishOutcome.failed (BrokerError.publishFailed BrokerError.channelError), current)
      else (PublishOutcome.sent jsonPayload, current)

/-! ## The read handler (`api.HandleGetData`) -/

/-- Go `url.Values` as `r.URL.Query()` returns it: the pairs of the query, in order. -/
abbrev Values := List (GoString × GoString)

/-- Go `Values.Get(key)`: the first value of the key, the empty string when there is
none. -/
def Values.Get : Values → GoString → GoString
  | [], _ => []
  | (k, v) :: rest, key => if k = key then v else Values.Get rest key

/-- Go `strconv.Atoi(s)` where `int` has 64 bits: the value and whether an error is
returned. The text is an optional sign and at least one digit; a syntax error gives 0, a
value out of range the nearest end of the range, both with an error. -/
def Atoi (s : GoString) : Int × Bool :=
  let neg := decide (s.head? = some 45)
  let digits := if s.head? = some 43 ∨ s.head? = some 45 then s.drop 1 else s
  if digits = [] ∨ ¬ (∀ c ∈ digits, 48 ≤ c ∧ c ≤ 57) then (0, true)
  else
    let n := natOfDigits digits
    if neg then (if 2 ^ 63 < n then (-(2 ^ 63 : Int), true) else (-(n : Int), false))
    else (if 2 ^ 63 ≤ n then ((2 ^ 63 : Int) - 1, true) else ((n : Int), false))

/-- The function `getPaginationParams`: `limit` and `offset` as `strconv.Atoi` returns
them; the errors and the negative values are looked at by two empty `if` statements
only. -/
def getPaginationParams (values : Values) : Int × Int :=
  ((Atoi (values.Get (ascii "limit"))).1, (Atoi (values.Get (ascii "offset"))).1)

/-- The keys `parseFilters` looks up, in the order of its statements. -/
def filterKeys : List GoString :=
  [ascii "created_at", ascii "deleted_at", ascii "email_address", ascii "first_name",
   ascii "last_name", ascii "id", ascii "parent_user_id"]

/-- The function `parseFilters`: every key of `filterKeys` whose value in the query is not
empty, with that value. -/
def parseFilters (values : Values) : List (GoString × GoString) :=
  (filterKeys.filter (fun key => values.Get key ≠ [])).map (fun key => (key, values.Get key))

/-- A value the driver puts into a row that is scanned into `interface{}`: `nil`, an
`int64`, a `float64`, a `bool`, a `[]byte`, a `string` or a `time.Time`, the last as its
instant (seconds and nanoseconds since the Unix epoch) and the offset of its zone east of
UTC in seconds. -/
inductive DriverValue where
  | null
  | int64 (i : Int)
  | float64 (f : Float64)
  | bool (b : Bool)
  | bytes (b : GoString)
  | string (s : GoString)
  | time (sec : Int) (nsec : Nat) (offset : Int)

/-- A row as `GetData` returns it, a `map[string]interface{}`: the columns with their
values. -/
abbrev RowData := List (GoString × DriverValue)

/-- The letter of the standard base64 alphabet for a number below 64. -/
def base64Char (n : Nat) : Nat :=
  if n < 26 then 65 + n else if n < 52 then 71 + n else if n < 62 then n - 4
  else if n = 62 then 43 else 47

/-- Go `base64.StdEncoding.EncodeToString`: three bytes give four letters, the last group
is padded with `=`. -/
def base64 : GoString → GoString
  | [] => []
  | [a] => [base64Char (a / 4), base64Char (a % 4 * 16), 61, 61]
  | [a, b] => [base64Char (a / 4), base64Char (a % 4 * 16 + b / 16), base64Char (b % 16 * 4), 61]
  | a :: b :: c :: rest =>
    base64Char (a / 4) :: base64Char (a % 4 * 16 + b / 16)
      :: base64Char (b % 16 * 4 + c / 64) :: base64Char (c % 64) :: base64 rest

/-- Drops the zeros at the end of a digit string. -/
def trimZeros (digits : GoString) : GoString :=
  (digits.reverse.dropWhile (fun c => c == 48)).reverse

/-- Go `Time.MarshalJSON`: the time in the layout `2006-01-02T15:04:05.999999999Z07:00`
between quotes, the date and time of day taken in the zone of the value; an error when
the year is outside 0 to 9999. The fraction is left out when it is zero and has no zeros
at its end; the zone is `Z` for the offset 0 and otherwise a sign, hours and minutes.
(Toolchains from Go 1.20 on also return an error for an offset of 24 hours or more.) -/
def marshalTime (sec : Int) (nsec : Nat) (offset : Int) : Option GoString :=
  let localSec := sec + offset
  let date := civilFromDays (localSec / 86400)
  let rem := (localSec % 86400).toNat
  if date.1 < 0 ∨ 10000 ≤ date.1 then none
  else
    let fraction := if nsec = 0 then [] else 46 :: trimZeros (appendInt nsec 9)
    let minutes := Int.tdiv offset 60
    let zone :=
      if offset = 0 then [90]
      else (if minutes < 0 then [45] else [43])
        ++ appendInt (minutes.natAbs / 60) 2 ++ [58] ++ appendInt (minutes.natAbs % 60) 2
    some ([34] ++ appendInt date.1 4 ++ [45] ++ appendInt date.2.1 2 ++ [45]
      ++ appendInt date.2.2 2 ++ [84] ++ appendInt (rem / 3600) 2 ++ [58]
      ++ appendInt (rem % 3600 / 60) 2 ++ [58] ++ appendInt (rem % 60) 2
      ++ fraction ++ zone ++ [34])

/-- Go `json.Marshal` of one value of a row; `none` is a returned error: a NaN or an
infinity is an unsupported value, and a time can fail as `marshalTime` says. The text of
a finite float64 is `formatFloat f`, the shortest decimal text that reads back as `f`. -/
def marshalValue (formatFloat : Float64 → GoString) : DriverValue → Option GoString
  | DriverValue.null => some (ascii "null")
  | DriverValue.int64 i => some ((if i < 0 then [45] else []) ++ decimalDigits i.natAbs)
  | DriverValue.float64 (Float64.finite neg mant exp) =>
    some (formatFloat (Float64.finite neg mant exp))
  | DriverValue.float64 _ => none
  | DriverValue.bool b => some (if b then ascii "true" else ascii "false")
  | DriverValue.bytes b => some ([34] ++ base64 b ++ [34])
  | DriverValue.string s => some (MarshalString s)
  | DriverValue.time sec nsec offset => marshalTime sec nsec offset

/-- One step of sorting the columns of a row by name. -/
def insertColumn (kv : GoString × DriverValue) : RowData → RowData
  | [] => [kv]
  | e :: rest => if strLe kv.1 e.1 then kv :: e :: rest else e :: insertColumn kv rest

/-- The members of the JSON object of a row whose columns are already in order. -/
def marshalColumns (formatFloat : Float64 → GoString) : RowData → Option GoString
  | [] => some []
  | (k, v) :: rest =>
    match marshalValue formatFloat v, marshalColumns formatFloat rest with
    | some text, some texts =>
      some (MarshalString k ++ 58 :: text ++ (if rest.isEmpty then [] else 44 :: texts))
    | _, _ => none

/-- Go `json.Marshal` of one row, a `map[string]interface{}`: an object with the columns
sorted by name. -/
def marshalRow (formatFloat : Float64 → GoString) (row : RowData) : Option GoString :=
  match marshalColumns formatFloat (row.foldr insertColumn []) with
  | some members => some (123 :: members ++ [125])
  | none => none

/-- The JSON texts of the rows, in order; `none` when one of them fails. -/
def marshalRows (formatFloat : Float64 → GoString) : List RowData → Option (List GoString)
  | [] => some []
  | row :: rows =>
    match marshalRow formatFloat row, marshalRows formatFloat rows with
    | some text, some texts => some (text :: texts)
    | _, _ => none

/-- The texts between brackets and separated by commas: a JSON array. -/
def jsonArray (texts : List GoString) : GoString :=
  91 :: (texts.intersperse [44]).flatten ++ [93]

/-- Go `json.Marshal(data)` for the non-empty slice of rows `GetData` returned. -/
def MarshalRows (formatFloat : Float64 → GoString) (data : List RowData) : Option GoString :=
  (marshalRows formatFloat data).map jsonArray

/-- What a handler wrote: the status, the `Content-Type` header and the body. -/
structure Response where
  status : Nat
  contentType : GoString
  body : GoString
  deriving DecidableEq, Repr

/-- Go `http.Error(w, message, code)`: a plain-text response with the message and a line
feed. -/
def httpError (message : GoString) (code : Nat) : Response :=
  ⟨code, ascii "text/plain; charset=utf-8", message ++ [10]⟩

/-- The handler `api.HandleGetData` on the parsed query of the request. `newClient` tells
whether `postgres.NewClient` returns a client, and `getData filters limit offset` is what
`GetData` returns, `none` for an error. An error of either gives 500; no rows give the
empty JSON object; otherwise the rows are marshalled, and an error of that gives 500. -/
def HandleGetData (newClient : Bool)
    (getData : List (GoString × GoString) → Int → Int → Option (List RowData))
    (formatFloat : Float64 → GoString) (values : Values) : Response :=
  let filters := parseFilters values
  let pagination := getPaginationParams values
  if !newClient then httpError (ascii "Failed to initialize PostgreSQL client") 500
  else
    match getData filters pagination.1 pagination.2 with
    | none => httpError (ascii "Failed to retrieve data from PostgreSQL") 500
    | some data =>
      if data.length = 0 then ⟨200, ascii "application/json", MarshalMap []⟩
      else
        match MarshalRows formatFloat data with
        | none => httpError (ascii "Failed to convert data to JSON") 500
        | some responseJSON => ⟨200, ascii "application/json", responseJSON⟩

/-! ## Lemmas on `Split` -/

theorem Split_ne_nil (s : GoString) (sep : Nat) : Split s sep ≠ [] := by
  cases s with
  | nil => simp [Split]
  | cons c cs =>
    simp only [Split]
    split
    · simp
    · split <;> simp

theorem Split_append (x y : GoString) (sep : Nat) :
    Split (x ++ y) sep
      = (Split x sep).dropLast ++ Split ((Split x sep).getLastD [] ++ y) sep := by
  induction x with
  | nil => simp [Split]
  | cons c cs ih =>
    by_cases hc : c = sep
    · have hne := Split_ne_nil cs sep
      rcases hs : Split cs sep with _ | ⟨p, ps⟩
      · exact absurd hs hne
      · simp [Split, hc, ih, hs]
    · rcases hs : Split cs sep with _ | ⟨p, ps⟩
      · exact absurd hs (Split_ne_nil cs sep)
      · rw [hs] at ih
        cases ps with
        | nil =>
          simp only [List.dropLast_single, List.getLastD_cons, List.getLast?_nil, List.nil_append] at ih
          simp [Split, hc, ih, hs]
        | cons p2 ps2 =>
          simp [Split, hc, ih, hs]

/-- The pieces before the last one. -/
theorem Split_eq_dropLast_append (s : GoString) (sep : Nat) :
    Split s sep = (Split s sep).dropLast ++ [(Split s sep).getLastD []] := by
  have h := Split_ne_nil s sep
  rcases hs : Split s sep with _ | ⟨p, ps⟩
  · exact absurd hs h
  · rw [List.getLastD_eq_getLast?, List.getLast?_eq_getLast _ (by simp)]
    simp [List.dropLast_append_getLast]

theorem Split_eq_singleton_nil (s : GoString) (sep : Nat) (h : Split s sep = [[]]) : s = [] := by
  cases s with
  | nil => rfl
  | cons c cs =>
    exfalso
    rcases hs : Split cs sep with _ | ⟨p, ps⟩
    · exact absurd hs (Split_ne_nil _ sep)
    · by_cases hc : c = sep
      · simp [Split, hc, hs] at h
      · simp [Split, hc, hs] at h

theorem Split_getLastD_of_hasSuffix (s : GoString) (sep : Nat) (h : HasSuffix s sep = true) :
    (Split s sep).getLastD [] = [] := by
  induction s with
  | nil => simp [HasSuffix] at h
  | cons c cs ih =>
    cases cs with
    | nil =>
      have hc : c = sep := by simpa [HasSuffix] using h
      simp [Split, hc]
    | cons d ds =>
      have h2 : HasSuffix (d :: ds) sep = true := by
        simpa [HasSuffix, List.getLast?_cons_cons] using h
      have ih2 := ih h2
      rcases hs : Split (d :: ds) sep with _ | ⟨p, ps⟩
      · exact absurd hs (Split_ne_nil _ sep)
      · rw [hs] at ih2
        by_cases hc : c = sep
        · simp only [Split] at hs ⊢
          simp only [hc, if_true]
          rw [hs]
          cases ps <;> simpa using ih2
        · have : Split (c :: d :: ds) sep = (c :: p) :: ps := by
            rw [Split, if_neg hc, hs]
          rw [this]
          cases ps with
          | nil =>
            simp only [List.getLastD_cons, List.getLast?_nil, Option.getD_none] at ih2
            subst ih2
            exact absurd (Split_eq_singleton_nil _ _ hs) (by simp)
          | cons p2 ps2 => simpa using ih2


/-! ## Lemmas on records -/

theorem Record.keys_set (obj : Record) (k v : GoString) :
    (obj.set k v).keys = if k ∈ obj.keys then obj.keys else obj.keys ++ [k] := by
  induction obj with
  | nil => simp [Record.set, Record.keys]
  | cons e rest ih =>
    obtain ⟨k', v'⟩ := e
    by_cases hk : k' = k
    · simp [Record.set, Record.keys, hk]
    · have hk2 : ¬ k = k' := fun e => hk e.symm
      simp only [Record.keys] at ih
      simp only [Record.set, hk, if_false, Record.keys, List.map_cons, List.mem_cons, hk2, false_or, ih]
      split <;> simp

theorem Record.get_set (obj : Record) (k v k' : GoString) :
    (obj.set k v).get k' = if k = k' then some v else obj.get k' := by
  induction obj with
  | nil => simp [Record.set, Record.get]
  | cons e rest ih =>
    obtain ⟨a, b⟩ := e
    by_cases ha : a = k
    · subst ha
      by_cases hk : a = k' <;> simp [Record.set, Record.get, hk]
    · by_cases hk : k = k'
      · subst hk
        simp [Record.set, Record.get, ha, ih]
      · simp [Record.set, Record.get, ha, ih, hk]

theorem assignValues_eq_zip (headers values : List GoString) (obj : Record)
    (h : headers.length ≤ values.length) :
    assignValues headers values obj
      = some ((headers.zip values).foldl (fun obj kv => obj.set kv.1 kv.2) obj) := by
  induction headers generalizing values obj with
  | nil => simp [assignValues]
  | cons k ks ih =>
    cases values with
    | nil => simp at h
    | cons v vs =>
      simp only [assignValues, List.zip_cons_cons, List.foldl_cons]
      exact ih vs _ (by simpa using h)

theorem assignValues_eq_none (headers values : List GoString) (obj : Record)
    (h : values.length < headers.length) : assignValues headers values obj = none := by
  induction headers generalizing values obj with
  | nil => simp at h
  | cons k ks ih =>
    cases values with
    | nil => simp [assignValues]
    | cons v vs =>
      simp only [assignValues]
      exact ih vs _ (by simpa using h)

theorem zip_foldl_spec (headers values : List GoString) (obj : Record)
    (hnodup : headers.Nodup) (hdisj : ∀ k ∈ headers, k ∉ obj.keys)
    (hlen : headers.length ≤ values.length) :
    ((headers.zip values).foldl (fun obj kv => obj.set kv.1 kv.2) obj).keys = obj.keys ++ headers
    ∧ (∀ i (hi : i < headers.length) (hv : i < values.length),
        ((headers.zip values).foldl (fun obj kv => obj.set kv.1 kv.2) obj).get
          (headers.get ⟨i, hi⟩) = some (values.get ⟨i, hv⟩))
    ∧ (∀ k, k ∉ headers →
        ((headers.zip values).foldl (fun obj kv => obj.set kv.1 kv.2) obj).get k = obj.get k) := by
  induction headers generalizing values obj with
  | nil => simp
  | cons k ks ih =>
    cases values with
    | nil => simp at hlen
    | cons v vs =>
      have hk : k ∉ obj.keys := hdisj k (by simp)
      have hnd : ks.Nodup := (List.nodup_cons.mp hnodup).2
      have hkks : k ∉ ks := (List.nodup_cons.mp hnodup).1
      have hkeys : (obj.set k v).keys = obj.keys ++ [k] := by
        rw [Record.keys_set, if_neg hk]
      have hdisj2 : ∀ k' ∈ ks, k' ∉ (obj.set k v).keys := by
        intro k' hk' hmem
        rw [hkeys, List.mem_append] at hmem
        rcases hmem with hmem | hmem
        · exact hdisj k' (by simp [hk']) hmem
        · have : k' = k := by simpa using hmem
          exact hkks (this ▸ hk')
      obtain ⟨ih1, ih2, ih3⟩ := ih vs (obj.set k v) hnd hdisj2 (by simpa using hlen)
      simp only [List.zip_cons_cons, List.foldl_cons]
      refine ⟨by rw [ih1, hkeys]; simp, ?_, ?_⟩
      · intro i hi hv
        cases i with
        | zero =>
          simp only [List.get_eq_getElem, List.getElem_cons_zero]
          rw [ih3 k hkks, Record.get_set, if_pos rfl]
        | succ j =>
          simp only [List.get_eq_getElem, List.getElem_cons_succ]
          have := ih2 j (by simpa using hi) (by simpa using hv)
          simpa using this
      · intro k' hk'
        have h1 : k' ∉ ks := fun e => hk' (by simp [e])
        have h2 : ¬ k = k' := fun e => hk' (by simp [e])
        rw [ih3 k' h1, Record.get_set, if_neg h2]


section Loop
variable (headers : List GoString) (publishOk : Nat → Bool)

/-! ## The read loop refines the line decoder -/

theorem lineStep_nil (h : Handler) : lineStep headers publishOk h [] = h := by
  unfold lineStep; split <;> simp

theorem lineStep_exited (h : Handler) (e : Exit) (he : h.exit = some e) (line : GoString) :
    lineStep headers publishOk h line = h := by
  unfold lineStep; rw [he]

theorem foldl_lineStep_exited (lines : List GoString) (h : Handler) (e : Exit)
    (he : h.exit = some e) : lines.foldl (lineStep headers publishOk) h = h := by
  induction lines with
  | nil => rfl
  | cons l ls ih => rw [List.foldl_cons, lineStep_exited headers publishOk h e he, ih]

theorem foldl_lineStep_filter (lines : List GoString) (h : Handler) :
    lines.foldl (lineStep headers publishOk) h
      = (lines.filter (fun line => line ≠ [])).foldl (lineStep headers publishOk) h := by
  induction lines generalizing h with
  | nil => rfl
  | cons l ls ih =>
    by_cases hl : l = []
    · subst hl
      simp [lineStep_nil, ih]
    · simp [hl, ih]

theorem splitChunk_snd (c chunk : GoString) :
    (splitChunk c chunk).2 = (Split (c ++ chunk) NL).getLastD [] := by
  unfold splitChunk
  by_cases hs : HasSuffix (c ++ chunk) NL = true
  · simp only [hs, Bool.not_true, Bool.false_eq_true, if_false]
    exact (Split_getLastD_of_hasSuffix _ _ hs).symm
  · simp [hs]

theorem splitChunk_fst (c chunk : GoString) (h : Handler) :
    (splitChunk c chunk).1.foldl (lineStep headers publishOk) h
      = (Split (c ++ chunk) NL).dropLast.foldl (lineStep headers publishOk) h := by
  unfold splitChunk
  by_cases hs : HasSuffix (c ++ chunk) NL = true
  · simp only [hs, Bool.not_true, Bool.false_eq_true, if_false]
    conv_lhs => rw [Split_eq_dropLast_append (c ++ chunk) NL]
    rw [List.foldl_append, Split_getLastD_of_hasSuffix _ _ hs]
    simp [lineStep_nil]
  · simp [hs]

theorem Split_of_not_mem (s : GoString) (sep : Nat) (h : sep ∉ s) : Split s sep = [s] := by
  induction s with
  | nil => rfl
  | cons c cs ih =>
    have hc : c ≠ sep := fun e => h (by simp [e])
    have hcs : sep ∉ cs := fun e => h (by simp [e])
    simp [Split, hc, ih hcs]

theorem not_mem_of_mem_Split (s : GoString) (sep : Nat) :
    ∀ p ∈ Split s sep, sep ∉ p := by
  induction s with
  | nil => simp [Split]
  | cons c cs ih =>
    intro p hp
    rcases hs : Split cs sep with _ | ⟨q, qs⟩
    · exact absurd hs (Split_ne_nil _ sep)
    · rw [hs] at ih
      by_cases hc : c = sep
      · simp only [Split, hc, if_true, hs, List.mem_cons] at hp
        rcases hp with rfl | hp
        · simp
        · exact ih p (by simpa using hp)
      · simp only [Split, hc, if_false, hs, List.mem_cons] at hp
        rcases hp with rfl | hp
        · have := ih q (by simp)
          simp only [List.mem_cons, not_or]
          exact ⟨fun e => hc e.symm, this⟩
        · exact ih p (by simp [hp])

theorem not_mem_getLastD_Split (s : GoString) (sep : Nat) :
    sep ∉ (Split s sep).getLastD [] := by
  have hne := Split_ne_nil s sep
  apply not_mem_of_mem_Split s sep
  rw [List.getLastD_eq_getLast?, List.getLast?_eq_getLast _ hne]
  exact List.getLast_mem hne

theorem getLastD_append_of_ne_nil {α : Type} (l₁ l₂ : List α) (d : α) (h : l₂ ≠ []) :
    (l₁ ++ l₂).getLastD d = l₂.getLastD d := by
  rw [List.getLastD_eq_getLast?, List.getLastD_eq_getLast?, List.getLast?_append_of_ne_nil _ h]

theorem readLoop_spec (chunks : List GoString) (h : Handler) (c : GoString) (hc : NL ∉ c) :
    (readLoop headers publishOk chunks (h, c)).1
      = (Split (c ++ chunks.flatten) NL).dropLast.foldl (lineStep headers publishOk) h
    ∧ ((readLoop headers publishOk chunks (h, c)).1.exit = none →
        (readLoop headers publishOk chunks (h, c)).2
          = (Split (c ++ chunks.flatten) NL).getLastD []) := by
  induction chunks generalizing h c with
  | nil => simp [readLoop, Split_of_not_mem c NL hc]
  | cons ch rest ih =>
    cases he : h.exit with
    | some e =>
      simp only [readLoop, he]
      exact ⟨(foldl_lineStep_exited headers publishOk _ h e he).symm, fun hn => by simp at hn⟩
    | none =>
      have hsplit : Split (c ++ (ch :: rest).flatten) NL
          = (Split (c ++ ch) NL).dropLast
            ++ Split ((Split (c ++ ch) NL).getLastD [] ++ rest.flatten) NL := by
        rw [List.flatten_cons, ← List.append_assoc, Split_append]
      have hstep : readLoop headers publishOk (ch :: rest) (h, c)
          = readLoop headers publishOk rest
              ((Split (c ++ ch) NL).dropLast.foldl (lineStep headers publishOk) h,
               (Split (c ++ ch) NL).getLastD []) := by
        simp only [readLoop, he]
        rw [← splitChunk_fst, ← splitChunk_snd]
      have ih2 := ih ((Split (c ++ ch) NL).dropLast.foldl (lineStep headers publishOk) h)
        ((Split (c ++ ch) NL).getLastD []) (not_mem_getLastD_Split _ _)
      rw [hstep, hsplit, List.dropLast_append_of_ne_nil _ (Split_ne_nil _ _), List.foldl_append]
      refine ⟨ih2.1, fun hn => ?_⟩
      rw [ih2.2 hn, getLastD_append_of_ne_nil _ _ _ (Split_ne_nil _ _)]

theorem uploadBody_eq_decodeLines (chunks : List GoString) :
    uploadBody headers publishOk chunks = decodeLines headers publishOk chunks.flatten := by
  have hspec := readLoop_spec headers publishOk chunks ⟨[], none⟩ [] (by simp)
  simp only [List.nil_append] at hspec
  unfold uploadBody decodeLines dataLines
  rw [← foldl_lineStep_filter]
  conv_rhs => rw [Split_eq_dropLast_append chunks.flatten NL, List.foldl_append]
  rw [← hspec.1]
  generalize hr : readLoop headers publishOk chunks (⟨[], none⟩, []) = r at hspec
  obtain ⟨h, c⟩ := r
  cases he : h.exit with
  | some e => simp [he, lineStep]
  | none =>
    have hcarry : c = (Split chunks.flatten NL).getLastD [] := hspec.2 he
    rw [← hcarry]
    simp [he, lineStep]


/-! ## Lines with enough values -/
theorem publishLine_enough (h : Handler) (line : GoString) (hv : enoughValues headers line) :
    publishLine headers publishOk h line
      = ⟨h.calls ++ [lineCall headers (publishOk h.calls.length) line],
          if publishOk h.calls.length then none else some Exit.publishFailed⟩ := by
  unfold publishLine
  have := assignValues_eq_zip headers (lineValues line) [] hv
  simp only [lineValues] at this
  simp only [this]
  rfl

theorem publishLine_short (h : Handler) (line : GoString) (hv : ¬ enoughValues headers line) :
    publishLine headers publishOk h line = { h with exit := some Exit.indexOutOfRange } := by
  unfold publishLine
  have := assignValues_eq_none headers (lineValues line) [] (by simpa [enoughValues] using hv)
  simp only [lineValues] at this
  simp only [this]

theorem lineStep_enough (h : Handler) (line : GoString) (he : h.exit = none)
    (hne : line ≠ []) (hv : enoughValues headers line) :
    lineStep headers publishOk h line
      = ⟨h.calls ++ [lineCall headers (publishOk h.calls.length) line],
          if publishOk h.calls.length then none else some Exit.publishFailed⟩ := by
  unfold lineStep
  rw [he]
  simp only [hne, if_false]
  exact publishLine_enough headers publishOk h line hv

/-- While the broker accepts, every line adds its call. -/
theorem foldl_lineStep_all_ok (lines : List GoString) (h : Handler) (he : h.exit = none)
    (hwf : ∀ line ∈ lines, line ≠ [] ∧ enoughValues headers line)
    (hok : ∀ i, i < lines.length → publishOk (h.calls.length + i) = true) :
    lines.foldl (lineStep headers publishOk) h
      = ⟨h.calls ++ lines.map (lineCall headers true), none⟩ := by
  induction lines generalizing h with
  | nil => cases h; simp_all
  | cons l ls ih =>
    have h0 : publishOk h.calls.length = true := by simpa using hok 0 (by simp)
    have hl := hwf l (by simp)
    rw [List.foldl_cons, lineStep_enough headers publishOk h l he hl.1 hl.2, h0]
    rw [ih _ rfl (fun line hm => hwf line (by simp [hm]))]
    · simp
    · intro i hi
      have := hok (i + 1) (by simpa using hi)
      simpa [Nat.add_assoc, Nat.add_comm 1 i] using this

/-- The first refused publish ends the run: the calls are those of the lines up to it. -/
theorem foldl_lineStep_fail_at (lines : List GoString) (h : Handler) (he : h.exit = none)
    (hwf : ∀ line ∈ lines, line ≠ [] ∧ enoughValues headers line)
    (k : Nat) (hk : k < lines.length)
    (hok : ∀ i, i < k → publishOk (h.calls.length + i) = true)
    (hfail : publishOk (h.calls.length + k) = false) :
    lines.foldl (lineStep headers publishOk) h
      = ⟨h.calls ++ (lines.take k).map (lineCall headers true)
            ++ [lineCall headers false (lines.get ⟨k, hk⟩)],
          some Exit.publishFailed⟩ := by
  induction lines generalizing h k with
  | nil => simp at hk
  | cons l ls ih =>
    have hl := hwf l (by simp)
    rw [List.foldl_cons, lineStep_enough headers publishOk h l he hl.1 hl.2]
    cases k with
    | zero =>
      have h0 : publishOk h.calls.length = false := by simpa using hfail
      rw [h0]
      rw [foldl_lineStep_exited headers publishOk ls _ Exit.publishFailed (by simp)]
      simp
    | succ j =>
      have h0 : publishOk h.calls.length = true := by simpa using hok 0 (by simp)
      rw [h0]
      rw [ih _ rfl (fun line hm => hwf line (by simp [hm])) j (by simpa using hk)]
      · simp
      · intro i hi
        have := hok (i + 1) (by omega)
        simpa [Nat.add_assoc, Nat.add_comm 1 i] using this
      · simpa [Nat.add_assoc, Nat.add_comm 1 j] using hfail


end Loop

/-! ## The upload decoder: the claims -/

/-- C1, chunk-boundary invariance: for every header line, every broker behaviour and every
two sequences of read chunks with the same concatenation (the one-chunk sequence among
them), the read loop followed by the end-of-source flush ends in the same state, that is
with the same Records built in the same order and the same fault, if any, at the same
position. -/
theorem chunk_boundary_invariance (firstLine : GoString) (publishOk : Nat → Bool)
    (chunks₁ chunks₂ : List GoString) (h : chunks₁.flatten = chunks₂.flatten) :
    uploadBody (parseHeaders firstLine) publishOk chunks₁
      = uploadBody (parseHeaders firstLine) publishOk chunks₂ := by
  rw [uploadBody_eq_decodeLines, uploadBody_eq_decodeLines, h]

/-- C1 at a body cut inside its second line and read as one chunk. -/
theorem chunk_boundary_invariance_witness :
    uploadBody (parseHeaders (ascii "id,first_name,last_name\n")) alwaysOk
        [ascii "1,Ann,Lee\n2,B", ascii "o,Kim"]
      = uploadBody (parseHeaders (ascii "id,first_name,last_name\n")) alwaysOk
        [ascii "1,Ann,Lee\n2,Bo,Kim"] :=
  chunk_boundary_invariance (ascii "id,first_name,last_name\n") alwaysOk
    [ascii "1,Ann,Lee\n2,B", ascii "o,Kim"] [ascii "1,Ann,Lee\n2,Bo,Kim"] (by decide)


theorem chunksOfAux_flatten (n : Nat) (fuel : Nat) (s : GoString) (h : s.length ≤ fuel) :
    (chunksOfAux n fuel s).flatten = s := by
  induction fuel generalizing s with
  | zero =>
    have : s = [] := List.length_eq_zero.mp (Nat.le_zero.mp h)
    subst this
    rfl
  | succ fuel ih =>
    cases s with
    | nil => rfl
    | cons b rest =>
      simp only [chunksOfAux, List.flatten_cons]
      rw [ih _ (by simp only [List.length_drop, List.length_cons] at h ⊢; omega)]
      exact List.take_append_drop _ _

/-- The reads of at most `n + 1` bytes cut the rest of the file without losing a byte. -/
theorem chunksOf_flatten (n : Nat) (s : GoString) : (chunksOf n s).flatten = s :=
  chunksOfAux_flatten n s.length s (Nat.le_refl _)

/-- The handler with its reads of at most 100 bytes does what it does on the rest of the
file read in one piece. -/
theorem HandleFileUpload_chunked (publishOk : Nat → Bool) (file : GoString) :
    HandleFileUpload publishOk file (chunksOf 99) = HandleFileUpload publishOk file oneChunk := by
  unfold HandleFileUpload
  rw [uploadBody_eq_decodeLines, uploadBody_eq_decodeLines, chunksOf_flatten]
  simp [oneChunk]

theorem dataLines_append_last (pre last : GoString)
    (hpre : pre = [] ∨ HasSuffix pre NL = true) (hlast : last ≠ []) (hnl : NL ∉ last) :
    Split (pre ++ last) NL = (Split pre NL).dropLast ++ [last]
    ∧ dataLines pre = (Split pre NL).dropLast.filter (fun line => line ≠ [])
    ∧ dataLines (pre ++ last) = dataLines pre ++ [last] := by
  have hl : (Split pre NL).getLastD [] = [] := by
    rcases hpre with rfl | hs
    · rfl
    · exact Split_getLastD_of_hasSuffix _ _ hs
  have h1 : Split (pre ++ last) NL = (Split pre NL).dropLast ++ [last] := by
    rw [Split_append, hl, List.nil_append, Split_of_not_mem last NL hnl]
  have h2 : dataLines pre = (Split pre NL).dropLast.filter (fun line => line ≠ []) := by
    unfold dataLines
    conv_lhs => rw [Split_eq_dropLast_append pre NL, hl]
    simp
  refine ⟨h1, h2, ?_⟩
  unfold dataLines at h2 ⊢
  rw [h1, List.filter_append, ← h2]
  simp [hlast]

/-- C3, amended: for every body all of whose non-empty lines have at least as many values
as the header has names, and whose last line `last` is non-empty and has no terminating
line feed, and for every broker that accepts the publish of every line before `last`, the
read loop ends with `last` as its carry-over and has built the Records of the lines before
it only, without leaving early; the flush then builds the Record of `last`, once, as the
last Record. The run ends without a fault when the broker accepts the publish of `last`
too, and with the failure response when it refuses it. -/
theorem trailing_line_emitted_once (headers : List GoString) (publishOk : Nat → Bool)
    (chunks : List GoString)
    (pre last : GoString) (hjoin : chunks.flatten = pre ++ last)
    (hpre : pre = [] ∨ HasSuffix pre NL = true) (hlast : last ≠ []) (hnl : NL ∉ last)
    (hwf : ∀ line ∈ dataLines (pre ++ last), enoughValues headers line)
    (hok : ∀ i, i < (dataLines pre).length → publishOk i = true) :
    (readLoop headers publishOk chunks (⟨[], none⟩, [])).2 = last
    ∧ (readLoop headers publishOk chunks (⟨[], none⟩, [])).1.records
        = (dataLines pre).map (lineRecord headers)
    ∧ (readLoop headers publishOk chunks (⟨[], none⟩, [])).1.exit = none
    ∧ (uploadBody headers publishOk chunks).records
        = (dataLines pre).map (lineRecord headers) ++ [lineRecord headers last]
    ∧ (uploadBody headers publishOk chunks).exit
        = (if publishOk (dataLines pre).length then none else some Exit.publishFailed) := by
  obtain ⟨h1, h2, h3⟩ := dataLines_append_last pre last hpre hlast hnl
  have hspec := readLoop_spec headers publishOk chunks ⟨[], none⟩ [] (by simp)
  simp only [List.nil_append] at hspec
  have hwfpre : ∀ line ∈ dataLines pre, line ≠ [] ∧ enoughValues headers line := by
    intro line hm
    refine ⟨?_, hwf line (by rw [h3]; simp [hm])⟩
    unfold dataLines at hm
    simpa using (List.mem_filter.mp hm).2
  have hfold : (dataLines pre).foldl (lineStep headers publishOk) ⟨[], none⟩
      = ⟨(dataLines pre).map (lineCall headers true), none⟩ := by
    rw [foldl_lineStep_all_ok headers publishOk _ _ rfl hwfpre
      (fun i hi => by simpa using hok i hi)]
    simp
  have hloop : (readLoop headers publishOk chunks (⟨[], none⟩, [])).1
      = ⟨(dataLines pre).map (lineCall headers true), none⟩ := by
    rw [hspec.1, hjoin, h1, List.dropLast_concat, foldl_lineStep_filter, ← h2]
    exact hfold
  have hcarry : (readLoop headers publishOk chunks (⟨[], none⟩, [])).2 = last := by
    rw [hspec.2 (by rw [hloop]), hjoin, h1]
    simp
  have hall : uploadBody headers publishOk chunks
      = ⟨(dataLines pre).map (lineCall headers true)
            ++ [lineCall headers (publishOk (dataLines pre).length) last],
          if publishOk (dataLines pre).length then none else some Exit.publishFailed⟩ := by
    rw [uploadBody_eq_decodeLines, hjoin]
    unfold decodeLines
    rw [h3, List.foldl_append, hfold, List.foldl_cons, List.foldl_nil,
      lineStep_enough headers publishOk _ last rfl hlast (hwf _ (by rw [h3]; simp))]
    simp
  refine ⟨hcarry, ?_, ?_, ?_, ?_⟩
  · rw [hloop]; simp [Handler.records, lineCall, Function.comp_def]
  · rw [hloop]
  · rw [hall]; simp [Handler.records, lineCall, Function.comp_def]
  · rw [hall]

/-- C3 at Scenario A, the body cut inside its second line, with a broker that accepts
every publish: the carry-over of the loop is `2,Bo,Kim`, the loop has built the Record of
the first line, and the run builds exactly the two Records and ends without a fault. -/
theorem trailing_line_emitted_once_witness :
    (readLoop (parseHeaders (ascii "id,first_name,last_name\n")) alwaysOk
        [ascii "1,Ann,Lee\n2,B", ascii "o,Kim"] (⟨[], none⟩, [])).2 = ascii "2,Bo,Kim"
    ∧ (readLoop (parseHeaders (ascii "id,first_name,last_name\n")) alwaysOk
        [ascii "1,Ann,Lee\n2,B", ascii "o,Kim"] (⟨[], none⟩, [])).1.records
        = [[(ascii "id", ascii "1"), (ascii "first_name", ascii "Ann"),
            (ascii "last_name", ascii "Lee")]]
    ∧ (readLoop (parseHeaders (ascii "id,first_name,last_name\n")) alwaysOk
        [ascii "1,Ann,Lee\n2,B", ascii "o,Kim"] (⟨[], none⟩, [])).1.exit = none
    ∧ (uploadBody (parseHeaders (ascii "id,first_name,last_name\n")) alwaysOk
        [ascii "1,Ann,Lee\n2,B", ascii "o,Kim"]).records
        = [[(ascii "id", ascii "1"), (ascii "first_name", ascii "Ann"),
            (ascii "last_name", ascii "Lee")],
           [(ascii "id", ascii "2"), (ascii "first_name", ascii "Bo"),
            (ascii "last_name", ascii "Kim")]]
    ∧ (uploadBody (parseHeaders (ascii "id,first_name,last_name\n")) alwaysOk
        [ascii "1,Ann,Lee\n2,B", ascii "o,Kim"]).exit = none :=
  have h := trailing_line_emitted_once (parseHeaders (ascii "id,first_name,last_name\n"))
    alwaysOk [ascii "1,Ann,Lee\n2,B", ascii "o,Kim"] (ascii "1,Ann,Lee\n") (ascii "2,Bo,Kim")
    (by decide) (by decide) (by decide) (by decide) (by decide) (fun _ _ => rfl)
  ⟨h.1, h.2.1.trans (by decide), h.2.2.1, h.2.2.2.1.trans (by decide),
    h.2.2.2.2.trans (by decide)⟩

/-- The condition on the broker in C3 is needed: under the header
`id,first_name,last_name`, the body `1,Ann,Lee\n2,Bo,Kim` and a broker that refuses the
first publish, the handler returns from inside the loop; the trailing line `2,Bo,Kim` is
never a Record. With a broker that refuses only the publish of the trailing line, both
Records are built and the run ends with the failure response. -/
theorem trailing_line_and_refused_publish :
    uploadBody [ascii "id", ascii "first_name", ascii "last_name"] (fun _ => false)
        [ascii "1,Ann,Lee\n2,Bo,Kim"]
      = ⟨[lineCall [ascii "id", ascii "first_name", ascii "last_name"] false
            (ascii "1,Ann,Lee")], some Exit.publishFailed⟩
    ∧ uploadBody [ascii "id", ascii "first_name", ascii "last_name"] (fun n => n == 0)
        [ascii "1,Ann,Lee\n2,Bo,Kim"]
      = ⟨[lineCall [ascii "id", ascii "first_name", ascii "last_name"] true
            (ascii "1,Ann,Lee"),
          lineCall [ascii "id", ascii "first_name", ascii "last_name"] false
            (ascii "2,Bo,Kim")], some Exit.publishFailed⟩ := by
  decide

/-- C3 as stated fails on a short trailing line: under the header `id,first_name,last_name`
the body `1,Ann,Lee\n2,Bo` ends in the non-empty unterminated line `2,Bo`, and the run
builds the Record of the first line only and ends in the out-of-range panic. -/
theorem trailing_short_line_not_emitted :
    (uploadBody [ascii "id", ascii "first_name", ascii "last_name"] alwaysOk
        [ascii "1,Ann,Lee\n2,Bo"]).records
      = [[(ascii "id", ascii "1"), (ascii "first_name", ascii "Ann"),
          (ascii "last_name", ascii "Lee")]]
    ∧ (uploadBody [ascii "id", ascii "first_name", ascii "last_name"] alwaysOk
        [ascii "1,Ann,Lee\n2,Bo"]).exit = some Exit.indexOutOfRange := by
  decide

/-- Scenario A at every offset: the body `1,Ann,Lee\n2,Bo,Kim` read as the two chunks
before and after any offset `k` gives exactly the two Records. -/
theorem scenarioA_every_offset (k : Nat) :
    uploadBody (parseHeaders (ascii "id,first_name,last_name\n")) alwaysOk
        [(ascii "1,Ann,Lee\n2,Bo,Kim").take k, (ascii "1,Ann,Lee\n2,Bo,Kim").drop k]
      = ⟨[lineCall [ascii "id", ascii "first_name", ascii "last_name"] true (ascii "1,Ann,Lee"),
          lineCall [ascii "id", ascii "first_name", ascii "last_name"] true (ascii "2,Bo,Kim")],
         none⟩
    ∧ lineRecord [ascii "id", ascii "first_name", ascii "last_name"] (ascii "1,Ann,Lee")
        = [(ascii "id", ascii "1"), (ascii "first_name", ascii "Ann"),
           (ascii "last_name", ascii "Lee")]
    ∧ lineRecord [ascii "id", ascii "first_name", ascii "last_name"] (ascii "2,Bo,Kim")
        = [(ascii "id", ascii "2"), (ascii "first_name", ascii "Bo"),
           (ascii "last_name", ascii "Kim")] := by
  refine ⟨?_, by decide, by decide⟩
  rw [uploadBody_eq_decodeLines]
  have : [(ascii "1,Ann,Lee\n2,Bo,Kim").take k, (ascii "1,Ann,Lee\n2,Bo,Kim").drop k].flatten
      = ascii "1,Ann,Lee\n2,Bo,Kim" := by simp
  rw [this]
  decide

/-- C4, the positional zip: for every header with pairwise distinct names and every
non-empty line with at least as many values as the header has names, the assignment loop
stays in range and builds the Record whose keys are exactly the header names, with name
`i` mapped to value `i`; no other key is in it, so the values beyond the header are not
part of the Record; the line adds exactly this Record to the run. The header line is never
a Record: the run of the handler on a file is the decoding of the lines after the first
line, and a file that is only a header line makes no publish call. -/
theorem positional_zip (headers : List GoString) (line : GoString)
    (hnodup : headers.Nodup) (hline : line ≠ [])
    (hlen : headers.length ≤ (lineValues line).length) :
    assignValues headers (lineValues line) [] = some (lineRecord headers line)
    ∧ (lineRecord headers line).keys = headers
    ∧ (∀ i (hi : i < headers.length),
        (lineRecord headers line).get (headers.get ⟨i, hi⟩)
          = some ((lineValues line).get ⟨i, Nat.lt_of_lt_of_le hi hlen⟩))
    ∧ (∀ key, key ∉ headers → (lineRecord headers line).get key = none)
    ∧ (∀ (publishOk : Nat → Bool) (h : Handler), h.exit = none →
        (lineStep headers publishOk h line).records = h.records ++ [lineRecord headers line])
    ∧ (∀ (publishOk : Nat → Bool) (file : GoString) (cut : GoString → List GoString),
        (cut (ReadString file NL).2).flatten = (ReadString file NL).2 →
        HandleFileUpload publishOk file cut
          = decodeLines (parseHeaders (ReadString file NL).1) publishOk (ReadString file NL).2)
    ∧ (∀ (publishOk : Nat → Bool) (firstLine : GoString), NL ∉ firstLine →
        (HandleFileUpload publishOk (firstLine ++ [NL]) oneChunk).calls = []
        ∧ (HandleFileUpload publishOk firstLine oneChunk).calls = []) := by
  obtain ⟨hkeys, hget, hother⟩ :=
    zip_foldl_spec headers (lineValues line) [] hnodup (by simp [Record.keys]) hlen
  refine ⟨assignValues_eq_zip headers _ [] hlen, ?_, ?_, ?_, ?_, ?_, ?_⟩
  · simpa [lineRecord, zipRecord, Record.keys] using hkeys
  · intro i hi
    exact hget i hi (Nat.lt_of_lt_of_le hi hlen)
  · intro key hkey
    have := hother key hkey
    simpa [lineRecord, zipRecord, Record.get] using this
  · intro publishOk h he
    rw [lineStep_enough headers publishOk h line he hline hlen]
    simp [Handler.records, lineCall]
  · intro publishOk file cut hcut
    unfold HandleFileUpload
    rw [uploadBody_eq_decodeLines, hcut]
  · intro publishOk firstLine hnl
    have hread : ∀ (s : GoString), NL ∉ s →
        ReadString (s ++ [NL]) NL = (s ++ [NL], []) ∧ ReadString s NL = (s, []) := by
      intro s hs
      induction s with
      | nil => simp [ReadString]
      | cons c cs ih =>
        have hc : c ≠ NL := fun e => hs (by simp [e])
        have ih2 := ih (fun e => hs (by simp [e]))
        simp [ReadString, hc, ih2.1, ih2.2]
    obtain ⟨h1, h2⟩ := hread firstLine hnl
    simp [HandleFileUpload, h1, h2, oneChunk, uploadBody, readLoop, splitChunk, Split, HasSuffix]

/-- C4 at the header `id,first_name,last_name` and the line `1,Ann,Lee,extra`. -/
theorem positional_zip_witness :
    assignValues [ascii "id", ascii "first_name", ascii "last_name"]
        (lineValues (ascii "1,Ann,Lee,extra")) []
      = some (lineRecord [ascii "id", ascii "first_name", ascii "last_name"]
          (ascii "1,Ann,Lee,extra"))
    ∧ (lineRecord [ascii "id", ascii "first_name", ascii "last_name"]
          (ascii "1,Ann,Lee,extra")).keys
        = [ascii "id", ascii "first_name", ascii "last_name"] :=
  ⟨(positional_zip [ascii "id", ascii "first_name", ascii "last_name"] (ascii "1,Ann,Lee,extra")
      (by decide) (by decide) (by decide)).1,
   (positional_zip [ascii "id", ascii "first_name", ascii "last_name"] (ascii "1,Ann,Lee,extra")
      (by decide) (by decide) (by decide)).2.1⟩

/-- C2 fails on the code: the handler tests a line for emptiness before it strips the
carriage returns. Under a three-name header the blank line of the CRLF body
`1,Ann,Lee\r\n\r\n2,Bo,Kim\r\n` reaches the positional assignment as the single empty
value, so the run builds the Record of the first line and ends in the out-of-range panic,
where the body has two non-empty lines; under the one-name header `id` the blank line of
`1\r\n\r\n2\r\n` becomes a Record of its own, three Records for two non-empty lines. -/
theorem crlf_blank_line_not_skipped :
    uploadBody [ascii "id", ascii "first_name", ascii "last_name"] alwaysOk
        [ascii "1,Ann,Lee\r\n\r\n2,Bo,Kim\r\n"]
      = ⟨[lineCall [ascii "id", ascii "first_name", ascii "last_name"] true (ascii "1,Ann,Lee")],
         some Exit.indexOutOfRange⟩
    ∧ (uploadBody [ascii "id"] alwaysOk [ascii "1\r\n\r\n2\r\n"]).records
      = [[(ascii "id", ascii "1")], [(ascii "id", [])], [(ascii "id", ascii "2")]]
    ∧ (uploadBody [ascii "id"] alwaysOk [ascii "1\r\n\r\n2"] ).exit = none := by
  decide

/-- C5 fails on the code: a short line is not guarded. For every non-empty line with fewer
values than the header has names the positional assignment indexes past the values: the
run ends in the out-of-range panic, with no Record built and no publish call made for the
line, and no malformed-record error is reported. -/
theorem short_line_panics (headers : List GoString) (publishOk : Nat → Bool) (h : Handler)
    (line : GoString) (he : h.exit = none) (hline : line ≠ [])
    (hshort : (lineValues line).length < headers.length) :
    lineStep headers publishOk h line = { h with exit := some Exit.indexOutOfRange } := by
  unfold lineStep
  rw [he]
  simp only [hline, if_false]
  exact publishLine_short headers publishOk h line (by simpa [enoughValues] using hshort)

/-- C5 at the header `id,first_name,last_name` and the line `3,Cy`. -/
theorem short_line_panics_witness :
    lineStep [ascii "id", ascii "first_name", ascii "last_name"] alwaysOk ⟨[], none⟩ (ascii "3,Cy")
      = ⟨[], some Exit.indexOutOfRange⟩ :=
  short_line_panics [ascii "id", ascii "first_name", ascii "last_name"] alwaysOk ⟨[], none⟩
    (ascii "3,Cy") rfl (by decide) (by decide)

/-- C6 as stated fails: the line `3,Cy,` has three values, the third one empty, so under a
three-name header the run builds a Record and reports no error. -/
theorem scenarioB_emits_a_record :
    (uploadBody [ascii "id", ascii "first_name", ascii "last_name"] alwaysOk
        [ascii "3,Cy,\n"]).records ≠ []
    ∧ (uploadBody [ascii "id", ascii "first_name", ascii "last_name"] alwaysOk
        [ascii "3,Cy,\n"]).exit = none := by
  decide

/-- C6, amended: the line `3,Cy,` splits into the three values `3`, `Cy` and the empty
string; decoded against the header `id,first_name,last_name`, as a terminated line or as
the final fragment, it gives exactly the Record with `id` 3, `first_name` Cy and an empty
`last_name`, and the run ends without error or panic. -/
theorem scenarioB_record :
    lineValues (ascii "3,Cy,") = [ascii "3", ascii "Cy", []]
    ∧ (uploadBody [ascii "id", ascii "first_name", ascii "last_name"] alwaysOk
        [ascii "3,Cy,\n"]).records
      = [[(ascii "id", ascii "3"), (ascii "first_name", ascii "Cy"), (ascii "last_name", [])]]
    ∧ (uploadBody [ascii "id", ascii "first_name", ascii "last_name"] alwaysOk
        [ascii "3,Cy,\n"]).status = some 200
    ∧ uploadBody [ascii "id", ascii "first_name", ascii "last_name"] alwaysOk [ascii "3,Cy,"]
      = uploadBody [ascii "id", ascii "first_name", ascii "last_name"] alwaysOk
          [ascii "3,Cy,\n"] := by
  decide

theorem filter_ok_map_lineCall (headers : List GoString) (lines : List GoString) :
    (lines.map (lineCall headers true)).filter PublishCall.ok
      = lines.map (lineCall headers true) := by
  induction lines with
  | nil => rfl
  | cons l ls ih => simp [lineCall, ih]

theorem map_jsonData_lineCall (headers : List GoString) (ok : Bool) (lines : List GoString) :
    (lines.map (lineCall headers ok)).map PublishCall.jsonData
      = lines.map (fun line => MarshalMap (lineRecord headers line)) := by
  induction lines with
  | nil => rfl
  | cons l ls ih => simp [lineCall]

/-- C7, the publish sequence: for every upload all of whose non-empty lines have at least
as many values as the header has names, and every behaviour of the broker, with
`payloads` the encoded Records of the data lines in file order: if none of the calls
fails, the payloads passed to `Publish` are `payloads`, each once, all reach the queue and
the status is 200; if call `k` (from 0) is the first to fail, the payloads passed are the
first `k + 1`, exactly the first `k` reach the queue, no further call is made and the
status is 500. -/
theorem publish_sequence (headers : List GoString) (publishOk : Nat → Bool)
    (chunks : List GoString)
    (hwf : ∀ line ∈ dataLines chunks.flatten, enoughValues headers line) :
    ((∀ i, i < (dataLines chunks.flatten).length → publishOk i = true) →
      (uploadBody headers publishOk chunks).payloads
          = (dataLines chunks.flatten).map (fun line => MarshalMap (lineRecord headers line))
      ∧ (uploadBody headers publishOk chunks).delivered
          = (dataLines chunks.flatten).map (fun line => MarshalMap (lineRecord headers line))
      ∧ (uploadBody headers publishOk chunks).status = some 200)
    ∧ (∀ k, k < (dataLines chunks.flatten).length →
        (∀ i, i < k → publishOk i = true) → publishOk k = false →
      (uploadBody headers publishOk chunks).payloads
          = ((dataLines chunks.flatten).map
              (fun line => MarshalMap (lineRecord headers line))).take (k + 1)
      ∧ (uploadBody headers publishOk chunks).delivered
          = ((dataLines chunks.flatten).map
              (fun line => MarshalMap (lineRecord headers line))).take k
      ∧ (uploadBody headers publishOk chunks).status = some 500) := by
  have hwf2 : ∀ line ∈ dataLines chunks.flatten, line ≠ [] ∧ enoughValues headers line := by
    intro line hm
    refine ⟨?_, hwf line hm⟩
    unfold dataLines at hm
    simpa using (List.mem_filter.mp hm).2
  rw [uploadBody_eq_decodeLines]
  unfold decodeLines
  constructor
  · intro hok
    rw [foldl_lineStep_all_ok headers publishOk _ _ rfl hwf2 (by simpa using hok)]
    refine ⟨?_, ?_, rfl⟩
    · simp only [Handler.payloads, List.nil_append, map_jsonData_lineCall]
    · simp only [Handler.delivered, List.nil_append, filter_ok_map_lineCall,
        map_jsonData_lineCall]
  · intro k hk hok hfail
    rw [foldl_lineStep_fail_at headers publishOk _ _ rfl hwf2 k hk (by simpa using hok)
      (by simpa using hfail)]
    have htake : List.take (k + 1) (dataLines chunks.flatten)
        = List.take k (dataLines chunks.flatten) ++ [(dataLines chunks.flatten).get ⟨k, hk⟩] := by
      rw [List.take_succ]
      simp [List.getElem?_eq_getElem hk]
    refine ⟨?_, ?_, rfl⟩
    · simp only [Handler.payloads, List.nil_append, List.map_append, map_jsonData_lineCall,
        ← List.map_take, htake]
      simp [lineCall]
    · simp only [Handler.delivered, List.nil_append, List.filter_append,
        filter_ok_map_lineCall, List.map_append, map_jsonData_lineCall, ← List.map_take]
      simp [lineCall]

/-- C7 at Scenario C: three Records, the broker refuses the second publish; exactly one
message reaches the queue, two calls are made and the status is 500. -/
theorem publish_sequence_witness :
    (uploadBody [ascii "id", ascii "n"] (fun i => i != 1) [ascii "1,a\n2,b\n3,c\n"]).payloads
      = [ascii "\x7b\"id\":\"1\",\"n\":\"a\"\x7d", ascii "\x7b\"id\":\"2\",\"n\":\"b\"\x7d"]
    ∧ (uploadBody [ascii "id", ascii "n"] (fun i => i != 1) [ascii "1,a\n2,b\n3,c\n"]).delivered
      = [ascii "\x7b\"id\":\"1\",\"n\":\"a\"\x7d"]
    ∧ (uploadBody [ascii "id", ascii "n"] (fun i => i != 1) [ascii "1,a\n2,b\n3,c\n"]).status
      = some 500 :=
  (publish_sequence [ascii "id", ascii "n"] (fun i => i != 1) [ascii "1,a\n2,b\n3,c\n"]
    (by decide)).2 1 (by decide) (by decide) (by decide)

/-! ## The payload and the consumer: the claims -/

theorem settlements_append (t u : List Event) :
    settlements (t ++ u) = settlements t ++ settlements u := by
  induction t with
  | nil => rfl
  | cons e rest ih => cases e <;> simp [settlements, ih]

theorem InsertCsvData_settlements (world : World) (convert : GoString → Option GoString)
    (data : Data) (trace : List Event) :
    settlements (InsertCsvData world convert data trace).trace = settlements trace := by
  unfold InsertCsvData
  simp only []
  split
  · simp [Result.trace, settlements_append, settlements]
  · split
    · split <;> simp [Result.trace, settlements_append, settlements]
    · simp [Result.trace, settlements_append, settlements]

theorem processMessage_settlements (world : World) (convert : GoString → Option GoString)
    (message : GoString) (trace : List Event) :
    settlements (processMessage world convert message trace).trace = settlements trace := by
  have hins := InsertCsvData_settlements world convert
  unfold processMessage
  simp only []
  split
  · rfl
  · rename_i data _
    have h := hins data trace
    split
    · rename_i t1 heq; rw [heq] at h; simpa [Result.trace] using h
    · rename_i t1 heq; rw [heq] at h; simpa [Result.trace] using h
    · rename_i t1 heq; rw [heq] at h
      split
      · simpa [Result.trace] using h
      · simpa [Result.trace, settlements_append, settlements] using h

theorem StartWorker_append (world : World) (convert : GoString → Option GoString)
    (pre rest : List GoString) (tag : Nat) (trace : List Event) :
    StartWorker world convert (pre ++ rest) tag trace
      = if (StartWorker world convert pre tag trace).crashed
        then StartWorker world convert pre tag trace
        else StartWorker world convert rest (tag + pre.length)
          (StartWorker world convert pre tag trace).trace := by
  induction pre generalizing tag trace with
  | nil => simp [StartWorker]
  | cons d ds ih =>
    have hlen : tag + (d :: ds).length = tag + 1 + ds.length := by simp; omega
    simp only [List.cons_append, StartWorker, hlen]
    split
    · exact ih _ _
    · exact ih _ _
    · simp

/-- The settlements of a run are those before it followed by one for each delivery
handled, in the order of the delivery tags. -/
theorem StartWorker_settlements (world : World) (convert : GoString → Option GoString)
    (bodies : List GoString) (tag : Nat) (trace : List Event) :
    ∃ s, settlements (StartWorker world convert bodies tag trace).trace = settlements trace ++ s
      ∧ (s.map Prod.fst) <+: List.range' tag bodies.length := by
  induction bodies generalizing tag trace with
  | nil => exact ⟨[], by simp [StartWorker], by simp⟩
  | cons d ds ih =>
    have hp := processMessage_settlements world convert d trace
    simp only [StartWorker]
    split
    · rename_i t1 heq
      rw [heq] at hp
      obtain ⟨s, hs, hpre⟩ := ih (tag + 1) (t1 ++ [Event.nack tag false false])
      refine ⟨(tag, false) :: s, ?_, ?_⟩
      · rw [hs, settlements_append]
        simp only [Result.trace] at hp
        simp [settlements, hp]
      · simpa [List.range'] using hpre
    · rename_i t1 heq
      rw [heq] at hp
      obtain ⟨s, hs, hpre⟩ := ih (tag + 1) (t1 ++ [Event.ack tag false])
      refine ⟨(tag, true) :: s, ?_, ?_⟩
      · rw [hs, settlements_append]
        simp only [Result.trace] at hp
        simp [settlements, hp]
      · simpa [List.range'] using hpre
    · rename_i t1 heq
      rw [heq] at hp
      exact ⟨[], by simpa [Result.trace] using hp, by simp⟩

theorem filter_tag_eq_nil (s : List (Nat × Bool)) (tags : List Nat) (tag : Nat)
    (hpre : (s.map Prod.fst) <+: tags) (hnot : tag ∉ tags) :
    s.filter (fun x => x.1 = tag) = [] := by
  rw [List.filter_eq_nil_iff]
  intro x hx hxt
  have hx1 : x.1 ∈ s.map Prod.fst := List.mem_map_of_mem Prod.fst hx
  have : x.1 = tag := by simpa using hxt
  exact hnot (this ▸ hpre.subset hx1)

theorem filter_tag_length_le_one (s : List (Nat × Bool)) (tags : List Nat) (tag : Nat)
    (hpre : (s.map Prod.fst) <+: tags) (hnodup : tags.Nodup) :
    (s.filter (fun x => x.1 = tag)).length ≤ 1 := by
  have hnd : (s.map Prod.fst).Nodup := hnodup.sublist hpre.sublist
  have hcount : (s.map Prod.fst).count tag ≤ 1 := List.nodup_iff_count_le_one.mp hnd tag
  have : (s.filter (fun x => x.1 = tag)).length = (s.map Prod.fst).count tag := by
    clear hpre hnd hcount
    induction s with
    | nil => rfl
    | cons x xs ih =>
      by_cases hx : x.1 = tag
      · simp [hx, List.filter_cons, ih]
      · simp [hx, List.filter_cons, ih, List.count_cons]
  omega

/-- C9, settlement on failure: in every run of the worker loop, a delivery the loop
reaches whose payload fails to decode, or whose store insert returns an error, makes
`processMessage` return an error; the loop answers with `Nack(false, false)`, that is
without requeue, and goes on with the next delivery; in the whole run that delivery is
settled exactly once, by the nack, so it is never acknowledged; and every delivery of the
run is settled at most once. The deliveries before it are `pre`, so its tag is
`tag + pre.length`. -/
theorem failed_delivery_is_nacked (world : World) (convert : GoString → Option GoString)
    (pre : List GoString) (body : GoString) (post : List GoString) (tag : Nat)
    (trace : List Event)
    (hreach : StartWorker world convert pre tag [] = ⟨trace, false⟩)
    (hfail : Unmarshal (unwrapBody body) = none
      ∨ ∃ data, Unmarshal (unwrapBody body) = some data
          ∧ ∃ trace1, InsertCsvData world convert data trace = Result.error trace1) :
    ∃ trace1,
      processMessage world convert body trace = Result.error trace1
      ∧ StartWorker world convert (pre ++ body :: post) tag []
          = StartWorker world convert post (tag + pre.length + 1)
              (trace1 ++ [Event.nack (tag + pre.length) false false])
      ∧ (settlements (StartWorker world convert (pre ++ body :: post) tag []).trace).filter
            (fun s => s.1 = tag + pre.length) = [(tag + pre.length, false)]
      ∧ ∀ t, ((settlements (StartWorker world convert (pre ++ body :: post) tag []).trace).filter
            (fun s => s.1 = t)).length ≤ 1 := by
  have herr : ∃ trace1, processMessage world convert body trace = Result.error trace1 := by
    rcases hfail with hnone | ⟨data, hsome, t1, hins⟩
    · refine ⟨trace, ?_⟩
      unfold processMessage
      simp only [unwrapBody] at hnone
      simp only [hnone]
    · refine ⟨t1, ?_⟩
      unfold processMessage
      simp only [unwrapBody] at hsome
      simp only [hsome, hins]
  obtain ⟨trace1, hproc⟩ := herr
  have hstep : StartWorker world convert (pre ++ body :: post) tag []
      = StartWorker world convert post (tag + pre.length + 1)
          (trace1 ++ [Event.nack (tag + pre.length) false false]) := by
    rw [StartWorker_append, hreach]
    simp only [Bool.false_eq_true, if_false, StartWorker, hproc]
  refine ⟨trace1, hproc, hstep, ?_, ?_⟩
  · obtain ⟨sPre, hsPre, hpPre⟩ := StartWorker_settlements world convert pre tag []
    obtain ⟨sPost, hsPost, hpPost⟩ := StartWorker_settlements world convert post
      (tag + pre.length + 1) (trace1 ++ [Event.nack (tag + pre.length) false false])
    have h1 : settlements trace1 = settlements trace := by
      have := processMessage_settlements world convert body trace
      rw [hproc] at this
      simpa [Result.trace] using this
    rw [hreach] at hsPre
    simp only [settlements, List.nil_append] at hsPre
    rw [hstep, hsPost, settlements_append, h1, hsPre]
    have hdpre : tag + pre.length ∉ List.range' tag pre.length := by
      simp [List.mem_range']
    have hdpost : tag + pre.length ∉ List.range' (tag + pre.length + 1) post.length := by
      simp only [List.mem_range', not_exists, not_and]
      intro x _
      omega
    simp only [settlements, List.filter_append,
      filter_tag_eq_nil sPre _ _ hpPre hdpre, filter_tag_eq_nil sPost _ _ hpPost hdpost]
    simp
  · intro t
    obtain ⟨s, hs, hp⟩ := StartWorker_settlements world convert (pre ++ body :: post) tag []
    rw [hs]
    simp only [settlements, List.nil_append]
    exact filter_tag_length_le_one s _ t hp (List.nodup_range' _ _)

/-- C9 at three deliveries with the tags 1, 2 and 3, the second of which is not JSON: it
is settled once, by a nack. -/
theorem failed_delivery_is_nacked_witness :
    (settlements (StartWorker acceptAll (fun _ => none)
        ([ascii "\x7b\"id\":\"1\",\"created_at\":\"-1\",\"deleted_at\":\"-1\",\"merged_at\":\"-1\"\x7d"]
          ++ ascii "1,Ann,Lee"
          :: [ascii "\x7b\"id\":\"3\",\"created_at\":\"-1\",\"deleted_at\":\"-1\",\"merged_at\":\"-1\"\x7d"])
        1 []).trace).filter (fun s => s.1 = 1 + 1) = [(1 + 1, false)] := by
  obtain ⟨_, _, _, h, _⟩ := failed_delivery_is_nacked acceptAll (fun _ => none)
    [ascii "\x7b\"id\":\"1\",\"created_at\":\"-1\",\"deleted_at\":\"-1\",\"merged_at\":\"-1\"\x7d"]
    (ascii "1,Ann,Lee")
    [ascii "\x7b\"id\":\"3\",\"created_at\":\"-1\",\"deleted_at\":\"-1\",\"merged_at\":\"-1\"\x7d"]
    1
    (StartWorker acceptAll (fun _ => none)
      [ascii "\x7b\"id\":\"1\",\"created_at\":\"-1\",\"deleted_at\":\"-1\",\"merged_at\":\"-1\"\x7d"]
      1 []).trace
    (by rfl) (Or.inl (by rfl))
  exact h

/-- A store that refuses the first insert: the delivery is rejected without requeue and
the next one is handled and acknowledged. -/
theorem insert_error_is_nacked_example :
    settlements (StartWorker (fun trace => trace.length != 2) (fun _ => none)
        [ascii "\x7b\"id\":\"1\",\"created_at\":\"-1\",\"deleted_at\":\"-1\",\"merged_at\":\"-1\"\x7d",
         ascii "\x7b\"id\":\"2\",\"created_at\":\"-1\",\"deleted_at\":\"-1\",\"merged_at\":\"-1\"\x7d"]
        1 []).trace = [(1, false), (2, true)] := by
  rfl

/-- C8 fails on the code: the consumer undoes the second encoding by replacing every
backslash-quote and trimming quotes, which is not the inverse of `json.Marshal` on a
string. A value with a double quote makes the unwrapped text malformed, so decoding
fails; a backslash comes back doubled; `&`, `<` and `>` come back as the six bytes of
their `\u00XX` escape. A Record of plain values does come back unchanged. -/
theorem round_trip_fails :
    roundTrip [(ascii "name", ascii "a\"b")] = none
    ∧ (roundTrip [(ascii "name", ascii "a\\b")]).map stringFields
        = some [(ascii "name", some (ascii "a\\\\b"))]
    ∧ (roundTrip [(ascii "name", ascii "Tom & Jerry")]).map stringFields
        = some [(ascii "name", some (ascii "Tom \\u0026 Jerry"))]
    ∧ (roundTrip [(ascii "name", ascii "a<b>")]).map stringFields
        = some [(ascii "name", some (ascii "a\\u003cb\\u003e"))]
    ∧ (roundTrip [(ascii "id", ascii "1"), (ascii "first_name", ascii "Ann")]).map stringFields
        = some [(ascii "first_name", some (ascii "Ann")), (ascii "id", some (ascii "1"))] := by
  refine ⟨by rfl, by decide, by decide, by decide, by decide⟩

/-- C10 fails on the code: the cache key is read with the unchecked assertion
`data["id"].(string)`. For a payload without an `id` (the Record of a file with no such
column) and for one whose `id` is a number, with a store, cache and broker that accept
every call, the payload decodes and `InsertCsvData` returns no error, yet
`processMessage` panics instead of returning; the worker ends there and the delivery is
neither acknowledged nor rejected. -/
theorem missing_id_panics_after_insert (convert : GoString → Option GoString) :
    ((Unmarshal (unwrapBody (publishBody (MarshalMap
        [(ascii "first_name", ascii "Ann"), (ascii "created_at", ascii "-1"),
         (ascii "deleted_at", ascii "-1"), (ascii "merged_at", ascii "-1")])))).map
      (fun data => (InsertCsvData acceptAll convert data []).isOk)) = some true
    ∧ (processMessage acceptAll convert (publishBody (MarshalMap
        [(ascii "first_name", ascii "Ann"), (ascii "created_at", ascii "-1"),
         (ascii "deleted_at", ascii "-1"), (ascii "merged_at", ascii "-1")])) []).isPanic = true
    ∧ (StartWorker acceptAll convert [publishBody (MarshalMap
        [(ascii "first_name", ascii "Ann"), (ascii "created_at", ascii "-1"),
         (ascii "deleted_at", ascii "-1"), (ascii "merged_at", ascii "-1")])] 1 []).crashed = true
    ∧ settlements (StartWorker acceptAll convert [publishBody (MarshalMap
        [(ascii "first_name", ascii "Ann"), (ascii "created_at", ascii "-1"),
         (ascii "deleted_at", ascii "-1"), (ascii "merged_at", ascii "-1")])] 1 []).trace = []
    ∧ ((Unmarshal (unwrapBody (ascii
        "\x7b\"id\":7,\"created_at\":\"-1\",\"deleted_at\":\"-1\",\"merged_at\":\"-1\"\x7d"))).map
      (fun data => (InsertCsvData acceptAll convert data []).isOk)) = some true
    ∧ (StartWorker acceptAll convert [ascii
        "\x7b\"id\":7,\"created_at\":\"-1\",\"deleted_at\":\"-1\",\"merged_at\":\"-1\"\x7d"] 1 []).crashed
        = true
    ∧ settlements (StartWorker acceptAll convert [ascii
        "\x7b\"id\":7,\"created_at\":\"-1\",\"deleted_at\":\"-1\",\"merged_at\":\"-1\"\x7d"] 1 []).trace
        = [] := by
  refine ⟨by rfl, by rfl, by rfl, by rfl, by rfl, by rfl, by rfl⟩

/-- With a string `id`, the store is the only gate: whatever the cache answers, a payload
that decodes and whose insert returns no error makes `processMessage` return no error and
the loop acknowledge the delivery. -/
theorem cache_failure_still_acks (world : World) (convert : GoString → Option GoString)
    (body : GoString) (bodies : List GoString) (tag : Nat) (trace trace1 : List Event)
    (data : Data) (id : GoString) (hdata : Unmarshal (unwrapBody body) = some data)
    (hins : InsertCsvData world convert data trace = Result.ok trace1)
    (hid : (data.get (ascii "id")).asString = some id) :
    processMessage world convert body trace
      = Result.ok (trace1 ++ [Event.cacheSet id (unwrapBody body)])
    ∧ StartWorker world convert (body :: bodies) tag trace
      = StartWorker world convert bodies (tag + 1)
          (trace1 ++ [Event.cacheSet id (unwrapBody body)] ++ [Event.ack tag false]) := by
  have hp : processMessage world convert body trace
      = Result.ok (trace1 ++ [Event.cacheSet id (unwrapBody body)]) := by
    unfold processMessage
    simp only [unwrapBody] at hdata ⊢
    simp only [hdata, hins, hid]
  exact ⟨hp, by simp only [StartWorker, hp]⟩

/-! ## Parsing and converting a time stamp -/

theorem log2Aux_spec (fuel n : Nat) (hn : 1 ≤ n) (hf : n ≤ fuel) :
    2 ^ log2Aux fuel n ≤ n ∧ n < 2 ^ (log2Aux fuel n + 1) := by
  induction fuel generalizing n with
  | zero => omega
  | succ fuel ih =>
    unfold log2Aux
    by_cases h2 : n < 2
    · simp only [h2, if_true]
      have : n = 1 := by omega
      subst this
      simp
    · simp only [h2, if_false]
      have ih2 := ih (n / 2) (by omega) (by omega)
      have h1 := ih2.1
      have h3 := ih2.2
      rw [pow_succ] at h3 ⊢
      rw [pow_succ]
      constructor <;> omega

theorem floorLog2_spec (n : Nat) (hn : 1 ≤ n) :
    2 ^ floorLog2 n ≤ n ∧ n < 2 ^ (floorLog2 n + 1) :=
  log2Aux_spec n n hn (Nat.le_refl n)

theorem floorLog2_one : floorLog2 1 = 0 := by decide

theorem floorLog2_lt (n k : Nat) (hn : 1 ≤ n) (h : n < 2 ^ k) : floorLog2 n < k := by
  have := (floorLog2_spec n hn).1
  by_contra hk
  have hk2 : k ≤ floorLog2 n := by omega
  have : 2 ^ k ≤ 2 ^ floorLog2 n := Nat.pow_le_pow_right (by decide) hk2
  omega

/-- An integer below `2^53` is a float64: rounding leaves it unchanged. -/
theorem roundToFloat64_integer (neg : Bool) (n : Nat) (hn : 1 ≤ n) (h53 : n < 2 ^ 53) :
    roundToFloat64 neg n 1
      = some (Float64.finite neg (n * 2 ^ (52 - floorLog2 n)) ((floorLog2 n : Int) - 52)) := by
  have hl := floorLog2_lt n 53 hn h53
  have hspec := floorLog2_spec n hn
  have hge : geTwoPow n 1 (floorLog2 n : Int) = true := by
    simp [geTwoPow, hspec.1]
  have hmax : max ((floorLog2 n : Int) - 52) (-1074) = (floorLog2 n : Int) - 52 := by omega
  have hm : n * 2 ^ (52 - floorLog2 n) < 2 ^ 53 := by
    have : n * 2 ^ (52 - floorLog2 n) < 2 ^ (floorLog2 n + 1) * 2 ^ (52 - floorLog2 n) :=
      Nat.mul_lt_mul_of_pos_right hspec.2 (Nat.pow_pos (by decide))
    rw [← pow_add] at this
    have he : floorLog2 n + 1 + (52 - floorLog2 n) = 53 := by omega
    rwa [he] at this
  unfold roundToFloat64
  have hn0 : n ≠ 0 := by omega
  simp only [hn0, if_false, floorLog2_one, Nat.cast_zero, sub_zero, hge, if_true, hmax]
  by_cases h52 : floorLog2 n = 52
  · have he0 : (0 : Int) ≤ (floorLog2 n : Int) - 52 := by omega
    have hneg0 : ((floorLog2 n : Int) - 52).toNat = 0 := by omega
    simp only [he0, if_true, hneg0, pow_zero, mul_one, Nat.div_one, Nat.mod_one]
    have h520 : 52 - floorLog2 n = 0 := by omega
    rw [h520] at hm ⊢
    simp only [pow_zero, mul_one] at hm ⊢
    have hne : n ≠ 2 ^ 53 := by omega
    simp [hne]
    omega
  · have he0 : ¬ (0 : Int) ≤ (floorLog2 n : Int) - 52 := by omega
    have hneg : (-((floorLog2 n : Int) - 52)).toNat = 52 - floorLog2 n := by omega
    simp only [he0, if_false, hneg, Nat.div_one, Nat.mod_one]
    have hne : n * 2 ^ (52 - floorLog2 n) ≠ 2 ^ 53 := by omega
    simp [hne]
    omega


theorem readMantissa_digits (ds : GoString) (st : Mantissa)
    (hds : ∀ c ∈ ds, 48 ≤ c ∧ c ≤ 57) (hdot : st.sawdot = false)
    (hund : st.underscores = false) (hval : st.nd = 0 → st.value = 0) :
    (readMantissa false ds st).2 = []
    ∧ (readMantissa false ds st).1.sawdot = false
    ∧ (readMantissa false ds st).1.underscores = false
    ∧ (readMantissa false ds st).1.value = ds.foldl (fun n d => 10 * n + (d - 48)) st.value
    ∧ (ds ≠ [] → (readMantissa false ds st).1.sawdigits = true)
    ∧ (st.sawdigits = true → (readMantissa false ds st).1.sawdigits = true) := by
  induction ds generalizing st with
  | nil => simp [readMantissa, hdot, hund]
  | cons c cs ih =>
    have hc := hds c (by simp)
    have hcs : ∀ c ∈ cs, 48 ≤ c ∧ c ≤ 57 := fun x hx => hds x (by simp [hx])
    have h95 : c ≠ 95 := by omega
    have h46 : c ≠ 46 := by omega
    unfold readMantissa
    simp only [h95, h46, if_false, hc, and_self, if_true]
    by_cases hz : c = 48 ∧ st.nd = 0
    · rw [if_pos hz]
      have := ih { st with sawdigits := true, dp := st.dp - 1 } hcs hdot hund hval
      obtain ⟨h1, h2, h3, h4, h5, h6⟩ := this
      refine ⟨h1, h2, h3, ?_, fun _ => h6 rfl, fun _ => h6 rfl⟩
      rw [h4, List.foldl_cons]
      simp [hval hz.2, hz.1]
    · rw [if_neg hz]
      have := ih { st with sawdigits := true, nd := st.nd + 1, value := st.value * (if false = true then 16 else 10) + (c - 48) } hcs hdot hund (by simp)
      obtain ⟨h1, h2, h3, h4, h5, h6⟩ := this
      refine ⟨h1, h2, h3, ?_, fun _ => h6 rfl, fun _ => h6 rfl⟩
      rw [h4, List.foldl_cons]
      simp [Nat.mul_comm]

theorem lower_digit (c : Nat) (hc : 48 ≤ c ∧ c ≤ 57) : lower c = c := by
  unfold lower
  have : ¬ (65 ≤ c ∧ c ≤ 90) := by omega
  simp [this]

theorem special_decimalInteger (sign digits : GoString) (h : decimalInteger sign digits) :
    special (sign ++ digits) = none := by
  obtain ⟨hsign, hne, hds⟩ := h
  obtain ⟨d, ds, rfl⟩ := List.exists_cons_of_ne_nil hne
  have hd := hds d (by simp)
  have hcp : commonPrefixLenIgnoreCase (d :: ds) (ascii "infinity") = 0 := by
    have : ascii "infinity" = 105 :: ascii "nfinity" := by decide
    rw [this]
    unfold commonPrefixLenIgnoreCase
    rw [lower_digit d hd]
    have : d ≠ 105 := by omega
    simp [this]
  rcases hsign with rfl | rfl | rfl
  · have h1 : ¬ (d = 43 ∨ d = 45 ∨ d = 105 ∨ d = 73) := by omega
    have h2 : ¬ (d = 110 ∨ d = 78) := by omega
    simp [special, h1, h2]
  · simp [special, hcp]
  · simp [special, hcp]

/-- The float64 a decimal integer below `2^53` parses to. -/
theorem ParseFloat_decimalInteger (sign digits : GoString) (h : decimalInteger sign digits) :
    ParseFloat (sign ++ digits)
      = roundToFloat64 (decide (sign = [45])) (natOfDigits digits) 1 := by
  have hsp := special_decimalInteger sign digits h
  obtain ⟨hsign, hne, hds⟩ := h
  have hst := readMantissa_digits digits ⟨0, 0, 0, false, false, false⟩ hds rfl rfl (fun _ => rfl)
  obtain ⟨h1, h2, h3, h4, h5, _⟩ := hst
  have h5 := h5 hne
  obtain ⟨d, ds, hdd⟩ := List.exists_cons_of_ne_nil hne
  have hd := hds d (by simp [hdd])
  have hs1 : (if (sign ++ digits).head? = some 43 ∨ (sign ++ digits).head? = some 45
      then (sign ++ digits).drop 1 else sign ++ digits) = digits := by
    rcases hsign with rfl | rfl | rfl
    · have h43 : d ≠ 43 := by omega
      have h45 : d ≠ 45 := by omega
      simp [hdd, h43, h45]
    · simp
    · simp
  have hneg : decide ((sign ++ digits).head? = some 45) = decide (sign = [45]) := by
    rcases hsign with rfl | rfl | rfl
    · have h45 : d ≠ 45 := by omega
      simp [hdd, h45]
    · simp
    · simp
  have hhex : (decide (2 < digits.length) && digits.head? == some 48
      && ((digits.drop 1).head?.map lower) == some 120) = false := by
    rw [hdd]
    cases ds with
    | nil => simp
    | cons d2 ds2 =>
      have hd2 := hds d2 (by simp [hdd])
      have : lower d2 ≠ 120 := by rw [lower_digit d2 hd2]; omega
      simp [this]
  unfold ParseFloat
  simp only [hsp, hs1, hneg, hne, if_false, hhex]
  generalize hr : readMantissa false digits ⟨0, 0, 0, false, false, false⟩ = r at h1 h2 h3 h4 h5 ⊢
  obtain ⟨st, s3⟩ := r
  simp only at h1 h2 h3 h4 h5
  subst h1
  simp [hr, h2, h3, h5, h4, natOfDigits]


/-- The conversion of an integer below `2^53` to `int64` gives the integer back, and the
float is -1 only for the integer -1. -/
theorem roundToFloat64_integer_toInt64 (neg : Bool) (n : Nat) (h53 : n < 2 ^ 53)
    (outOfRange : Float64 → Int) :
    ∃ f, roundToFloat64 neg n 1 = some f
      ∧ f.toInt64 outOfRange = (if neg then -(n : Int) else n)
      ∧ (f.isMinusOne = true → neg = true ∧ n = 1) := by
  by_cases hn : n = 0
  · subst hn
    refine ⟨Float64.finite neg 0 0, by simp [roundToFloat64], ?_, ?_⟩
    · cases neg <;> simp [Float64.toInt64]
    · simp [Float64.isMinusOne]
  · have hn1 : 1 ≤ n := by omega
    have hl := floorLog2_lt n 53 hn1 h53
    have hspec := floorLog2_spec n hn1
    refine ⟨_, roundToFloat64_integer neg n hn1 h53, ?_, ?_⟩
    · have hmag : (if (0 : Int) ≤ (floorLog2 n : Int) - 52
          then n * 2 ^ (52 - floorLog2 n) * 2 ^ ((floorLog2 n : Int) - 52).toNat
          else n * 2 ^ (52 - floorLog2 n) / 2 ^ (-((floorLog2 n : Int) - 52)).toNat) = n := by
        by_cases h52 : floorLog2 n = 52
        · have he0 : (0 : Int) ≤ (floorLog2 n : Int) - 52 := by omega
          have ht : ((floorLog2 n : Int) - 52).toNat = 0 := by omega
          have hk : 52 - floorLog2 n = 0 := by omega
          simp [he0, ht, hk]
        · have he0 : ¬ (0 : Int) ≤ (floorLog2 n : Int) - 52 := by omega
          have ht : (-((floorLog2 n : Int) - 52)).toNat = 52 - floorLog2 n := by omega
          simp only [he0, if_false, ht]
          exact Nat.mul_div_cancel n (Nat.pow_pos (by decide))
      have hr : (n : Int) < 2 ^ 63 := by
        have : (n : Int) < 2 ^ 53 := by exact_mod_cast h53
        omega
      cases neg
      · have hin : -(2 ^ 63 : Int) ≤ (n : Int) ∧ (n : Int) < 2 ^ 63 := ⟨by omega, hr⟩
        simp only [Float64.toInt64, hmag, Bool.false_eq_true, if_false]
        rw [if_pos hin]
      · have hin : -(2 ^ 63 : Int) ≤ -(n : Int) ∧ -(n : Int) < 2 ^ 63 := ⟨by omega, by omega⟩
        simp only [Float64.toInt64, hmag, if_true]
        rw [if_pos hin]
    · intro hm
      simp only [Float64.isMinusOne, Bool.and_eq_true, beq_iff_eq] at hm
      obtain ⟨⟨hneg, hmant⟩, hexp⟩ := hm
      have hl0 : floorLog2 n = 0 := by omega
      rw [hl0] at hmant
      simp only [Nat.sub_zero] at hmant
      have : n = 1 := by
        have h252 : (0 : Nat) < 2 ^ 52 := Nat.pow_pos (by decide)
        exact Nat.eq_of_mul_eq_mul_right h252 (by simpa using hmant)
      exact ⟨hneg, this⟩

/-- The result of `convertFloatTimestamp` on a decimal integer below `2^53` in magnitude
other than -1: the rendering of the quotient by 1000, truncated toward zero. -/
theorem convertFloatTimestamp_integer (zone : Int → Int) (outOfRange : Float64 → Int)
    (sg ds : GoString) (hi : decimalInteger sg ds) (hb : natOfDigits ds < 2 ^ 53)
    (hv : integerValue sg ds ≠ -1) :
    convertFloatTimestamp zone outOfRange (sg ++ ds)
      = some (formatUnix zone (Int.tdiv (integerValue sg ds) 1000)) := by
  obtain ⟨f, hf, hto, hmo⟩ :=
    roundToFloat64_integer_toInt64 (decide (sg = [45])) (natOfDigits ds) hb outOfRange
  have hnot : f.isMinusOne = false := by
    cases hm : f.isMinusOne with
    | false => rfl
    | true =>
      exfalso
      obtain ⟨hneg, h1⟩ := hmo hm
      apply hv
      have hsg : sg = [45] := by simpa using hneg
      simp [integerValue, hsg, h1]
  have hval : f.toInt64 outOfRange = integerValue sg ds := by
    rw [hto]
    by_cases hsg : sg = [45] <;> simp [integerValue, hsg]
  unfold convertFloatTimestamp
  rw [ParseFloat_decimalInteger sg ds hi, hf]
  simp only [hnot, Bool.false_eq_true, if_false, hval]

theorem commonPrefix_bytes (body p : GoString) :
    ∀ c ∈ body.take (commonPrefixLenIgnoreCase body p), lower c ∈ p := by
  induction body generalizing p with
  | nil => intro c hc; simp at hc
  | cons b rest ih =>
    cases p with
    | nil => intro c hc; simp [commonPrefixLenIgnoreCase] at hc
    | cons q qs =>
      intro c hc
      unfold commonPrefixLenIgnoreCase at hc
      by_cases h : lower b = q
      · rw [if_pos h, List.take_succ_cons, List.mem_cons] at hc
        rcases hc with hc | hc
        · rw [hc, h]; exact List.mem_cons_self _ _
        · exact List.mem_cons_of_mem _ (ih qs c hc)
      · rw [if_neg h] at hc
        simp at hc

theorem commonPrefix_le (body p : GoString) :
    commonPrefixLenIgnoreCase body p ≤ body.length := by
  induction body generalizing p with
  | nil => simp [commonPrefixLenIgnoreCase]
  | cons b rest ih =>
    cases p with
    | nil => simp [commonPrefixLenIgnoreCase]
    | cons q qs =>
      unfold commonPrefixLenIgnoreCase
      split
      · simp only [List.length_cons]; have := ih qs; omega
      · omega

theorem readMantissa_bytes (hex : Bool) (s : GoString) (st : Mantissa) :
    ∃ pre, s = pre ++ (readMantissa hex s st).2 ∧ ∀ c ∈ pre, floatByte c := by
  induction s generalizing st with
  | nil => exact ⟨[], rfl, by simp⟩
  | cons c rest ih =>
    have hstep : ∀ st2, floatByte c →
        ∃ pre, c :: rest = pre ++ (readMantissa hex rest st2).2 ∧ ∀ x ∈ pre, floatByte x := by
      intro st2 hc
      obtain ⟨pre, h1, h2⟩ := ih st2
      refine ⟨c :: pre, by rw [List.cons_append, ← h1], ?_⟩
      intro x hx
      rcases List.mem_cons.1 hx with hx | hx
      · rw [hx]; exact hc
      · exact h2 x hx
    have hstop : ∃ pre, c :: rest = pre ++ (c :: rest) ∧ ∀ x ∈ pre, floatByte x :=
      ⟨[], rfl, by simp⟩
    unfold readMantissa
    split
    · rename_i h; exact hstep _ (by simp [floatByte, h])
    · split
      · rename_i h
        split
        · exact hstop
        · exact hstep _ (by simp [floatByte, h])
      · split
        · rename_i h
          split
          · exact hstep _ (Or.inl h)
          · exact hstep _ (Or.inl h)
        · split
          · rename_i h
            refine hstep _ ?_
            right; right; right; right; right
            have h1 := h.2.1
            have h2 := h.2.2
            have : lower c = 97 ∨ lower c = 98 ∨ lower c = 99 ∨ lower c = 100 ∨ lower c = 101
                ∨ lower c = 102 := by omega
            rcases this with h | h | h | h | h | h <;> rw [h] <;> decide
          · exact hstop

theorem readExponent_bytes (s : GoString) (e : Nat) (u : Bool) :
    ∃ pre, s = pre ++ (readExponent s e u).2.2 ∧ ∀ c ∈ pre, floatByte c := by
  induction s generalizing e u with
  | nil => exact ⟨[], rfl, by simp⟩
  | cons c rest ih =>
    have hstep : ∀ e2 u2, floatByte c →
        ∃ pre, c :: rest = pre ++ (readExponent rest e2 u2).2.2 ∧ ∀ x ∈ pre, floatByte x := by
      intro e2 u2 hc
      obtain ⟨pre, h1, h2⟩ := ih e2 u2
      refine ⟨c :: pre, by rw [List.cons_append, ← h1], ?_⟩
      intro x hx
      rcases List.mem_cons.1 hx with hx | hx
      · rw [hx]; exact hc
      · exact h2 x hx
    unfold readExponent
    split
    · rename_i h; exact hstep _ _ (by simp [floatByte, h])
    · split
      · rename_i h; exact hstep _ _ (Or.inl h)
      · exact ⟨[], rfl, by simp⟩

theorem infinity_bytes : ∀ x ∈ ascii "infinity", x ∈ ascii "abcdefinptxy" := by decide

theorem nan_bytes : ∀ x ∈ ascii "nan", x ∈ ascii "abcdefinptxy" := by decide

theorem special_bytes (s : GoString) (f : Float64) (n : Nat) (h : special s = some (f, n))
    (hn : n = s.length) : ∀ c ∈ s, floatByte c := by
  cases s with
  | nil => simp
  | cons b rest =>
    unfold special at h
    simp only [] at h
    have hall : ∀ (body p : GoString) (k : Nat), k ≤ commonPrefixLenIgnoreCase body p →
        k = body.length → (∀ x ∈ p, x ∈ ascii "abcdefinptxy") → ∀ c ∈ body, floatByte c := by
      intro body p k hk hlen hp c hc
      have hle := commonPrefix_le body p
      have hb2 := commonPrefix_bytes body p
      rw [show commonPrefixLenIgnoreCase body p = body.length by omega, List.take_length] at hb2
      exact Or.inr (Or.inr (Or.inr (Or.inr (Or.inr (hp _ (hb2 c hc))))))
    simp only [List.length_cons] at hn
    by_cases hs : b = 43 ∨ b = 45
    · have hb : b = 43 ∨ b = 45 ∨ b = 105 ∨ b = 73 := by omega
      simp only [hb, hs, decide_True, if_true] at h
      have hrest : ∀ c ∈ rest, floatByte c := by
        split_ifs at h <;> simp only [Option.some.injEq, Prod.mk.injEq, reduceCtorEq] at h
        all_goals
          refine hall rest (ascii "infinity") (n - 1) ?_ (by omega) infinity_bytes
          omega
      intro c hc
      rcases List.mem_cons.1 hc with hc | hc
      · rw [hc]
        rcases hs with hs | hs
        · exact Or.inr (Or.inl hs)
        · exact Or.inr (Or.inr (Or.inl hs))
      · exact hrest c hc
    · by_cases hb : b = 43 ∨ b = 45 ∨ b = 105 ∨ b = 73
      · simp only [hb, hs, decide_False, Bool.false_eq_true, if_true, if_false] at h
        split_ifs at h <;> simp only [Option.some.injEq, Prod.mk.injEq, reduceCtorEq] at h
        all_goals
          refine hall (b :: rest) (ascii "infinity") n ?_ (by simp only [List.length_cons]; omega)
            infinity_bytes
          omega
      · simp only [hb, if_false] at h
        split_ifs at h
        simp only [Option.some.injEq, Prod.mk.injEq, reduceCtorEq] at h
        all_goals
          refine hall (b :: rest) (ascii "nan") n ?_ (by simp only [List.length_cons]; omega)
            nan_bytes
          omega

theorem drop_sign_bytes (s : GoString) :
    ∀ c ∈ s, c ∈ (if s.head? = some 43 ∨ s.head? = some 45 then s.drop 1 else s)
      ∨ floatByte c := by
  cases s with
  | nil => simp
  | cons b rest =>
    intro c hc
    by_cases hb : b = 43 ∨ b = 45
    · have hh : (b :: rest).head? = some 43 ∨ (b :: rest).head? = some 45 := by
        simpa using hb
      rw [if_pos hh]
      rcases List.mem_cons.1 hc with hc | hc
      · right
        rw [hc]
        rcases hb with hb | hb
        · exact Or.inr (Or.inl hb)
        · exact Or.inr (Or.inr (Or.inl hb))
      · left
        simpa using hc
    · have hh : ¬ ((b :: rest).head? = some 43 ∨ (b :: rest).head? = some 45) := by
        simpa using hb
      rw [if_neg hh]
      exact Or.inl hc

theorem of_ite_none {α : Type} {c : Prop} [Decidable c] {x : Option α} {a : α}
    (h : (if c then none else x) = some a) : ¬ c ∧ x = some a := by
  by_cases hc : c
  · rw [if_pos hc] at h
    cases h
  · rw [if_neg hc] at h
    exact ⟨hc, h⟩

/-- A text that `strconv.ParseFloat` accepts is made of the bytes of `floatByte` only. -/
theorem ParseFloat_bytes (s : GoString) (f : Float64) (h : ParseFloat s = some f) :
    ∀ c ∈ s, floatByte c := by
  unfold ParseFloat at h
  split at h
  · rename_i f2 n hsp
    split at h
    · rename_i hn
      exact special_bytes s f2 n hsp hn
    · simp at h
  · simp only [] at h
    have hA := drop_sign_bytes s
    generalize hs1 : (if s.head? = some 43 ∨ s.head? = some 45 then s.drop 1 else s) = s1
      at h hA
    generalize hhex : (decide (2 < s1.length) && s1.head? == some 48
      && ((s1.drop 1).head?.map lower) == some 120) = hex at h
    generalize hs2 : (if hex = true then s1.drop 2 else s1) = s2 at h
    generalize hr : readMantissa hex s2 ⟨0, 0, 0, false, false, false⟩ = r at h
    obtain ⟨st, s3⟩ := r
    simp only [] at h
    generalize hexp : ((s3.head?.map lower) == some (if hex = true then 112 else 101)) = hasExp at h
    have hD := drop_sign_bytes (s3.drop 1)
    generalize hs5 : (if (s3.drop 1).head? = some 43 ∨ (s3.drop 1).head? = some 45
      then (s3.drop 1).drop 1 else s3.drop 1) = s5 at h hD
    obtain ⟨-, h⟩ := of_ite_none h
    obtain ⟨-, h⟩ := of_ite_none h
    obtain ⟨-, h⟩ := of_ite_none h
    obtain ⟨-, h⟩ := of_ite_none h
    obtain ⟨-, h⟩ := of_ite_none h
    obtain ⟨hend, -⟩ := of_ite_none h
    simp only [ne_eq, not_not] at hend
    -- the bytes of the mantissa
    obtain ⟨pre, hpre, hpreb⟩ := readMantissa_bytes hex s2 ⟨0, 0, 0, false, false, false⟩
    rw [hr] at hpre
    simp only [] at hpre
    -- the bytes after the mantissa
    have hs3 : ∀ c ∈ s3, floatByte c := by
      cases hasExp with
      | false =>
        simp only [Bool.false_eq_true, if_false] at hend
        rw [hend]
        simp
      | true =>
        simp only [if_true] at hend
        obtain ⟨pre2, hpre2, hpre2b⟩ := readExponent_bytes s5 0 false
        rw [hend, List.append_nil] at hpre2
        cases s3 with
        | nil => simp
        | cons e s4 =>
          have he : lower e = 112 ∨ lower e = 101 := by
            simp only [List.head?_cons, Option.map_some', beq_iff_eq, Option.some.injEq] at hexp
            cases hex
            · exact Or.inr (by simpa using hexp)
            · exact Or.inl (by simpa using hexp)
          intro c hc
          rcases List.mem_cons.1 hc with hc | hc
          · rw [hc]
            right; right; right; right; right
            rcases he with he | he <;> rw [he] <;> decide
          · rcases hD c (by simpa using hc) with h5 | h5
            · rw [hpre2] at h5
              exact hpre2b c h5
            · exact h5
    -- the bytes of the base prefix
    have hB : ∀ c ∈ s1, c ∈ s2 ∨ floatByte c := by
      cases hex with
      | false =>
        simp only [Bool.false_eq_true, if_false] at hs2
        rw [← hs2]
        exact fun c hc => Or.inl hc
      | true =>
        simp only [if_true] at hs2
        match s1, hhex, hs2 with
        | [], hhex, _ => simp
        | [_], hhex, _ => simp at hhex
        | a :: b :: rest, hhex, hs2 =>
          simp only [List.drop_succ_cons, List.drop_zero] at hs2
          simp only [List.length_cons, List.head?_cons, List.drop_succ_cons, List.drop_zero,
            Option.map_some', Bool.and_eq_true, decide_eq_true_eq, beq_iff_eq,
            Option.some.injEq] at hhex
          intro c hc
          rcases List.mem_cons.1 hc with hc | hc
          · right; left
            rw [hc, hhex.1.2]
            decide
          · rcases List.mem_cons.1 hc with hc | hc
            · right; right; right; right; right; right
              rw [hc, hhex.2]
              decide
            · left
              rw [← hs2]
              exact hc
    intro c hc
    rcases hA c hc with h1 | h1
    · rcases hB c h1 with h2 | h2
      · rw [hpre] at h2
        rcases List.mem_append.1 h2 with h3 | h3
        · exact hpreb c h3
        · exact hs3 c h3
      · exact h2
    · exact h1

/-- A text with a byte that no numeral has is not converted: the result is `nil`. -/
theorem convertFloatTimestamp_of_bad_byte (zone : Int → Int) (outOfRange : Float64 → Int)
    (s : GoString) (c : Nat) (hc : c ∈ s) (hbad : ¬ floatByte c) :
    convertFloatTimestamp zone outOfRange s = none := by
  cases hp : ParseFloat s with
  | none => simp only [convertFloatTimestamp, hp]
  | some f => exact absurd (ParseFloat_bytes s f hp c hc) hbad

theorem commonPrefix_map (body p : GoString) :
    (body.take (commonPrefixLenIgnoreCase body p)).map lower
      = p.take (commonPrefixLenIgnoreCase body p) := by
  induction body generalizing p with
  | nil => simp [commonPrefixLenIgnoreCase]
  | cons b rest ih =>
    cases p with
    | nil => simp [commonPrefixLenIgnoreCase]
    | cons q qs =>
      unfold commonPrefixLenIgnoreCase
      by_cases h : lower b = q
      · rw [if_pos h, List.take_succ_cons, List.take_succ_cons, List.map_cons, ih qs, h]
      · rw [if_neg h]
        simp

/-- A text `special` reads to its end is one of the names. -/
theorem special_specialName (s : GoString) (f : Float64) (n : Nat)
    (h : special s = some (f, n)) (hn : n = s.length) : specialName s = true := by
  cases s with
  | nil => simp [special] at h
  | cons b rest =>
    unfold special at h
    simp only [] at h
    have hall : ∀ (body p : GoString) (k : Nat), k ≤ commonPrefixLenIgnoreCase body p →
        k = body.length → body.map lower = p.take body.length := by
      intro body p k hk hlen
      have hle := commonPrefix_le body p
      have hm := commonPrefix_map body p
      rw [show commonPrefixLenIgnoreCase body p = body.length by omega, List.take_length] at hm
      exact hm
    simp only [List.length_cons] at hn
    by_cases hs : b = 43 ∨ b = 45
    · have hb : b = 43 ∨ b = 45 ∨ b = 105 ∨ b = 73 := by omega
      have hu : unsigned (b :: rest) = rest := by
        unfold unsigned
        rw [if_pos (by simpa using hs)]
        rfl
      simp only [hb, hs, decide_True, if_true] at h
      have hrest : rest.map lower = ascii "inf" ∨ rest.map lower = ascii "infinity" := by
        split_ifs at h <;> simp only [Option.some.injEq, Prod.mk.injEq, reduceCtorEq] at h
        all_goals
          have hm := hall rest (ascii "infinity") (n - 1) (by omega) (by omega)
          rename_i h38
          have hlen : rest.length = 3 ∨ rest.length = 8 := by omega
          rcases hlen with hl | hl
          · left; rw [hm, hl]; decide
          · right; rw [hm, hl]; decide
      unfold specialName
      rw [hu]
      rcases hrest with h1 | h1 <;> simp [h1]
    · have hu : unsigned (b :: rest) = b :: rest := by
        unfold unsigned
        rw [if_neg (by simpa using hs)]
      by_cases hb : b = 43 ∨ b = 45 ∨ b = 105 ∨ b = 73
      · simp only [hb, hs, decide_False, Bool.false_eq_true, if_true, if_false] at h
        have hrest : (b :: rest).map lower = ascii "inf"
            ∨ (b :: rest).map lower = ascii "infinity" := by
          split_ifs at h <;> simp only [Option.some.injEq, Prod.mk.injEq, reduceCtorEq] at h
          all_goals
            have hm := hall (b :: rest) (ascii "infinity") n (by omega)
              (by simp only [List.length_cons]; omega)
            rename_i h38
            have hlen : (b :: rest).length = 3 ∨ (b :: rest).length = 8 := by
              simp only [List.length_cons]; omega
            rcases hlen with hl | hl
            · left; rw [hm, hl]; decide
            · right; rw [hm, hl]; decide
        unfold specialName
        rw [hu]
        rcases hrest with h1 | h1 <;> simp [h1]
      · simp only [hb, if_false] at h
        split_ifs at h
        simp only [Option.some.injEq, Prod.mk.injEq, reduceCtorEq] at h
        have hm := hall (b :: rest) (ascii "nan") n (by omega)
          (by simp only [List.length_cons]; omega)
        have hl : (b :: rest).length = 3 := by simp only [List.length_cons]; omega
        rw [hl] at hm
        have h1 : (b :: rest).map lower = ascii "nan" := by rw [hm]; decide
        simp [specialName, h1]

/-- What the digit loop of `readFloat` reads is a run of mantissa bytes with at most one
point, and it has seen a digit only when the run has one. -/
theorem readMantissa_run (hex : Bool) (s : GoString) (st : Mantissa) :
    ∃ run, s = run ++ (readMantissa hex s st).2 ∧ run.all (mantissaByte hex) = true
      ∧ run.count 46 ≤ (if st.sawdot then 0 else 1)
      ∧ ((readMantissa hex s st).1.sawdigits = true →
          st.sawdigits = true ∨ run.any (digitByte hex) = true)
      ∧ (∀ c rest, (readMantissa hex s st).2 = c :: rest →
          mantissaByte hex c = false ∨ c = 46) := by
  induction s generalizing st with
  | nil => exact ⟨[], by simp [readMantissa]⟩
  | cons c rest ih =>
    have hstop : ∀ r : Mantissa × GoString, r = (st, c :: rest) →
        (mantissaByte hex c = false ∨ c = 46) →
        ∃ run, c :: rest = run ++ r.2 ∧ run.all (mantissaByte hex) = true
          ∧ run.count 46 ≤ (if st.sawdot then 0 else 1)
          ∧ (r.1.sawdigits = true → st.sawdigits = true ∨ run.any (digitByte hex) = true)
          ∧ (∀ c2 rest2, r.2 = c2 :: rest2 → mantissaByte hex c2 = false ∨ c2 = 46) := by
      intro r hr hc
      subst hr
      refine ⟨[], rfl, rfl, by simp, fun h => Or.inl h, ?_⟩
      intro c2 rest2 h2
      simp only [List.cons.injEq] at h2
      rw [← h2.1]
      exact hc
    unfold readMantissa
    by_cases h95 : c = 95
    · rw [if_pos h95]
      obtain ⟨run, h1, h2, h3, h4, h5⟩ := ih { st with underscores := true }
      refine ⟨c :: run, by rw [List.cons_append, ← h1], ?_, ?_, ?_, h5⟩
      · simp [h2, h95, mantissaByte]
      · rw [List.count_cons_of_ne (by omega)]
        exact h3
      · intro hs
        rcases h4 hs with h | h
        · exact Or.inl h
        · exact Or.inr (by simp [h])
    · rw [if_neg h95]
      by_cases h46 : c = 46
      · rw [if_pos h46]
        by_cases hdot : st.sawdot = true
        · rw [if_pos hdot]
          exact hstop _ rfl (Or.inr h46)
        · rw [if_neg hdot]
          obtain ⟨run, h1, h2, h3, h4, h5⟩ := ih { st with sawdot := true, dp := st.nd }
          refine ⟨c :: run, by rw [List.cons_append, ← h1], ?_, ?_, ?_, h5⟩
          · simp [h2, h46, mantissaByte]
          · simp only [if_true] at h3
            rw [h46, List.count_cons_self]
            simp only [hdot, Bool.false_eq_true, if_false]
            omega
          · intro hs
            rcases h4 hs with h | h
            · exact Or.inl h
            · exact Or.inr (by simp [h])
      · rw [if_neg h46]
        by_cases hd : 48 ≤ c ∧ c ≤ 57
        · rw [if_pos hd]
          have hdig : digitByte hex c = true := by simp [digitByte, isDigit, hd.1, hd.2]
          have hstep : ∀ st2 : Mantissa, st2.sawdot = st.sawdot →
              ∃ run, c :: rest = run ++ (readMantissa hex rest st2).2
                ∧ run.all (mantissaByte hex) = true
                ∧ run.count 46 ≤ (if st.sawdot then 0 else 1)
                ∧ ((readMantissa hex rest st2).1.sawdigits = true →
                    st.sawdigits = true ∨ run.any (digitByte hex) = true)
                ∧ (∀ c2 rest2, (readMantissa hex rest st2).2 = c2 :: rest2 →
                    mantissaByte hex c2 = false ∨ c2 = 46) := by
            intro st2 hst2
            obtain ⟨run, h1, h2, h3, h4, h5⟩ := ih st2
            refine ⟨c :: run, by rw [List.cons_append, ← h1], ?_, ?_, ?_, h5⟩
            · simp [h2, hdig, mantissaByte]
            · rw [List.count_cons_of_ne (by omega), ← hst2]
              exact h3
            · intro _
              exact Or.inr (by simp [hdig])
          split
          · exact hstep _ rfl
          · exact hstep _ rfl
        · rw [if_neg hd]
          by_cases hx : hex = true ∧ 97 ≤ lower c ∧ lower c ≤ 102
          · rw [if_pos hx]
            have hdig : digitByte hex c = true := by simp [digitByte, hx.1, hx.2.1, hx.2.2]
            obtain ⟨run, h1, h2, h3, h4, h5⟩ := ih
              { st with sawdigits := true, nd := st.nd + 1, value := st.value * 16 + (lower c - 87) }
            refine ⟨c :: run, by rw [List.cons_append, ← h1], ?_, ?_, ?_, h5⟩
            · simp [h2, hdig, mantissaByte]
            · rw [List.count_cons_of_ne (by omega)]
              exact h3
            · intro _
              exact Or.inr (by simp [hdig])
          · rw [if_neg hx]
            refine hstop _ rfl (Or.inl ?_)
            have hnd : isDigit c = false := by
              simp only [isDigit, Bool.and_eq_false_iff, decide_eq_false_iff_not]
              omega
            have hnx : (hex && decide (97 ≤ lower c ∧ lower c ≤ 102)) = false := by
              cases hex
              · rfl
              · simp only [true_and] at hx
                simp [hx]
            have hdb : digitByte hex c = false := by
              unfold digitByte
              rw [hnd, hnx]
              rfl
            unfold mantissaByte
            rw [hdb]
            simp [h95, h46]

/-- What the digit loop of the exponent reads is digits and underscores. -/
theorem readExponent_run (s : GoString) (e : Nat) (u : Bool) :
    ∃ run, s = run ++ (readExponent s e u).2.2
      ∧ run.all (fun c => isDigit c || c == 95) = true := by
  induction s generalizing e u with
  | nil => exact ⟨[], rfl, rfl⟩
  | cons c rest ih =>
    unfold readExponent
    by_cases h95 : c = 95
    · rw [if_pos h95]
      obtain ⟨run, h1, h2⟩ := ih e true
      refine ⟨c :: run, by rw [List.cons_append, ← h1], ?_⟩
      rw [List.all_cons, h2]
      simp [h95]
    · rw [if_neg h95]
      by_cases hd : 48 ≤ c ∧ c ≤ 57
      · rw [if_pos hd]
        obtain ⟨run, h1, h2⟩ := ih (if e < 10000 then e * 10 + (c - 48) else e) u
        refine ⟨c :: run, by rw [List.cons_append, ← h1], ?_⟩
        rw [List.all_cons, h2]
        simp [isDigit, hd.1, hd.2]
      · rw [if_neg hd]
        exact ⟨[], rfl, rfl⟩

theorem mark_not_mantissaByte (hex : Bool) (m : Nat)
    (h : lower m = if hex = true then 112 else 101) : mantissaByte hex m = false := by
  unfold lower at h
  cases hex
  · simp only [Bool.false_eq_true, if_false] at h
    simp only [mantissaByte, digitByte, isDigit, Bool.false_and, Bool.or_false,
      Bool.or_eq_false_iff, Bool.and_eq_false_iff, decide_eq_false_iff_not, beq_eq_false_iff_ne]
    split at h <;> omega
  · simp only [if_true] at h
    simp only [mantissaByte, digitByte, isDigit, Bool.true_and, lower,
      Bool.or_eq_false_iff, Bool.and_eq_false_iff, decide_eq_false_iff_not, beq_eq_false_iff_ne]
    split at h <;> split <;> omega

theorem numberText_of_parts (s run s3 : GoString)
    (hrun : (if (decide (2 < (unsigned s).length) && (unsigned s).head? == some 48
        && ((unsigned s).drop 1).head?.map lower == some 120) = true
      then (unsigned s).drop 2 else unsigned s) = run ++ s3)
    (hall : run.all (mantissaByte (decide (2 < (unsigned s).length)
      && (unsigned s).head? == some 48 && ((unsigned s).drop 1).head?.map lower == some 120))
        = true)
    (hcount : run.count 46 ≤ 1)
    (hany : run.any (digitByte (decide (2 < (unsigned s).length)
      && (unsigned s).head? == some 48 && ((unsigned s).drop 1).head?.map lower == some 120))
        = true)
    (hrest : (s3 = [] ∧ (decide (2 < (unsigned s).length)
        && (unsigned s).head? == some 48 && ((unsigned s).drop 1).head?.map lower == some 120)
          = false)
      ∨ (∃ c r, s3 = c :: r ∧ mantissaByte (decide (2 < (unsigned s).length)
          && (unsigned s).head? == some 48 && ((unsigned s).drop 1).head?.map lower == some 120)
            c = false
        ∧ exponentText (if (decide (2 < (unsigned s).length)
          && (unsigned s).head? == some 48 && ((unsigned s).drop 1).head?.map lower == some 120)
            = true then 112 else 101) s3 = true)) :
    numberText s = true := by
  unfold numberText
  simp only []
  generalize (decide (2 < (unsigned s).length) && (unsigned s).head? == some 48
    && ((unsigned s).drop 1).head?.map lower == some 120) = hex at hrun hall hany hrest ⊢
  rw [hrun]
  have hallp : ∀ a ∈ run, mantissaByte hex a = true := by
    simpa [List.all_eq_true] using hall
  rcases hrest with ⟨h3, hhex⟩ | ⟨c, r, h3, hc, hexp⟩
  · subst h3
    simp only [List.append_nil]
    rw [List.takeWhile_eq_self_iff.2 hallp, List.dropWhile_eq_nil_iff.2 hallp, hany, hhex]
    simp [hcount]
  · subst h3
    rw [List.takeWhile_append_of_pos hallp, List.dropWhile_append_of_pos hallp,
      List.takeWhile_cons_of_neg (by simp [hc]), List.dropWhile_cons_of_neg (by simp [hc]),
      List.append_nil, hany, hexp]
    simp [hcount]

/-- A text `strconv.ParseFloat` accepts is a numeric text. -/
theorem ParseFloat_numericText (s : GoString) (f : Float64) (h : ParseFloat s = some f) :
    numericText s = true := by
  unfold ParseFloat at h
  split at h
  · rename_i f2 n hsp
    split at h
    · rename_i hn
      simp [numericText, special_specialName s f2 n hsp hn]
    · simp at h
  · simp only [] at h
    have hparts := numberText_of_parts s
    unfold unsigned at hparts
    generalize hs1 : (if s.head? = some 43 ∨ s.head? = some 45 then s.drop 1 else s) = s1
      at h hparts
    generalize hhex : (decide (2 < s1.length) && s1.head? == some 48
      && ((s1.drop 1).head?.map lower) == some 120) = hex at h hparts
    generalize hs2 : (if hex = true then s1.drop 2 else s1) = s2 at h hparts
    obtain ⟨run, hrun, hall, hcount, hdig, hstop⟩ :=
      readMantissa_run hex s2 ⟨0, 0, 0, false, false, false⟩
    generalize hr : readMantissa hex s2 ⟨0, 0, 0, false, false, false⟩ = r
      at h hrun hdig hstop
    obtain ⟨st, s3⟩ := r
    simp only [] at h hrun hdig hstop
    generalize hexp : ((s3.head?.map lower) == some (if hex = true then 112 else 101)) = hasExp
      at h
    have hs5def : unsigned (s3.drop 1)
        = (if (s3.drop 1).head? = some 43 ∨ (s3.drop 1).head? = some 45
            then (s3.drop 1).drop 1 else s3.drop 1) := rfl
    generalize hs5 : (if (s3.drop 1).head? = some 43 ∨ (s3.drop 1).head? = some 45
      then (s3.drop 1).drop 1 else s3.drop 1) = s5 at h hs5def
    obtain ⟨-, h⟩ := of_ite_none h
    obtain ⟨c2, h⟩ := of_ite_none h
    obtain ⟨c3, h⟩ := of_ite_none h
    obtain ⟨c4, h⟩ := of_ite_none h
    obtain ⟨-, h⟩ := of_ite_none h
    obtain ⟨hend, -⟩ := of_ite_none h
    simp only [ne_eq, not_not] at hend
    have hsaw : st.sawdigits = true := by
      cases hsd : st.sawdigits
      · rw [hsd] at c2
        exact absurd rfl c2
      · rfl
    have hnum : numberText s = true := by
      refine hparts run s3 hrun hall (by simpa using hcount) ?_ ?_
      · rcases hdig hsaw with h0 | h0
        · cases h0
        · exact h0
      · cases hasExp with
        | false =>
          simp only [Bool.false_eq_true, if_false] at hend
          left
          refine ⟨hend, ?_⟩
          cases hex
          · rfl
          · exact absurd rfl c3
        | true =>
          simp only [if_true] at hend
          right
          cases s3 with
          | nil => simp at hexp
          | cons m s4 =>
            simp only [List.head?_cons, Option.map_some', beq_iff_eq, Option.some.injEq]
              at hexp
            simp only [List.drop_succ_cons, List.drop_zero] at hs5def
            refine ⟨m, s4, rfl, mark_not_mantissaByte hex m hexp, ?_⟩
            obtain ⟨run2, hrun2, hall2⟩ := readExponent_run s5 0 false
            rw [hend, List.append_nil] at hrun2
            have hhead : s5.head?.any isDigit = true := by
              cases hh : s5.head?.any (fun c => decide (48 ≤ c ∧ c ≤ 57))
              · rw [hh] at c4
                exact absurd rfl c4
              · cases s5 with
                | nil => simp at hh
                | cons d ds =>
                  simp only [List.head?_cons, Option.any_some, decide_eq_true_eq] at hh
                  simp [isDigit, hh.1, hh.2]
            simp only [exponentText, hs5def, hexp, beq_self_eq_true, Bool.true_and, hhead]
            rw [hrun2]
            exact hall2
    simp [numericText, hnum]

/-- A text that is not numeric is not converted: the result is `nil`. -/
theorem convertFloatTimestamp_of_not_numeric (zone : Int → Int) (outOfRange : Float64 → Int)
    (s : GoString) (hs : numericText s = false) :
    convertFloatTimestamp zone outOfRange s = none := by
  cases hp : ParseFloat s with
  | none => simp only [convertFloatTimestamp, hp]
  | some f =>
    rw [ParseFloat_numericText s f hp] at hs
    cases hs

/-- A decimal integer equal to -1, such as `-1` and `-01`, is not converted: the result is
`nil`. -/
theorem convertFloatTimestamp_minus_one (zone : Int → Int) (outOfRange : Float64 → Int)
    (sign digits : GoString) (hint : decimalInteger sign digits)
    (hv : integerValue sign digits = -1) :
    convertFloatTimestamp zone outOfRange (sign ++ digits) = none := by
  have hs : sign = [45] ∧ natOfDigits digits = 1 := by
    unfold integerValue at hv
    by_cases h : sign = [45]
    · rw [if_pos h] at hv
      exact ⟨h, by omega⟩
    · rw [if_neg h] at hv
      omega
  have hp : ParseFloat (sign ++ digits) = some (Float64.finite true (2 ^ 52) (-52)) := by
    rw [ParseFloat_decimalInteger sign digits hint, hs.1, hs.2]
    rfl
  simp only [convertFloatTimestamp, hp]
  rfl

/-- The names of the infinities and of the value that is not a number are converted: the
result is not `nil`, whatever the zone and the platform. -/
theorem convertFloatTimestamp_of_name (zone : Int → Int) (outOfRange : Float64 → Int) :
    (convertFloatTimestamp zone outOfRange (ascii "NaN")).isSome = true
    ∧ (convertFloatTimestamp zone outOfRange (ascii "nan")).isSome = true
    ∧ (convertFloatTimestamp zone outOfRange (ascii "Inf")).isSome = true
    ∧ (convertFloatTimestamp zone outOfRange (ascii "-inf")).isSome = true
    ∧ (convertFloatTimestamp zone outOfRange (ascii "Infinity")).isSome = true
    ∧ (convertFloatTimestamp zone outOfRange (ascii "+infinity")).isSome = true := by
  have h1 : ParseFloat (ascii "NaN") = some Float64.nan := by rfl
  have h2 : ParseFloat (ascii "nan") = some Float64.nan := by rfl
  have h3 : ParseFloat (ascii "Inf") = some (Float64.inf false) := by rfl
  have h4 : ParseFloat (ascii "-inf") = some (Float64.inf true) := by rfl
  have h5 : ParseFloat (ascii "Infinity") = some (Float64.inf false) := by rfl
  have h6 : ParseFloat (ascii "+infinity") = some (Float64.inf false) := by rfl
  simp only [convertFloatTimestamp, h1, h2, h3, h4, h5, h6, Float64.isMinusOne,
    Bool.false_eq_true, if_false, Option.isSome_some, and_self]

/-! ## The calendar of `civilFromDays` -/

theorem yearOfEra_step (n : Nat) : yearOfEra n ≤ yearOfEra (n + 1) := by
  unfold yearOfEra
  apply Nat.div_le_div_right
  omega

theorem yearOfEra_mono {a b : Nat} (h : a ≤ b) : yearOfEra a ≤ yearOfEra b := by
  induction h with
  | refl => exact Nat.le_refl _
  | step _ ih => exact Nat.le_trans ih (yearOfEra_step _)

theorem yearOfEra_ends : ∀ y < 400,
    yearOfEra (yearStart y) = y ∧ yearOfEra (yearStart (y + 1) - 1) = y := by
  decide!

theorem yearStart_lt (y : Nat) : yearStart y < yearStart (y + 1) := by
  unfold yearStart
  omega

theorem exists_year (doe : Nat) : ∃ y, yearStart y ≤ doe ∧ doe < yearStart (y + 1) := by
  induction doe with
  | zero => exact ⟨0, by decide, by decide⟩
  | succ n ih =>
    obtain ⟨y, h1, h2⟩ := ih
    by_cases h : n + 1 < yearStart (y + 1)
    · exact ⟨y, by omega, h⟩
    · exact ⟨y + 1, by omega, by have := yearStart_lt (y + 1); omega⟩

theorem yearStart_mono {a b : Nat} (h : a ≤ b) : yearStart a ≤ yearStart b := by
  induction h with
  | refl => exact Nat.le_refl _
  | step _ ih => exact Nat.le_trans ih (Nat.le_of_lt (yearStart_lt _))

/-- The year of the era of a day: the year whose days hold it. -/
theorem yearOfEra_eq (y doe : Nat) (h1 : yearStart y ≤ doe) (h2 : doe < yearStart (y + 1))
    (h : doe < 146097) : yearOfEra doe = y := by
  have hy : y < 400 := by
    by_contra hc
    have := yearStart_mono (Nat.le_of_not_lt hc)
    have h400 : yearStart 400 = 146097 := by decide
    omega
  obtain ⟨e1, e2⟩ := yearOfEra_ends y hy
  have a1 := yearOfEra_mono h1
  have a2 := yearOfEra_mono (show doe ≤ yearStart (y + 1) - 1 by omega)
  omega

/-- The date of a day from the place of the day in its era. -/
theorem civilFromDays_eq (z era : Int) (yoe doy : Nat)
    (hd : yearStart yoe + doy < yearStart (yoe + 1)) (hy : yoe < 400)
    (hz : z + 719468 = era * 146097 + ((yearStart yoe + doy : Nat) : Int)) :
    civilFromDays z
      = (if (monthDay doy).1 ≤ 2 then (yoe : Int) + era * 400 + 1 else (yoe : Int) + era * 400,
          (monthDay doy).1, (monthDay doy).2) := by
  have h400 : yearStart 400 = 146097 := by decide
  have hle := yearStart_mono (show yoe + 1 ≤ 400 by omega)
  have hlt : yearStart yoe + doy < 146097 := by omega
  have hera : (z + 719468) / 146097 = era := by omega
  have hdoe : ((z + 719468) % 146097).toNat = yearStart yoe + doy := by omega
  have hyoe := yearOfEra_eq yoe (yearStart yoe + doy) (by omega) hd hlt
  have hdoy : yearStart yoe + doy - (365 * yoe + yoe / 4 - yoe / 100) = doy := by
    unfold yearStart
    omega
  simp only [civilFromDays, hera, hdoe, hyoe, hdoy]

/-- Every day has a place in an era. -/
theorem exists_place (z : Int) : ∃ (era : Int) (yoe doy : Nat),
    yearStart yoe + doy < yearStart (yoe + 1) ∧ yoe < 400
      ∧ z + 719468 = era * 146097 + ((yearStart yoe + doy : Nat) : Int) := by
  obtain ⟨y, h1, h2⟩ := exists_year ((z + 719468) % 146097).toNat
  have h400 : yearStart 400 = 146097 := by decide
  have hy : y < 400 := by
    by_contra hc
    have := yearStart_mono (Nat.le_of_not_lt hc)
    omega
  refine ⟨(z + 719468) / 146097, y, ((z + 719468) % 146097).toNat - yearStart y, ?_, hy, ?_⟩
  · omega
  · omega

/-- The length of a year of the era, which ends with February: 366 days when the
calendar year of that February is a leap year. -/
theorem yearStart_succ (era : Int) (yoe : Nat) (hy : yoe < 400) :
    yearStart (yoe + 1)
      = yearStart yoe + 365 + (if isLeapYear ((yoe : Int) + era * 400 + 1) then 1 else 0) := by
  unfold yearStart
  by_cases h : isLeapYear ((yoe : Int) + era * 400 + 1) = true
  · rw [if_pos h]
    simp only [isLeapYear, Bool.and_eq_true, Bool.or_eq_true, beq_iff_eq, bne_iff_ne, ne_eq] at h
    omega
  · rw [if_neg h]
    simp only [isLeapYear, Bool.and_eq_true, Bool.or_eq_true, beq_iff_eq, bne_iff_ne, ne_eq] at h
    omega

/-- The month and day of the day after, inside a year of the era; `feb` is the length of
its February. -/
theorem monthDay_step : ∀ doy < 365, ∀ feb, (feb = 28 ∨ feb = 29) → doy + 1 < 337 + feb →
    ((monthDay doy).2 < monthLength feb (monthDay doy).1
        ∧ monthDay (doy + 1) = ((monthDay doy).1, (monthDay doy).2 + 1))
      ∨ (¬ (monthDay doy).2 < monthLength feb (monthDay doy).1
        ∧ (monthDay doy).1 ≠ 2 ∧ (monthDay doy).1 < 12
        ∧ monthDay (doy + 1) = ((monthDay doy).1 + 1, 1))
      ∨ (¬ (monthDay doy).2 < monthLength feb (monthDay doy).1
        ∧ (monthDay doy).1 = 12 ∧ monthDay (doy + 1) = (1, 1)) := by
  have hall : ∀ doy < 365, ∀ leap < 2, doy + 1 < 365 + leap →
    ((monthDay doy).2 < monthLength (28 + leap) (monthDay doy).1
        ∧ monthDay (doy + 1) = ((monthDay doy).1, (monthDay doy).2 + 1))
      ∨ (¬ (monthDay doy).2 < monthLength (28 + leap) (monthDay doy).1
        ∧ (monthDay doy).1 ≠ 2 ∧ (monthDay doy).1 < 12
        ∧ monthDay (doy + 1) = ((monthDay doy).1 + 1, 1))
      ∨ (¬ (monthDay doy).2 < monthLength (28 + leap) (monthDay doy).1
        ∧ (monthDay doy).1 = 12 ∧ monthDay (doy + 1) = (1, 1)) := by
    set_option synthInstance.maxSize 2000 in
    set_option synthInstance.maxHeartbeats 200000 in
    decide!
  intro doy hdoy feb hfeb hlen
  rcases hfeb with h | h
  · subst h
    exact hall doy hdoy 0 (by decide) (by omega)
  · subst h
    exact hall doy hdoy 1 (by decide) (by omega)

theorem monthLength_of_ne_two (feb feb2 m : Nat) (h : m ≠ 2) :
    monthLength feb m = monthLength feb2 m := by
  simp only [monthLength, if_neg h]

/-- The step of `monthDay_step` is the step of `nextDay`, with the year of January and
February one more than the year of the era. -/
theorem nextDay_of_step (y : Int) (m d m2 d2 : Nat)
    (hstep : (d < monthLength (if isLeapYear (y + 1) then 29 else 28) m ∧ (m2, d2) = (m, d + 1))
      ∨ (¬ d < monthLength (if isLeapYear (y + 1) then 29 else 28) m ∧ m ≠ 2 ∧ m < 12
          ∧ (m2, d2) = (m + 1, 1))
      ∨ (¬ d < monthLength (if isLeapYear (y + 1) then 29 else 28) m ∧ m = 12
          ∧ (m2, d2) = (1, 1))) :
    (if m2 ≤ 2 then y + 1 else y, m2, d2) = nextDay (if m ≤ 2 then y + 1 else y, m, d) := by
  have hlen : daysInMonth (if m ≤ 2 then y + 1 else y) m
      = monthLength (if isLeapYear (y + 1) then 29 else 28) m := by
    by_cases hm : m ≤ 2
    · simp only [daysInMonth, if_pos hm]
    · simp only [daysInMonth, if_neg hm]
      exact monthLength_of_ne_two _ _ m (by omega)
  simp only [nextDay, hlen]
  rcases hstep with ⟨h1, h2⟩ | ⟨h1, h2, h3, h4⟩ | ⟨h1, h2, h3⟩
  · simp only [Prod.mk.injEq] at h2
    rw [if_pos h1, h2.1, h2.2]
  · simp only [Prod.mk.injEq] at h4
    rw [if_neg h1, if_pos h3, h4.1, h4.2]
    by_cases hm : m ≤ 2
    · rw [if_pos hm, if_pos (by omega)]
    · rw [if_neg hm, if_neg (by omega)]
  · simp only [Prod.mk.injEq] at h3
    subst h2
    rw [if_neg h1, if_neg (show ¬ (12 : Nat) < 12 by decide), h3.1, h3.2,
      if_pos (show (1 : Nat) ≤ 2 by decide), if_neg (show ¬ (12 : Nat) ≤ 2 by decide)]

/-- The calendar of `civilFromDays`: the day 0 is 1970-01-01, and the date of the day
after a day is the next date by the Gregorian rule, `nextDay`. -/
theorem civilFromDays_calendar (z : Int) :
    civilFromDays 0 = (1970, 1, 1) ∧ civilFromDays (z + 1) = nextDay (civilFromDays z) := by
  refine ⟨by decide, ?_⟩
  obtain ⟨era, yoe, doy, hd, hy, hz⟩ := exists_place z
  have hlen := yearStart_succ era yoe hy
  have hfeb : (if isLeapYear ((yoe : Int) + era * 400 + 1) then 29 else 28) = 28 ∨
      (if isLeapYear ((yoe : Int) + era * 400 + 1) then 29 else 28) = 29 := by
    by_cases h : isLeapYear ((yoe : Int) + era * 400 + 1) = true
    · exact Or.inr (if_pos h)
    · exact Or.inl (if_neg h)
  have hfebLen : yearStart (yoe + 1) = yearStart yoe + 337
      + (if isLeapYear ((yoe : Int) + era * 400 + 1) then 29 else 28) := by
    by_cases h : isLeapYear ((yoe : Int) + era * 400 + 1) = true
    · rw [if_pos h] at hlen ⊢
      omega
    · rw [if_neg h] at hlen ⊢
      omega
  rw [civilFromDays_eq z era yoe doy hd hy hz]
  by_cases hlast : yearStart yoe + (doy + 1) < yearStart (yoe + 1)
  · -- the day after lies in the same year of the era
    rw [civilFromDays_eq (z + 1) era yoe (doy + 1) hlast hy (by push_cast at hz ⊢; omega)]
    have hstep := monthDay_step doy (by omega) _ hfeb (by omega)
    exact nextDay_of_step _ _ _ _ _ hstep
  · -- the day is the last of February, the last day of the year of the era
    have h0 : monthDay 0 = (3, 1) := by decide
    have hnext : civilFromDays (z + 1) = ((yoe : Int) + era * 400 + 1, 3, 1) := by
      by_cases h399 : yoe = 399
      · have h400 : yearStart (399 + 1) = 146097 := by decide
        have h00 : yearStart 0 = 0 := by decide
        subst h399
        rw [civilFromDays_eq (z + 1) (era + 1) 0 0 (by decide) (by decide)
          (by push_cast at hz ⊢; omega), h0]
        simp only [Nat.cast_zero, Nat.cast_ofNat, Prod.mk.injEq, and_true]
        rw [if_neg (by decide)]
        omega
      · rw [civilFromDays_eq (z + 1) era (yoe + 1) 0
          (by have := yearStart_lt (yoe + 1); omega) (by omega)
          (by push_cast at hz ⊢; omega), h0]
        simp only [Prod.mk.injEq, and_true]
        rw [if_neg (by decide)]
        push_cast
        omega
    rw [hnext]
    have hdoy : doy + 1 = 337 + (if isLeapYear ((yoe : Int) + era * 400 + 1) then 29 else 28) := by
      omega
    have hmd : monthDay doy
        = (2, if isLeapYear ((yoe : Int) + era * 400 + 1) then 29 else 28) := by
      rcases hfeb with h | h
      · rw [h] at hdoy ⊢
        have : doy = 364 := by omega
        rw [this]
        decide
      · rw [h] at hdoy ⊢
        have : doy = 365 := by omega
        rw [this]
        decide
    rw [hmd]
    simp only [nextDay, daysInMonth, monthLength, if_pos (show (2 : Nat) ≤ 2 by decide),
      lt_self_iff_false, if_false, if_pos (show (2 : Nat) < 12 by decide), if_true]

/-! ## Scenario D and the time stamps: the claims -/

/-- C11 fails on the code: the payload of Scenario D has no `merged_at`, and
`InsertCsvData` reads it with the unchecked assertion `data["merged_at"].(string)`. With a
store, cache and broker that accept every call the payload decodes and the statement is
prepared, then the assertion panics before `stmt.Exec`: no row is inserted, no cache key
is set, the delivery is neither acknowledged nor rejected, and the worker ends. This holds
for the raw JSON as the body and for the body as the producer encodes it, whatever the
conversion of the time stamps is. -/
theorem scenarioD_panics_before_insert (convert : GoString → Option GoString) :
    (Unmarshal (unwrapBody (ascii
        "\x7b\"id\":\"7\",\"created_at\":\"-1\",\"deleted_at\":\"1700000000000\"\x7d"))).map
        (fun data => (data.get (ascii "id"), data.get (ascii "created_at"),
          data.get (ascii "deleted_at"), data.get (ascii "merged_at")))
      = some (JVal.str (ascii "7"), JVal.str (ascii "-1"), JVal.str (ascii "1700000000000"),
          JVal.null)
    ∧ (Unmarshal (unwrapBody (ascii
        "\x7b\"id\":\"7\",\"created_at\":\"-1\",\"deleted_at\":\"1700000000000\"\x7d"))).map
        (fun data => (InsertCsvData acceptAll convert data []).isPanic) = some true
    ∧ processMessage acceptAll convert (ascii
        "\x7b\"id\":\"7\",\"created_at\":\"-1\",\"deleted_at\":\"1700000000000\"\x7d") []
      = Result.panic [Event.prepare]
    ∧ (StartWorker acceptAll convert [ascii
        "\x7b\"id\":\"7\",\"created_at\":\"-1\",\"deleted_at\":\"1700000000000\"\x7d"] 1 []).crashed
      = true
    ∧ (StartWorker acceptAll convert [ascii
        "\x7b\"id\":\"7\",\"created_at\":\"-1\",\"deleted_at\":\"1700000000000\"\x7d"] 1 []).trace
      = [Event.prepare]
    ∧ processMessage acceptAll convert (publishBody (MarshalMap
        [(ascii "id", ascii "7"), (ascii "created_at", ascii "-1"),
         (ascii "deleted_at", ascii "1700000000000")])) []
      = Result.panic [Event.prepare]
    ∧ settlements (StartWorker acceptAll convert [publishBody (MarshalMap
        [(ascii "id", ascii "7"), (ascii "created_at", ascii "-1"),
         (ascii "deleted_at", ascii "1700000000000")])] 1 []).trace = [] := by
  refine ⟨by rfl, by rfl, by rfl, by rfl, by rfl, by rfl, by rfl⟩

/-- Scenario D with the field `merged_at` present as `-1`, the time stamps converted by
`convertFloatTimestamp` in the zone UTC: the row is inserted with `created_at` and
`merged_at` null and `deleted_at` `2023-11-14 22:13:20`, the cache key `7` is set to the
raw JSON, and the delivery is acknowledged. -/
theorem scenarioD_with_merged_at (outOfRange : Float64 → Int) :
    StartWorker acceptAll (convertFloatTimestamp utc outOfRange) [ascii
      "\x7b\"id\":\"7\",\"created_at\":\"-1\",\"deleted_at\":\"1700000000000\",\"merged_at\":\"-1\"\x7d"]
      1 []
      = ⟨[Event.prepare,
         Event.exec ⟨JVal.str (ascii "7"), JVal.null, JVal.null, JVal.null, none,
           some (ascii "2023-11-14 22:13:20"), none, JVal.null⟩,
         Event.cacheSet (ascii "7") (ascii
           "\x7b\"id\":\"7\",\"created_at\":\"-1\",\"deleted_at\":\"1700000000000\",\"merged_at\":\"-1\"\x7d"),
         Event.ack 1 false], false⟩ := by
  have hrun : ∀ convert : GoString → Option GoString,
      StartWorker acceptAll convert [ascii
        "\x7b\"id\":\"7\",\"created_at\":\"-1\",\"deleted_at\":\"1700000000000\",\"merged_at\":\"-1\"\x7d"]
        1 []
      = ⟨[Event.prepare,
         Event.exec ⟨JVal.str (ascii "7"), JVal.null, JVal.null, JVal.null,
           convert (ascii "-1"), convert (ascii "1700000000000"), convert (ascii "-1"),
           JVal.null⟩,
         Event.cacheSet (ascii "7") (ascii
           "\x7b\"id\":\"7\",\"created_at\":\"-1\",\"deleted_at\":\"1700000000000\",\"merged_at\":\"-1\"\x7d"),
         Event.ack 1 false], false⟩ := fun _ => rfl
  have hminus : convertFloatTimestamp utc outOfRange (ascii "-1") = none := by
    have hp : ParseFloat (ascii "-1") = some (Float64.finite true (2 ^ 52) (-52)) := by rfl
    simp only [convertFloatTimestamp, hp]
    rfl
  have hstamp : convertFloatTimestamp utc outOfRange (ascii "1700000000000")
      = some (ascii "2023-11-14 22:13:20") := by
    have h := convertFloatTimestamp_integer utc outOfRange [] (ascii "1700000000000")
      (by decide) (by decide) (by decide)
    rw [List.nil_append] at h
    rw [h]
    decide
  rw [hrun, hminus, hstamp]

/-- C12 as stated fails: the names `NaN` and `Infinity` are not numeric, yet
`strconv.ParseFloat` accepts them and `convertFloatTimestamp` returns a time stamp, not
`nil`. Where `int64` of such a value is 0 the result for `NaN` is `1970-01-01 00:00:00`
in UTC; where it is the least `int64` the result is not `nil` either. -/
theorem names_are_converted :
    convertFloatTimestamp utc (fun _ => 0) (ascii "NaN") = some (ascii "1970-01-01 00:00:00")
    ∧ (convertFloatTimestamp utc (fun _ => -9223372036854775808) (ascii "NaN")).isSome = true
    ∧ convertFloatTimestamp utc (fun _ => 0) (ascii "Infinity")
        = some (ascii "1970-01-01 00:00:00")
    ∧ (convertFloatTimestamp utc (fun _ => -9223372036854775808) (ascii "Infinity")).isSome
        = true := by
  refine ⟨by decide, by decide, by decide, by decide⟩

/-- What is a numeric text and what is not: letters, an exponent without digits, two
signs, two points, the empty text, a blank and `0x` without an exponent are not; decimal
and hexadecimal numbers and the names of the infinities and of NaN are. -/
theorem numericText_examples :
    numericText (ascii "abc") = false ∧ numericText (ascii "1e") = false
    ∧ numericText (ascii "--5") = false ∧ numericText (ascii "1.2.3") = false
    ∧ numericText (ascii "") = false ∧ numericText (ascii "12 ") = false
    ∧ numericText (ascii "0x10") = false ∧ numericText (ascii ".") = false
    ∧ numericText (ascii "-") = false ∧ numericText (ascii "+nan") = false
    ∧ numericText (ascii "1700000000000") = true ∧ numericText (ascii "-1") = true
    ∧ numericText (ascii "1.5e-3") = true ∧ numericText (ascii "0x1p10") = true
    ∧ numericText (ascii "NaN") = true ∧ numericText (ascii "-Infinity") = true
    ∧ numericText (ascii "1_000") = true ∧ numericText (ascii ".5") = true := by
  decide

/-- C12, amended: for every zone of the process and every platform (what `int64` gives
out of range), the result of `convertFloatTimestamp` is `nil` for every text that is not
a numeric text (`numericText`: an optional sign and a number with at least one digit, at
most one point and a well-formed exponent, or the name of an infinity or of NaN), hence
for every text with a byte no such text has and, as the code tests it, for every text
`strconv.ParseFloat` rejects; it is `nil` for every text whose float64 value is -1, for
the text `-1` and for every decimal integer equal to -1; it is not `nil` for the names
`NaN`, `Inf` and `Infinity`; and for every decimal integer `m` (an optional sign and
digits) with `|m| < 2^53` and `m ≠ -1` it is the `2006-01-02 15:04:05` rendering of the
instant `m / 1000` seconds after the Unix epoch, the quotient truncated toward zero, so
two such inputs with the same quotient give the same result. -/
theorem timestamp_coercion (zone : Int → Int) (outOfRange : Float64 → Int)
    (sign digits : GoString) (hint : decimalInteger sign digits)
    (h53 : natOfDigits digits < 2 ^ 53) :
    (∀ s, numericText s = false → convertFloatTimestamp zone outOfRange s = none)
    ∧ (∀ s, ParseFloat s = none → convertFloatTimestamp zone outOfRange s = none)
    ∧ (∀ s c, c ∈ s → ¬ floatByte c → convertFloatTimestamp zone outOfRange s = none)
    ∧ (∀ s f, ParseFloat s = some f → f.isMinusOne = true →
        convertFloatTimestamp zone outOfRange s = none)
    ∧ convertFloatTimestamp zone outOfRange (ascii "-1") = none
    ∧ ((convertFloatTimestamp zone outOfRange (ascii "NaN")).isSome = true
      ∧ (convertFloatTimestamp zone outOfRange (ascii "Inf")).isSome = true
      ∧ (convertFloatTimestamp zone outOfRange (ascii "Infinity")).isSome = true)
    ∧ convertFloatTimestamp zone outOfRange (sign ++ digits)
        = (if integerValue sign digits = -1 then none
          else some (formatUnix zone (Int.tdiv (integerValue sign digits) 1000)))
    ∧ (integerValue sign digits ≠ -1 →
        ∀ sign2 digits2, decimalInteger sign2 digits2 → natOfDigits digits2 < 2 ^ 53 →
        integerValue sign2 digits2 ≠ -1 →
        Int.tdiv (integerValue sign2 digits2) 1000 = Int.tdiv (integerValue sign digits) 1000 →
        convertFloatTimestamp zone outOfRange (sign2 ++ digits2)
          = convertFloatTimestamp zone outOfRange (sign ++ digits)) := by
  have key := convertFloatTimestamp_integer zone outOfRange
  have hname := convertFloatTimestamp_of_name zone outOfRange
  refine ⟨convertFloatTimestamp_of_not_numeric zone outOfRange, ?_,
    convertFloatTimestamp_of_bad_byte zone outOfRange, ?_,
    convertFloatTimestamp_minus_one zone outOfRange [45] [49] (by decide) (by decide),
    ⟨hname.1, hname.2.2.1, hname.2.2.2.2.1⟩, ?_, ?_⟩
  · intro s hs
    simp [convertFloatTimestamp, hs]
  · intro s f hs hm
    simp [convertFloatTimestamp, hs, hm]
  · by_cases hv : integerValue sign digits = -1
    · rw [if_pos hv]
      exact convertFloatTimestamp_minus_one zone outOfRange sign digits hint hv
    · rw [if_neg hv]
      exact key sign digits hint h53 hv
  · intro hne sign2 digits2 hi2 hb2 hv2 hq
    rw [key sign2 digits2 hi2 hb2 hv2, key sign digits hint h53 hne, hq]

/-- C12 at the texts `1700000000000`, `-1` and `-01` in the zone UTC: the first gives
`2023-11-14 22:13:20`, as `1700000000999` does, whose quotient by 1000 is the same; the
other two give `nil`. -/
theorem timestamp_coercion_witness :
    convertFloatTimestamp utc (fun _ => 0) ([] ++ ascii "1700000000000")
        = some (ascii "2023-11-14 22:13:20")
    ∧ convertFloatTimestamp utc (fun _ => 0) ([] ++ ascii "1700000000999")
        = convertFloatTimestamp utc (fun _ => 0) ([] ++ ascii "1700000000000")
    ∧ convertFloatTimestamp utc (fun _ => 0) (ascii "-" ++ ascii "1") = none
    ∧ convertFloatTimestamp utc (fun _ => 0) (ascii "-" ++ ascii "01") = none :=
  ⟨(timestamp_coercion utc (fun _ => 0) [] (ascii "1700000000000")
      (by decide) (by decide)).2.2.2.2.2.2.1.trans (by decide),
   (timestamp_coercion utc (fun _ => 0) [] (ascii "1700000000000")
      (by decide) (by decide)).2.2.2.2.2.2.2 (by decide) [] (ascii "1700000000999")
      (by decide) (by decide) (by decide) (by decide),
   (timestamp_coercion utc (fun _ => 0) (ascii "-") (ascii "1")
      (by decide) (by decide)).2.2.2.2.2.2.1.trans (by decide),
   (timestamp_coercion utc (fun _ => 0) (ascii "-") (ascii "01")
      (by decide) (by decide)).2.2.2.2.2.2.1.trans (by decide)⟩

set_option maxRecDepth 8000 in
/-- What `strconv.ParseFloat` takes for a number: texts that are rejected, and so give
`nil`; spellings of -1, which give `nil`; a negative integer, whose quotient is truncated
toward zero; and the spellings of infinity and NaN, which are accepted. -/
theorem convertFloatTimestamp_examples :
    convertFloatTimestamp utc (fun _ => 0) (ascii "") = none
    ∧ convertFloatTimestamp utc (fun _ => 0) (ascii "abc") = none
    ∧ convertFloatTimestamp utc (fun _ => 0) (ascii "12 ") = none
    ∧ convertFloatTimestamp utc (fun _ => 0) (ascii "-1") = none
    ∧ convertFloatTimestamp utc (fun _ => 0) (ascii "-1.0") = none
    ∧ convertFloatTimestamp utc (fun _ => 0) (ascii "-01e0") = none
    ∧ convertFloatTimestamp utc (fun _ => 0) (ascii "-1500") = some (ascii "1969-12-31 23:59:59")
    ∧ convertFloatTimestamp utc (fun _ => 0) (ascii "0") = some (ascii "1970-01-01 00:00:00")
    ∧ convertFloatTimestamp utc (fun _ => 0) (ascii "951782400000")
        = some (ascii "2000-02-29 00:00:00")
    ∧ (convertFloatTimestamp utc (fun _ => 0) (ascii "NaN")).isSome = true
    ∧ (convertFloatTimestamp utc (fun _ => 0) (ascii "Infinity")).isSome = true := by
  refine ⟨by decide, by decide, by decide, by decide, by decide, by decide, by decide,
    by decide, by decide, by decide, by decide⟩

/-! ## The broker connection: the claim -/

/-- The first call of `InitializeRabbitMQ`, as `main` makes it at start with a reachable
broker: the variable is `nil`, a client with an open connection and channel is stored and
no error is returned; a publish by that client is sent. -/
theorem first_initialization_connects (payload : GoString) :
    InitializeRabbitMQ ⟨true, true, true⟩ none = (none, some ⟨some ⟨false⟩, some ⟨false⟩⟩)
    ∧ Publish ⟨true, true, true⟩ ⟨some ⟨false⟩, some ⟨false⟩⟩
        (some ⟨some ⟨false⟩, some ⟨false⟩⟩) payload
      = (PublishOutcome.sent (publishBody payload), some ⟨some ⟨false⟩, some ⟨false⟩⟩) :=
  ⟨rfl, rfl⟩

/-- C13 fails on the code: `CheckConnection` reconnects by calling `InitializeRabbitMQ`,
which returns `RabbitMQ already initialized` whenever the process-wide instance exists.
So for every broker, reachable or not, every client whose connection is `nil` or closed
and every existing instance, no connection is made, the instance is left as it was,
`CheckConnection` returns the reconnect error and `Publish` returns `failed to publish
message` without sending anything. -/
theorem reconnect_never_happens (broker : Broker) (r current : RabbitMQ) (payload : GoString)
    (hdead : r.connection = none ∨ r.connection = some ⟨true⟩) :
    InitializeRabbitMQ broker (some current)
      = (some BrokerError.alreadyInitialized, some current)
    ∧ CheckConnection broker r (some current)
      = (some (BrokerError.reconnectFailed BrokerError.alreadyInitialized), some current)
    ∧ Publish broker r (some current) payload
      = (PublishOutcome.failed (BrokerError.publishFailed
          (BrokerError.reconnectFailed BrokerError.alreadyInitialized)), some current) := by
  have hcheck : CheckConnection broker r (some current)
      = (some (BrokerError.reconnectFailed BrokerError.alreadyInitialized), some current) := by
    simp only [CheckConnection, if_pos hdead, InitializeRabbitMQ]
  exact ⟨rfl, hcheck, by simp only [Publish, hcheck]⟩

/-- C13 at a reachable broker that accepts every publish: the instance is the client
itself, with its connection closed in the first case and `nil` in the second; the publish
of `{"id":"1"}` fails with the reconnect error and the instance stays dead. -/
theorem reconnect_never_happens_witness :
    Publish ⟨true, true, true⟩ ⟨some ⟨true⟩, some ⟨true⟩⟩ (some ⟨some ⟨true⟩, some ⟨true⟩⟩)
        (ascii "\x7b\"id\":\"1\"\x7d")
      = (PublishOutcome.failed (BrokerError.publishFailed
          (BrokerError.reconnectFailed BrokerError.alreadyInitialized)),
          some ⟨some ⟨true⟩, some ⟨true⟩⟩)
    ∧ Publish ⟨true, true, true⟩ ⟨none, none⟩ (some ⟨none, none⟩) (ascii "\x7b\"id\":\"1\"\x7d")
      = (PublishOutcome.failed (BrokerError.publishFailed
          (BrokerError.reconnectFailed BrokerError.alreadyInitialized)), some ⟨none, none⟩) :=
  ⟨(reconnect_never_happens ⟨true, true, true⟩ ⟨some ⟨true⟩, some ⟨true⟩⟩
      ⟨some ⟨true⟩, some ⟨true⟩⟩ (ascii "\x7b\"id\":\"1\"\x7d") (Or.inr rfl)).2.2,
   (reconnect_never_happens ⟨true, true, true⟩ ⟨none, none⟩ ⟨none, none⟩
      (ascii "\x7b\"id\":\"1\"\x7d") (Or.inl rfl)).2.2⟩

/-! ## The read handler: the claim -/

/-- The query of the test, `limit=1&offset=5`, gives the limit 1, the offset 5 and no
filter; a missing or malformed number is read as 0 and passed on; a name that is not a
filter key is dropped, and a key keeps its first value. -/
theorem query_examples :
    getPaginationParams [(ascii "limit", ascii "1"), (ascii "offset", ascii "5")] = (1, 5)
    ∧ parseFilters [(ascii "limit", ascii "1"), (ascii "offset", ascii "5")] = []
    ∧ getPaginationParams [] = (0, 0)
    ∧ getPaginationParams [(ascii "limit", ascii "ten"), (ascii "offset", ascii "-3")]
        = (0, -3)
    ∧ parseFilters [(ascii "id", ascii "7"), (ascii "colour", ascii "red"),
        (ascii "first_name", ascii ""), (ascii "id", ascii "8")] = [(ascii "id", ascii "7")] := by
  refine ⟨by decide, by decide, by decide, by decide, by decide⟩

/-- The texts of the rows, one for each row and in the order of the rows, are what
`marshalRows` returns. -/
theorem marshalRows_of_rowwise (formatFloat : Float64 → GoString) (data : List RowData)
    (texts : List GoString)
    (h : List.Forall₂ (fun row text => marshalRow formatFloat row = some text) data texts) :
    marshalRows formatFloat data = some texts := by
  induction h with
  | nil => rfl
  | cons hrow _ ih => simp only [marshalRows, hrow, ih]

theorem mem_insertColumn (x kv : GoString × DriverValue) (row : RowData) :
    x ∈ insertColumn kv row ↔ x = kv ∨ x ∈ row := by
  induction row with
  | nil => simp [insertColumn]
  | cons e rest ih =>
    unfold insertColumn
    by_cases h : strLe kv.1 e.1 = true
    · rw [if_pos h]
      simp
    · rw [if_neg h]
      simp only [List.mem_cons, ih]
      tauto

theorem mem_sorted_columns (x : GoString × DriverValue) (row : RowData) :
    x ∈ row.foldr insertColumn [] ↔ x ∈ row := by
  induction row with
  | nil => simp
  | cons e rest ih => simp only [List.foldr_cons, mem_insertColumn, ih, List.mem_cons]

theorem marshalColumns_isSome (formatFloat : Float64 → GoString) (row : RowData) :
    (marshalColumns formatFloat row).isSome
      = row.all (fun kv => (marshalValue formatFloat kv.2).isSome) := by
  induction row with
  | nil => rfl
  | cons e rest ih =>
    obtain ⟨k, v⟩ := e
    simp only [marshalColumns, List.all_cons]
    rw [← ih]
    cases marshalValue formatFloat v <;> cases marshalColumns formatFloat rest <;> rfl

/-- A row converts to JSON exactly when each of its values does. -/
theorem marshalRow_isSome (formatFloat : Float64 → GoString) (row : RowData) :
    (marshalRow formatFloat row).isSome
      = row.all (fun kv => (marshalValue formatFloat kv.2).isSome) := by
  have h1 : (marshalRow formatFloat row).isSome
      = (marshalColumns formatFloat (row.foldr insertColumn [])).isSome := by
    unfold marshalRow
    cases marshalColumns formatFloat (row.foldr insertColumn []) <;> rfl
  rw [h1, marshalColumns_isSome, Bool.eq_iff_iff]
  simp only [List.all_eq_true, mem_sorted_columns]

/-- The rows convert to JSON exactly when each of them does. -/
theorem marshalRows_isSome (formatFloat : Float64 → GoString) (data : List RowData) :
    (marshalRows formatFloat data).isSome
      = data.all (fun row => row.all (fun kv => (marshalValue formatFloat kv.2).isSome)) := by
  induction data with
  | nil => rfl
  | cons row rows ih =>
    simp only [marshalRows, List.all_cons]
    rw [← ih, ← marshalRow_isSome]
    cases marshalRow formatFloat row <;> cases marshalRows formatFloat rows <;> rfl

/-- The values `json.Marshal` refuses: a NaN, an infinity, and a time whose year in its own
zone is outside 0 to 9999. -/
theorem marshalValue_eq_none (formatFloat : Float64 → GoString) (v : DriverValue) :
    marshalValue formatFloat v = none
      ↔ v = DriverValue.float64 Float64.nan ∨ (∃ neg, v = DriverValue.float64 (Float64.inf neg))
        ∨ ∃ sec nsec offset, v = DriverValue.time sec nsec offset
            ∧ ((civilFromDays ((sec + offset) / 86400)).1 < 0
              ∨ 10000 ≤ (civilFromDays ((sec + offset) / 86400)).1) := by
  cases v with
  | null => simp [marshalValue]
  | int64 i => simp [marshalValue]
  | float64 f => cases f <;> simp [marshalValue]
  | bool b => simp [marshalValue]
  | bytes b => simp [marshalValue]
  | string s => simp [marshalValue]
  | time sec nsec offset =>
    simp only [marshalValue, marshalTime, reduceCtorEq, false_or, exists_false,
      DriverValue.time.injEq]
    constructor
    · intro h
      split at h
      · rename_i hc
        exact ⟨sec, nsec, offset, ⟨rfl, rfl, rfl⟩, hc⟩
      · simp at h
    · rintro ⟨s, n, o, ⟨rfl, rfl, rfl⟩, hc⟩
      rw [if_pos hc]

/-- The status of the read handler when the store client initialises and the query
returns the rows `data`: 200 when every value of every row converts to JSON, 500 when one
does not. -/
theorem HandleGetData_status
    (getData : List (GoString × GoString) → Int → Int → Option (List RowData))
    (formatFloat : Float64 → GoString) (values : Values) (data : List RowData)
    (hquery : getData (parseFilters values) (getPaginationParams values).1
      (getPaginationParams values).2 = some data) :
    (HandleGetData true getData formatFloat values).status
      = if data.all (fun row => row.all (fun kv => (marshalValue formatFloat kv.2).isSome))
        then 200 else 500 := by
  rw [← marshalRows_isSome]
  cases data with
  | nil =>
    simp only [HandleGetData, hquery, List.length_nil, if_true, Bool.not_true,
      Bool.false_eq_true, if_false, marshalRows, Option.isSome_some]
  | cons row rows =>
    simp only [HandleGetData, hquery, MarshalRows, List.length_cons, Bool.not_true,
      Bool.false_eq_true, if_false]
    rw [if_neg (by omega)]
    cases marshalRows formatFloat (row :: rows) <;> rfl

/-- C14 as stated fails: the store client initialises and the query of `limit=1&offset=5`
returns one row without error, but the row holds a time in the year 10000 (the instant
253402300800), or a NaN, which `json.Marshal` refuses; the handler answers 500 with
`Failed to convert data to JSON`. No finite float is in the rows, so the text of one is
not asked for. -/
theorem HandleGetData_marshal_failure :
    HandleGetData true (fun _ _ _ => some [[(ascii "id", DriverValue.int64 7),
        (ascii "created_at", DriverValue.time 253402300800 0 0)]]) (fun _ => [])
        [(ascii "limit", ascii "1"), (ascii "offset", ascii "5")]
      = ⟨500, ascii "text/plain; charset=utf-8", ascii "Failed to convert data to JSON\n"⟩
    ∧ (HandleGetData true (fun _ _ _ => some [[(ascii "id", DriverValue.float64 Float64.nan)]])
        (fun _ => []) [(ascii "limit", ascii "1"), (ascii "offset", ascii "5")]).status = 500 :=
  ⟨by rfl, by rfl⟩

/-- C14, amended: for every query, when the store client initialises, `GetData` returns
the rows `data` without error for the filters, limit and offset of the query, and every
row converts to JSON, `texts` being the JSON objects of the rows in the order of the rows,
the handler answers 200 with `Content-Type: application/json`, and the body is `{}` when
there are no rows and otherwise the JSON array of `texts`. -/
theorem HandleGetData_response
    (getData : List (GoString × GoString) → Int → Int → Option (List RowData))
    (formatFloat : Float64 → GoString) (values : Values) (data : List RowData)
    (texts : List GoString)
    (hquery : getData (parseFilters values) (getPaginationParams values).1
      (getPaginationParams values).2 = some data)
    (hjson : List.Forall₂ (fun row text => marshalRow formatFloat row = some text) data texts) :
    HandleGetData true getData formatFloat values
      = ⟨200, ascii "application/json",
          if data.isEmpty then ascii "\x7b\x7d" else jsonArray texts⟩ := by
  have hrows := marshalRows_of_rowwise formatFloat data texts hjson
  cases data with
  | nil =>
    simp only [HandleGetData, hquery, List.length_nil, List.isEmpty_nil, if_true,
      Bool.not_true, Bool.false_eq_true, if_false]
    rfl
  | cons row rows =>
    simp only [HandleGetData, hquery, MarshalRows, hrows, List.length_cons, List.isEmpty_cons,
      Bool.not_true, Bool.false_eq_true, if_false, Option.map_some']
    rfl

/-- C14 at the query `limit=1&offset=5` and a store that answers the limit 1 and the
offset 5 without filters with one row, and at a store without rows: the body is the array
of the one row, its columns in the order of their names, and `{}`. -/
theorem HandleGetData_response_witness :
    HandleGetData true
        (fun filters limit offset =>
          if filters = [] ∧ limit = 1 ∧ offset = 5 then
            some [[(ascii "id", DriverValue.int64 7),
              (ascii "first_name", DriverValue.string (ascii "Ann")),
              (ascii "created_at", DriverValue.time 1700000000 0 0),
              (ascii "deleted_at", DriverValue.null)]]
          else none)
        (fun _ => []) [(ascii "limit", ascii "1"), (ascii "offset", ascii "5")]
      = ⟨200, ascii "application/json", ascii
          "[\x7b\"created_at\":\"2023-11-14T22:13:20Z\",\"deleted_at\":null,\"first_name\":\"Ann\",\"id\":7\x7d]"⟩
    ∧ HandleGetData true (fun _ _ _ => some []) (fun _ => [])
        [(ascii "limit", ascii "1"), (ascii "offset", ascii "5")]
      = ⟨200, ascii "application/json", ascii "\x7b\x7d"⟩ :=
  ⟨HandleGetData_response _ (fun _ => []) [(ascii "limit", ascii "1"), (ascii "offset", ascii "5")]
      [[(ascii "id", DriverValue.int64 7),
        (ascii "first_name", DriverValue.string (ascii "Ann")),
        (ascii "created_at", DriverValue.time 1700000000 0 0),
        (ascii "deleted_at", DriverValue.null)]]
      [ascii "\x7b\"created_at\":\"2023-11-14T22:13:20Z\",\"deleted_at\":null,\"first_name\":\"Ann\",\"id\":7\x7d"]
      (by rfl) (List.Forall₂.cons (by rfl) List.Forall₂.nil),
   HandleGetData_response _ (fun _ => []) [(ascii "limit", ascii "1"), (ascii "offset", ascii "5")]
      [] [] (by rfl) List.Forall₂.nil⟩

end CsvHandler
